import Mathlib

/-!
# Image domain qualification: `pkg/util/parsers` and the `alwaysqualifyimages` admission plugin

A shallow embedding of

* `pkg/util/parsers/parsers.go` (`ParseImageName`, `SplitImageName`),
* `plugin/pkg/admission/alwaysqualifyimages/domain.go` (`NewDomain`),
* `plugin/pkg/admission/alwaysqualifyimages/admission.go`
  (`hasDomain`, `qualifyContainerImages`, `Admit`, `shouldIgnore`,
  `NewAlwaysQualifyImages`),

together with a model of the part of the vendored package
`github.com/docker/distribution/reference` these functions call.

Conventions.

* A Go `string` is a Lean `String`.  Go indexes strings by byte; the only
  indices the embedded code computes are positions of the ASCII characters
  `/`, `:` and `@`, so slicing at the corresponding character position of
  the Lean string yields the same two pieces.
* A Go `error` is an `Option Error`, `none` being `nil`; an error value is
  represented by its message.
* A Go function with several results returns a tuple, in the same order.
* A Go slice that is mutated in place is passed in and returned explicitly.
-/

/-- A Go error value, represented by its message (`err.Error()`). -/
abbrev Error := String

/-! ## Go string primitives -/

namespace strings

/-- Position of the first element equal to `r`, if any. -/
def indexOf (r : Char) : List Char → Option Nat
  | [] => none
  | c :: cs => if c = r then some 0 else (indexOf r cs).map (· + 1)

/-- Go `strings.IndexRune(s, r)`; `none` stands for `-1`. -/
def IndexRune (s : String) (r : Char) : Option Nat := indexOf r s.data

/-- Go `strings.ContainsAny(s, chars)`. -/
def ContainsAny (s chars : String) : Bool := s.data.any (fun c => chars.data.contains c)

/-- Go `strings.Contains(s, substr)` for a one-character `substr`. -/
def ContainsChar (s : String) (c : Char) : Bool := s.data.contains c

/-- Lower-case mapping of one character, on the ASCII letters. -/
def lowerChar (c : Char) : Char :=
  if 65 ≤ c.toNat ∧ c.toNat ≤ 90 then Char.ofNat (c.toNat + 32) else c

/-- Go `strings.ToLower(s)`, on the ASCII letters.  The library maps every
Unicode upper-case letter; a string with a non-ASCII character is rejected by
the reference grammar either way, so the difference can only show in which
error message a rejected string gets. -/
def ToLower (s : String) : String := ⟨s.data.map lowerChar⟩

/-- Go `strings.Split(s, sep)` for a one-character separator, on the
characters of the string. -/
def splitChars (sep : Char) : List Char → List (List Char)
  | [] => [[]]
  | c :: cs =>
    if c = sep then [] :: splitChars sep cs
    else
      match splitChars sep cs with
      | [] => [[c]]
      | seg :: rest => (c :: seg) :: rest

end strings

/-- Go slice expression `s[:i]`. -/
def sliceTo (s : String) (i : Nat) : String := ⟨s.data.take i⟩

/-- Go slice expression `s[i:]`. -/
def sliceFrom (s : String) (i : Nat) : String := ⟨s.data.drop i⟩

/-! ## The reference grammar of `github.com/docker/distribution/reference` -/

namespace dockerref

/-- Character class `[a-z0-9]`. -/
def isLowerAlnum (c : Char) : Bool :=
  (97 ≤ c.toNat && c.toNat ≤ 122) || (48 ≤ c.toNat && c.toNat ≤ 57)

/-- Character class `[a-zA-Z0-9]`. -/
def isAlnum (c : Char) : Bool :=
  isLowerAlnum c || (65 ≤ c.toNat && c.toNat ≤ 90)

/-- Character class `[A-Za-z]`. -/
def isLetter (c : Char) : Bool :=
  (97 ≤ c.toNat && c.toNat ≤ 122) || (65 ≤ c.toNat && c.toNat ≤ 90)

/-- Character class `[0-9]`. -/
def isDigit (c : Char) : Bool := 48 ≤ c.toNat && c.toNat ≤ 57

/-- Character class `\w`, that is `[0-9A-Za-z_]`. -/
def isWord (c : Char) : Bool := isAlnum c || c = '_'

/-- Character class `[[:xdigit:]]`, that is `[0-9A-Fa-f]`. -/
def isXDigit (c : Char) : Bool :=
  isDigit c || (97 ≤ c.toNat && c.toNat ≤ 102) || (65 ≤ c.toNat && c.toNat ≤ 70)

/-- Character class `[a-f0-9]`. -/
def isLowerHex (c : Char) : Bool := isDigit c || (97 ≤ c.toNat && c.toNat ≤ 102)

/-- States of the recogniser of `nameComponentRegexp`. -/
inductive ComponentState where
  /-- An alphanumeric is required next: at the start, after `.`, after `__`. -/
  | needAlnum
  /-- Inside a run `[a-z0-9]+`; the only accepting state. -/
  | inAlnum
  /-- After a single `_`. -/
  | afterUnderscore
  /-- Inside a run of `-`. -/
  | inDashes
deriving DecidableEq, Repr

/-- Modelled from the spec: `nameComponentRegexp` of the vendored reference
package, which is not under `src/`, one path component of a repository name:
`[a-z0-9]+(?:(?:[._]|__|[-]*)[a-z0-9]+)*`, runs of lower-case alphanumerics
separated by one period, one or two underscores, or any number of dashes. -/
def matchNameComponentFrom : ComponentState → List Char → Bool
  | st, [] => st = .inAlnum
  | .needAlnum, c :: cs => isLowerAlnum c && matchNameComponentFrom .inAlnum cs
  | .inAlnum, c :: cs =>
    if isLowerAlnum c then matchNameComponentFrom .inAlnum cs
    else if c = '.' then matchNameComponentFrom .needAlnum cs
    else if c = '_' then matchNameComponentFrom .afterUnderscore cs
    else if c = '-' then matchNameComponentFrom .inDashes cs
    else false
  | .afterUnderscore, c :: cs =>
    if isLowerAlnum c then matchNameComponentFrom .inAlnum cs
    else if c = '_' then matchNameComponentFrom .needAlnum cs
    else false
  | .inDashes, c :: cs =>
    if isLowerAlnum c then matchNameComponentFrom .inAlnum cs
    else if c = '-' then matchNameComponentFrom .inDashes cs
    else false

/-- Anchored match of `nameComponentRegexp`. -/
def matchNameComponent (s : List Char) : Bool := matchNameComponentFrom .needAlnum s

/-- Modelled from the spec: `domainComponentRegexp` of the vendored reference
package, `(?:[a-zA-Z0-9]|[a-zA-Z0-9][a-zA-Z0-9-]*[a-zA-Z0-9])`: a non-empty
run of alphanumerics and dashes that begins and ends with an alphanumeric. -/
def matchDomainComponent (s : List Char) : Bool :=
  match s with
  | [] => false
  | c :: cs =>
    isAlnum c && (c :: cs).all (fun x => isAlnum x || x = '-') &&
      (match (c :: cs).getLast? with
       | some l => isAlnum l
       | none => false)

/-- Modelled from the spec: `DomainRegexp` of the vendored reference package,
domain components separated by `.`, then optionally `:` and a port `[0-9]+`
(a hostname, optionally with a port). -/
def matchDomain (s : List Char) : Bool :=
  match strings.indexOf ':' s with
  | none => (strings.splitChars '.' s).all matchDomainComponent
  | some i =>
    (strings.splitChars '.' (s.take i)).all matchDomainComponent &&
      (s.drop (i + 1) ≠ [] && (s.drop (i + 1)).all isDigit)

/-- Modelled from the spec: `NameRegexp` of the vendored reference package,
`[domain '/'] path-component ['/' path-component]*`.  Either every
`/`-separated segment is a path component, or the first is a domain and is
followed by at least one path component. -/
def matchName (s : List Char) : Bool :=
  match strings.splitChars '/' s with
  | [] => false
  | seg :: rest =>
    (seg :: rest).all matchNameComponent ||
      (matchDomain seg && rest ≠ [] && rest.all matchNameComponent)

/-- Modelled from the spec: `TagRegexp` of the vendored reference package,
`[\w][\w.-]{0,127}`. -/
def matchTag (s : List Char) : Bool :=
  match s with
  | [] => false
  | c :: cs => isWord c && cs.all (fun x => isWord x || x = '.' || x = '-') && cs.length ≤ 127

/-- One algorithm component `[A-Za-z][A-Za-z0-9]*` of a digest. -/
def matchAlgorithmComponent (s : List Char) : Bool :=
  match s with
  | [] => false
  | c :: cs => isLetter c && cs.all isAlnum

/-- Split at each of the separators `[-_+.]` of a digest algorithm. -/
def splitAlgorithm : List Char → List (List Char)
  | [] => [[]]
  | c :: cs =>
    if c = '-' ∨ c = '_' ∨ c = '+' ∨ c = '.' then [] :: splitAlgorithm cs
    else
      match splitAlgorithm cs with
      | [] => [[c]]
      | seg :: rest => (c :: seg) :: rest

/-- Modelled from the spec: `DigestRegexp` of the vendored reference package,
`[A-Za-z][A-Za-z0-9]*(?:[-_+.][A-Za-z][A-Za-z0-9]*)*[:][[:xdigit:]]{32,}`. -/
def matchDigest (s : List Char) : Bool :=
  match strings.indexOf ':' s with
  | none => false
  | some i =>
    (splitAlgorithm (s.take i)).all matchAlgorithmComponent &&
      ((s.drop (i + 1)).all isXDigit && 32 ≤ (s.drop (i + 1)).length)

/-- Position of the last element equal to `r`, if any. -/
def lastIndexOf (r : Char) : List Char → Option Nat
  | [] => none
  | c :: cs =>
    match lastIndexOf r cs with
    | some j => some (j + 1)
    | none => if c = r then some 0 else none

/-- The name and tag captures of `name [":" tag]`.  A tag contains neither `:`
nor `/` and a name contains `:` only inside a domain, before a `/`; so a tag is
present exactly when the last `:` has no `/` after it, and then it is
everything after that `:`. -/
def splitNameTag (s : List Char) : List Char × Option (List Char) :=
  match lastIndexOf ':' s with
  | none => (s, none)
  | some j => if (s.drop (j + 1)).contains '/' then (s, none) else (s.take j, some (s.drop (j + 1)))

/-- Modelled from the spec: `ReferenceRegexp.FindStringSubmatch` of the
vendored reference package, the anchored grammar
`name [":" tag] ["@" digest]` with its three capture groups (name, tag,
digest); a group that takes no part in the match is the empty string.  No
name, tag or digest contains `@`, so a digest is present exactly when the
string contains `@`, and is then everything after the first one. -/
def matchReference (s : String) : Option (String × String × String) :=
  let nameTag : List Char :=
    match strings.indexOf '@' s.data with
    | none => s.data
    | some i => s.data.take i
  let digestOk : Bool :=
    match strings.indexOf '@' s.data with
    | none => true
    | some i => matchDigest (s.data.drop (i + 1))
  let digest : List Char :=
    match strings.indexOf '@' s.data with
    | none => []
    | some i => s.data.drop (i + 1)
  let tagOk : Bool :=
    match (splitNameTag nameTag).2 with
    | none => true
    | some t => matchTag t
  if matchName (splitNameTag nameTag).1 && tagOk && digestOk then
    some (⟨(splitNameTag nameTag).1⟩, ⟨((splitNameTag nameTag).2).getD []⟩, ⟨digest⟩)
  else none

/-- The part of a reference before the first `@`, as `matchReference` takes
it: the name with the optional tag. -/
def nameTagPart (s : List Char) : List Char :=
  match strings.indexOf '@' s with
  | none => s
  | some i => s.take i

/-- The part of a reference after the first `@`, as `matchReference` takes
it: the digest, if there is an `@`. -/
def digestPart (s : List Char) : Option (List Char) :=
  match strings.indexOf '@' s with
  | none => none
  | some i => some (s.drop (i + 1))

end dockerref

namespace digest

/-- Modelled from the spec: `digest.Parse` of the vendored package
`github.com/opencontainers/go-digest`, which is not under `src/`, applied to
a string that already matches `DigestRegexp`: the algorithm must be one of
the registered content-hash algorithms (`sha256`, `sha384`, `sha512`, linked
in by the imports of `parsers.go`) and the hex part must have exactly twice
the hash size in characters.  Returns the error, `none` when valid. -/
def Parse (s : String) : Option Error :=
  match strings.indexOf ':' s.data with
  | none => some "invalid checksum digest format"
  | some i =>
    if i + 1 = s.data.length then some "invalid checksum digest format"
    else if sliceTo s i = "sha256" then
      (if 64 ≠ (s.data.drop (i + 1)).length then some "invalid checksum digest length" else none)
    else if sliceTo s i = "sha384" then
      (if 96 ≠ (s.data.drop (i + 1)).length then some "invalid checksum digest length" else none)
    else if sliceTo s i = "sha512" then
      (if 128 ≠ (s.data.drop (i + 1)).length then some "invalid checksum digest length" else none)
    else some "unsupported digest algorithm"

end digest

namespace dockerref

/-- The library's `reference` value as far as the embedded code observes it:
`Name()`, and the tag and digest, each empty when the reference is not
`Tagged`, respectively not `Digested` (`getBestReferenceType` picks the
reference type by exactly these emptiness tests). -/
structure Named where
  /-- Result of `Name()`. -/
  name : String
  /-- Result of `Tag()`, empty when the reference is not `Tagged`. -/
  tag : String
  /-- Result of `Digest().String()`, empty when the reference is not `Digested`. -/
  digest : String
deriving DecidableEq, Repr

/-- Constant `NameTotalLengthMax` of the reference package. -/
def NameTotalLengthMax : Nat := 255

/-- Modelled from the spec: `dockerref.Parse` of the vendored package
`github.com/docker/distribution/reference`, which is not under `src/`.  It
matches the string against the reference grammar, fails when the string
violates it (illegal characters, more than one tag separator, malformed digest
algorithm or hex length, empty repository), when the name is longer than
`NameTotalLengthMax`, or when the digest is not valid; it does not normalise. -/
def Parse (s : String) : Except Error Named :=
  match matchReference s with
  | none =>
    if s = "" then .error "repository name must have at least one component"
    else if (matchReference (strings.ToLower s)).isSome then
      .error "repository name must be lowercase"
    else .error "invalid reference format"
  | some (name, tag, dgst) =>
    if name.data.length > NameTotalLengthMax then
      .error "repository name must not be more than 255 characters"
    else
      match (if dgst ≠ "" then digest.Parse dgst else none) with
      | some err => .error err
      | none => .ok ⟨name, tag, dgst⟩

/-- Constant `legacyDefaultDomain` of the reference package. -/
def legacyDefaultDomain : String := "index.docker.io"

/-- Constant `defaultDomain` of the reference package. -/
def defaultDomain : String := "docker.io"

/-- Constant `officialRepoName` of the reference package. -/
def officialRepoName : String := "library"

/-- Modelled from the spec: `splitDockerDomain` of the vendored reference
package (normalize.go): the lexical domain split of `SplitImageName`,
followed by the expansion of an implicit well-known default registry domain
when no explicit domain is present, and of the official repository prefix. -/
def splitDockerDomain (name : String) : String × String :=
  let dr : String × String :=
    match strings.IndexRune name '/' with
    | none => (defaultDomain, name)
    | some i =>
      if !strings.ContainsAny (sliceTo name i) ".:" && sliceTo name i ≠ "localhost" then
        (defaultDomain, name)
      else (sliceTo name i, sliceFrom name (i + 1))
  let domain : String := if dr.1 = legacyDefaultDomain then defaultDomain else dr.1
  let remainder : String :=
    if domain = defaultDomain && !strings.ContainsChar dr.2 '/' then
      officialRepoName ++ "/" ++ dr.2
    else dr.2
  (domain, remainder)

/-- Anchored match of `IdentifierRegexp`, `^([a-f0-9]{64})$`. -/
def matchIdentifier (s : String) : Bool := s.data.length = 64 && s.data.all isLowerHex

/-- Modelled from the spec: `dockerref.ParseNormalizedNamed` of the vendored
reference package (normalize.go), which is not under `src/`: full
normalisation, then `Parse` of the normalised string. -/
def ParseNormalizedNamed (s : String) : Except Error Named :=
  if matchIdentifier s then
    .error ("invalid repository name (" ++ s ++
      "), cannot specify 64-byte hexadecimal strings")
  else
    let remainder := (splitDockerDomain s).2
    let remoteName : String :=
      match strings.IndexRune remainder ':' with
      | some tagSep => sliceTo remainder tagSep
      | none => remainder
    if strings.ToLower remoteName ≠ remoteName then
      .error "invalid reference format: repository name must be lowercase"
    else
      Parse ((splitDockerDomain s).1 ++ "/" ++ remainder)

end dockerref

/-! ## `pkg/util/parsers/parsers.go` -/

namespace parsers

/-- Constant `DefaultImageTag`. -/
def DefaultImageTag : String := "latest"

/-- Go `ParseImageName(image) (string, string, string, error)`:
repository, tag, digest and error. -/
def ParseImageName (image : String) : String × String × String × Option Error :=
  match dockerref.ParseNormalizedNamed image with
  | .error err => ("", "", "", some ("couldn't parse image name: " ++ err))
  | .ok named =>
    let repoToPull := named.name
    let tag := named.tag
    let digest := named.digest
    if tag.length = 0 ∧ digest.length = 0 then (repoToPull, DefaultImageTag, digest, none)
    else (repoToPull, tag, digest, none)

/-- Go `SplitImageName(image) (string, string, error)`: domain, remainder and
error. -/
def SplitImageName (image : String) : String × String × Option Error :=
  match dockerref.Parse image with
  | .error err => ("", "", some err)
  | .ok _ =>
    match strings.IndexRune image '/' with
    | none => ("", image, none)
    | some i =>
      if !strings.ContainsAny (sliceTo image i) ".:" && sliceTo image i ≠ "localhost" then
        ("", image, none)
      else (sliceTo image i, sliceFrom image (i + 1), none)

end parsers

/-! ## `plugin/pkg/admission/alwaysqualifyimages/domain.go` -/

/-- Go `type Domain string`. -/
abbrev Domain := String

/-- Constant `sanityRepo`. -/
def sanityRepo : String := "foo/bar:latest"

/-- Go `NewDomain(input) (Domain, error)`. -/
def NewDomain (input : String) : Domain × Option Error :=
  match parsers.SplitImageName (input ++ "/" ++ sanityRepo) with
  | (_, _, some err) => ("", some err)
  | (domain, remainder, none) =>
    if domain ≠ input ∧ remainder ≠ sanityRepo then ("", some "invalid domain")
    else (input, none)

/-! ## `plugin/pkg/admission/alwaysqualifyimages/admission.go` -/

/-- The fields of `api.Container` the plugin and its tests read or write. -/
structure Container where
  /-- Field `Name`. -/
  Name : String
  /-- Field `Image`. -/
  Image : String
deriving DecidableEq, Repr

/-- Go `hasDomain(image) bool`. -/
def hasDomain (image : String) : Bool :=
  match parsers.SplitImageName image with
  | (domain, _, err) => err = none && domain ≠ ""

/-- Go `qualifyContainerImages(domain, containers) (string, error)`.  The
slice is mutated in place, so the containers as they are when the function
returns are the first component of the result; the loop
`for i := range containers` is the recursion on the list. -/
def qualifyContainerImages (domain : Domain) :
    List Container → List Container × String × Option Error
  | [] => ([], "", none)
  | c :: rest =>
    if hasDomain c.Image then
      match qualifyContainerImages domain rest with
      | (rest', image, err) => (c :: rest', image, err)
    else
      match (parsers.ParseImageName (domain ++ "/" ++ c.Image)).2.2.2 with
      | some err => (c :: rest, domain ++ "/" ++ c.Image, some err)
      | none =>
        match qualifyContainerImages domain rest with
        | (rest', image, err) =>
          ({ c with Image := domain ++ "/" ++ c.Image } :: rest', image, err)

/-- The fields of `api.PodSpec` the plugin reads or writes. -/
structure PodSpec where
  /-- Field `InitContainers`. -/
  InitContainers : List Container
  /-- Field `Containers`. -/
  Containers : List Container
deriving DecidableEq, Repr

/-- The fields of `api.Pod` the plugin and its tests read or write; `Name`
and `Namespace` are those of the embedded `ObjectMeta`. -/
structure Pod where
  /-- Field `ObjectMeta.Name`. -/
  Name : String
  /-- Field `ObjectMeta.Namespace`. -/
  Namespace : String
  /-- Field `Spec`. -/
  Spec : PodSpec
deriving DecidableEq, Repr

namespace runtime

/-- A `runtime.Object` as `Admit` observes it: the type assertion
`.(*api.Pod)` succeeds on a pod and fails on every other value (another kind
such as `*api.ReplicationController`, or `nil`). -/
inductive Object where
  /-- A `*api.Pod`. -/
  | Pod (pod : Pod)
  /-- Any value that is not a `*api.Pod`. -/
  | Other
deriving DecidableEq, Repr

end runtime

namespace schema

/-- Go `schema.GroupResource`. -/
structure GroupResource where
  /-- Field `Group`. -/
  Group : String
  /-- Field `Resource`. -/
  Resource : String
deriving DecidableEq, Repr

/-- Go `schema.GroupVersionResource`. -/
structure GroupVersionResource where
  /-- Field `Group`. -/
  Group : String
  /-- Field `Version`. -/
  Version : String
  /-- Field `Resource`. -/
  Resource : String
deriving DecidableEq, Repr

/-- Go method `GroupVersionResource.GroupResource()`. -/
def GroupVersionResource.GroupResource (gvr : GroupVersionResource) : GroupResource :=
  ⟨gvr.Group, gvr.Resource⟩

/-- Go method `GroupResource.WithVersion(version)`. -/
def GroupResource.WithVersion (gr : GroupResource) (version : String) : GroupVersionResource :=
  ⟨gr.Group, version, gr.Resource⟩

end schema

namespace api

/-- Modelled from the spec: `api.Resource(resource)` of `pkg/apis/core`, which
is not under `src/`: the resource of that name in the core group, whose group
name is empty; `api.Resource("pods")` is the workload-pod resource. -/
def Resource (resource : String) : schema.GroupResource := ⟨"", resource⟩

end api

namespace admission

/-- Modelled from the spec: `admission.Operation` of the apiserver package,
which is not under `src/`: the operation kind, one of create, update, delete,
connect. -/
inductive Operation where
  /-- Constant `admission.Create`. -/
  | Create
  /-- Constant `admission.Update`. -/
  | Update
  /-- Constant `admission.Delete`. -/
  | Delete
  /-- Constant `admission.Connect`. -/
  | Connect
deriving DecidableEq, Repr

/-- Modelled from the spec: `admission.Attributes` of the apiserver package,
which is not under `src/`, with the accessors `Admit` calls: the request
object, the target resource and version, the subresource name (empty if
none) and the operation kind. -/
structure Attributes where
  /-- Method `GetObject()`. -/
  GetObject : runtime.Object
  /-- Method `GetResource()`. -/
  GetResource : schema.GroupVersionResource
  /-- Method `GetSubresource()`. -/
  GetSubresource : String
  /-- Method `GetOperation()`. -/
  GetOperation : Operation
deriving DecidableEq, Repr

/-- Modelled from the spec: `admission.Handler` of the apiserver package,
which is not under `src/`: the shared handler base type for operation
filtering, holding the set of operations the component applies to. -/
structure Handler where
  /-- The operations given to `NewHandler`. -/
  operations : List Operation
deriving DecidableEq, Repr

/-- Modelled from the spec: `admission.NewHandler(ops...)`. -/
def NewHandler (ops : List Operation) : Handler := ⟨ops⟩

/-- Modelled from the spec: method `Handler.Handles(operation)`, whether the
operation is one the handler was built for. -/
def Handler.Handles (h : Handler) (operation : Operation) : Bool :=
  h.operations.contains operation

end admission

namespace apierrors

/-- Modelled from the spec: `apierrors.NewBadRequest(reason)` of apimachinery,
which is not under `src/`: a structured bad-request error whose message is
`reason`; as an error value it is represented by that message. -/
def NewBadRequest (reason : String) : Error := reason

end apierrors

/-- Go `type AlwaysQualifyImages struct`, with its two embedded fields. -/
structure AlwaysQualifyImages where
  /-- Embedded `*admission.Handler`. -/
  Handler : admission.Handler
  /-- Embedded `Domain`. -/
  Domain : Domain
deriving DecidableEq, Repr

/-- Go `isSubresourceRequest(attributes)`. -/
def isSubresourceRequest (attributes : admission.Attributes) : Bool :=
  attributes.GetSubresource.length > 0

/-- Go `isPodsRequest(attributes)`. -/
def isPodsRequest (attributes : admission.Attributes) : Bool :=
  attributes.GetResource.GroupResource = api.Resource "pods"

/-- Go `isCreateRequest(attributes)`. -/
def isCreateRequest (attributes : admission.Attributes) : Bool :=
  attributes.GetOperation = admission.Operation.Create

/-- Go `shouldIgnore(attributes)`; the `switch` tries its cases in order. -/
def shouldIgnore (attributes : admission.Attributes) : Bool :=
  if isSubresourceRequest attributes then true
  else if !isPodsRequest attributes then true
  else if !isCreateRequest attributes then true
  else false

/-- Go `fmt.Sprintf("invalid image name %q: %s", image, err.Error())`.  The
verb `%q` renders its argument as a double-quoted Go string literal; that
rendering belongs to the Go library and is the parameter `quote`. -/
def invalidImageNameMessage (quote : String → String) (image : String) (err : Error) : String :=
  "invalid image name " ++ quote image ++ ": " ++ err

/-- Go method `(a *AlwaysQualifyImages) Admit(attributes) (err error)`.  The
request object is mutated in place, so the object as it is when the method
returns is the first component of the result.  `quote` is the rendering of
the verb `%q`. -/
def AlwaysQualifyImages.Admit (quote : String → String) (a : AlwaysQualifyImages)
    (attributes : admission.Attributes) : runtime.Object × Option Error :=
  if shouldIgnore attributes then (attributes.GetObject, none)
  else
    match attributes.GetObject with
    | .Other =>
      (.Other, some (apierrors.NewBadRequest
        "Resource was marked with kind Pod but was unable to be converted"))
    | .Pod pod =>
      match qualifyContainerImages a.Domain pod.Spec.InitContainers with
      | (inits, image, some err) =>
        (.Pod { pod with Spec := { pod.Spec with InitContainers := inits } },
          some (apierrors.NewBadRequest (invalidImageNameMessage quote image err)))
      | (inits, _, none) =>
        match qualifyContainerImages a.Domain pod.Spec.Containers with
        | (ctrs, image, some err) =>
          (.Pod { pod with Spec := { InitContainers := inits, Containers := ctrs } },
            some (apierrors.NewBadRequest (invalidImageNameMessage quote image err)))
        | (ctrs, _, none) =>
          (.Pod { pod with Spec := { InitContainers := inits, Containers := ctrs } }, none)

/-- Go `NewAlwaysQualifyImages(domain)`. -/
def NewAlwaysQualifyImages (domain : Domain) : AlwaysQualifyImages :=
  { Handler := admission.NewHandler [admission.Operation.Create], Domain := domain }

/-! ## Auxiliary facts about the string primitives -/

namespace strings

theorem indexOf_eq_none_iff (r : Char) (s : List Char) : indexOf r s = none ↔ r ∉ s := by
  induction s with
  | nil => simp [indexOf]
  | cons c cs ih =>
    by_cases h : c = r
    · simp [indexOf, h]
    · have h' : ¬ r = c := fun e => h e.symm
      simp [indexOf, h, h', ih]

theorem indexOf_append (r : Char) (pre post : List Char) (h : r ∉ pre) :
    indexOf r (pre ++ r :: post) = some pre.length := by
  induction pre with
  | nil => simp [indexOf]
  | cons c cs ih =>
    have hc : ¬ c = r := fun e => h (by simp [e])
    have hcs : r ∉ cs := fun e => h (by simp [e])
    simp [indexOf, hc, ih hcs]

theorem indexOf_some (r : Char) (s : List Char) (i : Nat) (h : indexOf r s = some i) :
    s = s.take i ++ r :: s.drop (i + 1) ∧ r ∉ s.take i ∧ i < s.length := by
  induction s generalizing i with
  | nil => simp [indexOf] at h
  | cons c cs ih =>
    by_cases hc : c = r
    · simp [indexOf, hc] at h
      subst h
      simp [hc]
    · simp only [indexOf, hc, if_false, Option.map_eq_some'] at h
      obtain ⟨j, hj, rfl⟩ := h
      obtain ⟨h1, h2, h3⟩ := ih j hj
      have hc' : ¬ r = c := fun e => hc e.symm
      refine ⟨?_, ?_, ?_⟩
      · simp only [List.take_succ_cons, List.drop_succ_cons, List.cons_append]
        rw [← h1]
      · simp [hc', h2]
      · simp; omega

theorem containsAny_dot_colon (s : String) :
    ContainsAny s ".:" = true ↔ '.' ∈ s.data ∨ ':' ∈ s.data := by
  simp only [ContainsAny, List.any_eq_true]
  constructor
  · rintro ⟨c, hc, h⟩
    have : c = '.' ∨ c = ':' := by simpa using h
    rcases this with rfl | rfl
    · exact Or.inl hc
    · exact Or.inr hc
  · rintro (h | h)
    · exact ⟨'.', h, by decide⟩
    · exact ⟨':', h, by decide⟩

end strings

theorem drop_length_succ_append (l m : List Char) (a : Char) :
    (l ++ a :: m).drop (l.length + 1) = m := by
  induction l with
  | nil => simp
  | cons c cs ih => simp [ih]

theorem data_slash_append (pre post : String) :
    (pre ++ "/" ++ post).data = pre.data ++ '/' :: post.data := by
  simp [String.data_append]

/-! ## `SplitImageName` -/

namespace parsers

/-- Result of `SplitImageName` on a legal reference that contains no `/`. -/
theorem SplitImageName_no_slash (image : String) (r : dockerref.Named)
    (hp : dockerref.Parse image = .ok r) (h : '/' ∉ image.data) :
    SplitImageName image = ("", image, none) := by
  have hi : strings.IndexRune image '/' = none :=
    (strings.indexOf_eq_none_iff '/' image.data).2 h
  simp [SplitImageName, hp, hi]

/-- Result of `SplitImageName` on a legal reference `pre/post` whose first
segment is `pre`. -/
theorem SplitImageName_slash (pre post : String) (r : dockerref.Named)
    (hp : dockerref.Parse (pre ++ "/" ++ post) = .ok r) (h : '/' ∉ pre.data) :
    SplitImageName (pre ++ "/" ++ post) =
      if '.' ∈ pre.data ∨ ':' ∈ pre.data ∨ pre = "localhost" then (pre, post, none)
      else ("", pre ++ "/" ++ post, none) := by
  have hi : strings.IndexRune (pre ++ "/" ++ post) '/' = some pre.data.length := by
    unfold strings.IndexRune
    rw [data_slash_append]
    exact strings.indexOf_append '/' pre.data post.data h
  have h1 : sliceTo (pre ++ "/" ++ post) pre.data.length = pre := by
    simp [sliceTo, data_slash_append]
  have h2 : sliceFrom (pre ++ "/" ++ post) (pre.data.length + 1) = post := by
    simp only [sliceFrom, data_slash_append]
    exact congrArg String.mk (drop_length_succ_append pre.data post.data '/')
  have h3 := strings.containsAny_dot_colon pre
  simp only [SplitImageName, hp, hi, h1, h2]
  by_cases hc : strings.ContainsAny pre ".:" = true
  · have := h3.1 hc
    have hd : '.' ∈ pre.data ∨ ':' ∈ pre.data ∨ pre = "localhost" := by tauto
    rw [if_pos hd]
    simp [hc]
  · have hn : ¬ ('.' ∈ pre.data ∨ ':' ∈ pre.data) := fun e => hc (h3.2 e)
    by_cases hl : pre = "localhost"
    · rw [if_pos (Or.inr (Or.inr hl))]
      simp [hl]
    · have hd : ¬ ('.' ∈ pre.data ∨ ':' ∈ pre.data ∨ pre = "localhost") := by tauto
      rw [if_neg hd]
      simp [hc, hl]

end parsers

namespace parsers

/-- On a legal reference `SplitImageName` returns no error. -/
theorem SplitImageName_ok (image : String) (r : dockerref.Named)
    (hp : dockerref.Parse image = .ok r) : (SplitImageName image).2.2 = none := by
  simp only [SplitImageName, hp]
  split
  · rfl
  · split <;> rfl

/-- On an illegal reference `SplitImageName` returns the parser's error and
two empty strings. -/
theorem SplitImageName_error (image : String) (err : Error)
    (hp : dockerref.Parse image = .error err) : SplitImageName image = ("", "", some err) := by
  simp [SplitImageName, hp]

/-- C1: for every image that is a syntactically legal reference (accepted by
the reference parser), `SplitImageName` succeeds; if the image is
`pre/post` with no `/` in `pre` (so `pre` is the substring before the first
`/`) and `pre` contains `.` or `:` or is exactly `localhost`, the domain is
`pre` and the remainder is `post`; if `pre` is not of that kind, or the image
contains no `/`, the domain is empty and the remainder is the whole image. -/
theorem SplitImageName_domain_rule (image : String) (r : dockerref.Named)
    (hp : dockerref.Parse image = .ok r) :
    (SplitImageName image).2.2 = none ∧
    (∀ pre post : String, image = pre ++ "/" ++ post → '/' ∉ pre.data →
      (('.' ∈ pre.data ∨ ':' ∈ pre.data ∨ pre = "localhost") →
        SplitImageName image = (pre, post, none)) ∧
      (¬ ('.' ∈ pre.data ∨ ':' ∈ pre.data ∨ pre = "localhost") →
        SplitImageName image = ("", image, none))) ∧
    ('/' ∉ image.data → SplitImageName image = ("", image, none)) := by
  refine ⟨SplitImageName_ok image r hp, ?_, SplitImageName_no_slash image r hp⟩
  intro pre post himg hpre
  subst himg
  have h := SplitImageName_slash pre post r hp hpre
  constructor
  · intro hd
    rw [h, if_pos hd]
  · intro hd
    rw [h, if_neg hd]

/-- Witness for C1 at `gcr.io/busybox`, a legal reference whose first segment
contains a `.`. -/
theorem SplitImageName_domain_rule_witness :
    dockerref.Parse "gcr.io/busybox" = .ok ⟨"gcr.io/busybox", "", ""⟩ ∧
    SplitImageName "gcr.io/busybox" = ("gcr.io", "busybox", none) :=
  ⟨by rfl,
   ((SplitImageName_domain_rule "gcr.io/busybox" ⟨"gcr.io/busybox", "", ""⟩ (by rfl)).2.1
      "gcr.io" "busybox" (by decide) (by decide)).1 (by decide)⟩

/-- C2: `SplitImageName` returns an error exactly when the image is not a
valid reference under the (un-normalised) reference grammar, the error is the
parser's, and with an error the domain and the remainder are both empty. -/
theorem SplitImageName_error_iff (image : String) :
    ((SplitImageName image).2.2 ≠ none ↔ ¬ ∃ r, dockerref.Parse image = .ok r) ∧
    ((SplitImageName image).2.2 ≠ none →
      (SplitImageName image).1 = "" ∧ (SplitImageName image).2.1 = "") ∧
    (∀ err, dockerref.Parse image = .error err → SplitImageName image = ("", "", some err)) := by
  cases hp : dockerref.Parse image with
  | error err =>
    have h := SplitImageName_error image err hp
    refine ⟨?_, ?_, ?_⟩
    · simp [h]
    · simp [h]
    · intro e he
      cases he
      exact h
  | ok r =>
    have h := SplitImageName_ok image r hp
    refine ⟨?_, ?_, ?_⟩
    · simp [h]
    · simp [h]
    · intro e he
      cases he

/-- Witness for C2 at `bad image`, which the reference grammar rejects. -/
theorem SplitImageName_error_iff_witness :
    (SplitImageName "bad image").2.2 ≠ none ∧
    (SplitImageName "bad image").1 = "" ∧ (SplitImageName "bad image").2.1 = "" :=
  ⟨by decide, (SplitImageName_error_iff "bad image").2.1 (by decide)⟩

/-- C3: `SplitImageName` succeeds on each documented example input with the
documented domain (and the rest of the string as remainder). -/
theorem SplitImageName_documented_examples :
    SplitImageName "busybox" = ("", "busybox", none) ∧
    SplitImageName "foo/busybox" = ("", "foo/busybox", none) ∧
    SplitImageName "localhost/foo/busybox" = ("localhost", "foo/busybox", none) ∧
    SplitImageName "localhost:5000/foo/busybox" = ("localhost:5000", "foo/busybox", none) ∧
    SplitImageName "gcr.io/busybox" = ("gcr.io", "busybox", none) ∧
    SplitImageName "gcr.io/foo/busybox" = ("gcr.io", "foo/busybox", none) ∧
    SplitImageName "docker.io/busybox" = ("docker.io", "busybox", none) ∧
    SplitImageName "docker.io/library/busybox" = ("docker.io", "library/busybox", none) := by
  decide

end parsers

/-! ## `ParseImageName` -/

namespace parsers

/-- Result of `ParseImageName` when normalised parsing fails. -/
theorem ParseImageName_error (image : String) (err : Error)
    (hp : dockerref.ParseNormalizedNamed image = .error err) :
    ParseImageName image = ("", "", "", some ("couldn't parse image name: " ++ err)) := by
  simp [ParseImageName, hp]

/-- Result of `ParseImageName` when normalised parsing succeeds. -/
theorem ParseImageName_ok (image : String) (r : dockerref.Named)
    (hp : dockerref.ParseNormalizedNamed image = .ok r) :
    ParseImageName image =
      (r.name, if r.tag = "" ∧ r.digest = "" then DefaultImageTag else r.tag, r.digest, none) := by
  have hlen : ∀ s : String, s.length = 0 ↔ s = "" := by
    intro s
    constructor
    · intro h
      cases s with
      | mk d =>
        have hd : d = [] := List.length_eq_zero.1 h
        subst hd
        rfl
    · intro h
      subst h
      rfl
  simp only [ParseImageName, hp, hlen]
  split <;> rfl

/-- C4: when `ParseImageName` succeeds the returned tag and digest are never
both empty; if the parsed reference carries neither tag nor digest the tag
is `latest` and the digest stays empty, otherwise tag and digest are those
of the reference, unchanged; when it fails, repository, tag and digest are
all empty. -/
theorem ParseImageName_tag_default (image : String) :
    ((ParseImageName image).2.2.2 = none →
      ¬ ((ParseImageName image).2.1 = "" ∧ (ParseImageName image).2.2.1 = "")) ∧
    (∀ r, dockerref.ParseNormalizedNamed image = .ok r →
      (ParseImageName image).2.2.2 = none ∧ (ParseImageName image).1 = r.name ∧
      (r.tag = "" ∧ r.digest = "" →
        (ParseImageName image).2.1 = "latest" ∧ (ParseImageName image).2.2.1 = "") ∧
      (¬ (r.tag = "" ∧ r.digest = "") →
        (ParseImageName image).2.1 = r.tag ∧ (ParseImageName image).2.2.1 = r.digest)) ∧
    ((ParseImageName image).2.2.2 ≠ none →
      (ParseImageName image).1 = "" ∧ (ParseImageName image).2.1 = "" ∧
        (ParseImageName image).2.2.1 = "") := by
  cases hp : dockerref.ParseNormalizedNamed image with
  | error err =>
    rw [ParseImageName_error image err hp]
    refine ⟨by simp, ?_, by simp⟩
    intro r hr
    cases hr
  | ok r =>
    rw [ParseImageName_ok image r hp]
    refine ⟨?_, ?_, by simp⟩
    · intro _
      by_cases h : r.tag = "" ∧ r.digest = ""
      · rw [if_pos h]
        simp only [DefaultImageTag]
        intro hc
        exact absurd hc.1 (by decide)
      · rw [if_neg h]
        exact h
    · intro r' hr
      cases hr
      refine ⟨rfl, rfl, ?_, ?_⟩
      · intro h
        rw [if_pos h]
        exact ⟨rfl, h.2⟩
      · intro h
        rw [if_neg h]
        exact ⟨rfl, rfl⟩

/-- Witness for C4 at `busybox`, which carries neither tag nor digest, so the
default tag is returned. -/
theorem ParseImageName_tag_default_witness :
    ParseImageName "busybox" = ("docker.io/library/busybox", "latest", "", none) ∧
    ¬ ((ParseImageName "busybox").2.1 = "" ∧ (ParseImageName "busybox").2.2.1 = "") :=
  ⟨by decide, (ParseImageName_tag_default "busybox").1 (by decide)⟩

end parsers

/-! ## `NewDomain` -/

/-- The reference grammar rejects the sanity repository with an empty domain
in front: a name may not start with `/`. -/
theorem Parse_empty_domain_sanityRepo :
    dockerref.Parse ("" ++ "/" ++ sanityRepo) = .error "invalid reference format" := by
  rfl

/-- A string followed by `/` and the sanity repository differs from the
sanity repository. -/
theorem append_sanityRepo_ne (s : String) : s ++ "/" ++ sanityRepo ≠ sanityRepo := by
  intro h
  have h' := congrArg String.length h
  simp only [String.length_append] at h'
  have h1 : ("/" : String).length = 1 := by decide
  omega

/-- What `SplitImageName` returns for `input/foo/bar:latest` when that is a
legal reference: `input` and the sanity repository exactly when `input` has no
`/` and contains `.` or `:` or is `localhost`; otherwise neither of the two. -/
theorem SplitImageName_sanity (input : String) (r : dockerref.Named)
    (hp : dockerref.Parse (input ++ "/" ++ sanityRepo) = .ok r) :
    (('/' ∉ input.data ∧ ('.' ∈ input.data ∨ ':' ∈ input.data ∨ input = "localhost")) ∧
      parsers.SplitImageName (input ++ "/" ++ sanityRepo) = (input, sanityRepo, none)) ∨
    (¬ ('/' ∉ input.data ∧ ('.' ∈ input.data ∨ ':' ∈ input.data ∨ input = "localhost")) ∧
      ∃ d rem, parsers.SplitImageName (input ++ "/" ++ sanityRepo) = (d, rem, none) ∧
        d ≠ input ∧ rem ≠ sanityRepo) := by
  by_cases hs : '/' ∈ input.data
  · right
    refine ⟨fun h => h.1 hs, ?_⟩
    obtain ⟨i, hi⟩ : ∃ i, strings.indexOf '/' input.data = some i := by
      cases h : strings.indexOf '/' input.data with
      | none => exact absurd hs ((strings.indexOf_eq_none_iff '/' input.data).1 h)
      | some i => exact ⟨i, rfl⟩
    obtain ⟨h1, h2, _⟩ := strings.indexOf_some '/' input.data i hi
    have himg : input ++ "/" ++ sanityRepo =
        (⟨input.data.take i⟩ : String) ++ "/" ++
          ((⟨input.data.drop (i + 1)⟩ : String) ++ "/" ++ sanityRepo) := by
      apply String.ext
      simp only [String.data_append]
      conv_lhs => rw [h1]
      simp
    have hne : (⟨input.data.take i⟩ : String) ≠ input := by
      intro e
      have e' : input.data.take i = input.data := congrArg String.data e
      rw [e'] at h2
      exact h2 hs
    have hne0 : ("" : String) ≠ input := by
      intro e
      rw [← e] at hs
      simp at hs
    rw [himg] at hp ⊢
    rw [parsers.SplitImageName_slash _ _ r hp h2]
    split
    · refine ⟨_, _, rfl, hne, ?_⟩
      have := append_sanityRepo_ne ⟨input.data.drop (i + 1)⟩
      exact this
    · refine ⟨_, _, rfl, hne0, ?_⟩
      rw [← himg]
      exact append_sanityRepo_ne input
  · rw [parsers.SplitImageName_slash input sanityRepo r hp hs]
    by_cases hd : ('.' ∈ input.data ∨ ':' ∈ input.data ∨ input = "localhost")
    · left
      refine ⟨⟨hs, hd⟩, ?_⟩
      rw [if_pos hd]
    · right
      refine ⟨fun h => hd h.2, ?_⟩
      rw [if_neg hd]
      refine ⟨_, _, rfl, ?_, append_sanityRepo_ne input⟩
      intro e
      rw [← e, Parse_empty_domain_sanityRepo] at hp
      cases hp

/-- What `NewDomain` returns: the parser's error when `input/foo/bar:latest`
is not a legal reference; otherwise `input` when it has no `/` and contains
`.` or `:` or is `localhost`, and the error `invalid domain` when it does not. -/
theorem NewDomain_eq (input : String) :
    NewDomain input =
      match dockerref.Parse (input ++ "/" ++ sanityRepo) with
      | .error err => ("", some err)
      | .ok _ =>
        if '/' ∉ input.data ∧ ('.' ∈ input.data ∨ ':' ∈ input.data ∨ input = "localhost") then (input, none)
        else ("", some "invalid domain") := by
  cases hp : dockerref.Parse (input ++ "/" ++ sanityRepo) with
  | error err =>
    simp [NewDomain, parsers.SplitImageName_error _ err hp]
  | ok r =>
    rcases SplitImageName_sanity input r hp with ⟨hc, hs⟩ | ⟨hc, d, rem, hs, hd, hr⟩
    · simp only [NewDomain, hs]
      rw [if_pos hc]
      simp
    · simp only [NewDomain, hs]
      rw [if_neg hc]
      simp [hd, hr]

/-- A successful `NewDomain` returns its input, which has no `/` and contains
`.` or `:` or is `localhost`, and `SplitImageName` splits
`input/foo/bar:latest` into the input and the sanity repository. -/
theorem NewDomain_ok (input : String) (D : Domain) (h : NewDomain input = (D, none)) :
    D = input ∧ '/' ∉ input.data ∧
    ('.' ∈ input.data ∨ ':' ∈ input.data ∨ input = "localhost") ∧
    parsers.SplitImageName (input ++ "/" ++ sanityRepo) = (input, sanityRepo, none) := by
  rw [NewDomain_eq] at h
  cases hp : dockerref.Parse (input ++ "/" ++ sanityRepo) with
  | error err =>
    rw [hp] at h
    simp at h
  | ok r =>
    rw [hp] at h
    by_cases hc : '/' ∉ input.data ∧ ('.' ∈ input.data ∨ ':' ∈ input.data ∨ input = "localhost")
    · simp only [if_pos hc, Prod.mk.injEq, and_true] at h
      rcases SplitImageName_sanity input r hp with ⟨_, hs⟩ | ⟨hn, _⟩
      · exact ⟨h.symm, hc.1, hc.2, hs⟩
      · exact absurd hc hn
    · simp [if_neg hc] at h

/-- A string that contains `.` or `:` or is `localhost` is not empty. -/
theorem ne_empty_of_domain_test (s : String)
    (h : '.' ∈ s.data ∨ ':' ∈ s.data ∨ s = "localhost") : s ≠ "" := by
  intro e
  subst e
  revert h
  decide

/-- C5: `NewDomain input` succeeds exactly when `SplitImageName` on
`input/foo/bar:latest` returns no error, the extracted domain is `input` and
the extracted remainder is `foo/bar:latest`; on success the Domain is the
input, and when one of the three conditions fails `NewDomain` returns an
error (and the empty Domain). -/
theorem NewDomain_succeeds_iff (input : String) :
    ((NewDomain input).2 = none ↔
      ((parsers.SplitImageName (input ++ "/" ++ "foo/bar:latest")).2.2 = none ∧
        (parsers.SplitImageName (input ++ "/" ++ "foo/bar:latest")).1 = input ∧
        (parsers.SplitImageName (input ++ "/" ++ "foo/bar:latest")).2.1 = "foo/bar:latest")) ∧
    ((NewDomain input).2 = none → (NewDomain input).1 = input) ∧
    (¬ ((parsers.SplitImageName (input ++ "/" ++ "foo/bar:latest")).2.2 = none ∧
        (parsers.SplitImageName (input ++ "/" ++ "foo/bar:latest")).1 = input ∧
        (parsers.SplitImageName (input ++ "/" ++ "foo/bar:latest")).2.1 = "foo/bar:latest") →
      (NewDomain input).2 ≠ none ∧ (NewDomain input).1 = "") := by
  change ((NewDomain input).2 = none ↔
      ((parsers.SplitImageName (input ++ "/" ++ sanityRepo)).2.2 = none ∧
        (parsers.SplitImageName (input ++ "/" ++ sanityRepo)).1 = input ∧
        (parsers.SplitImageName (input ++ "/" ++ sanityRepo)).2.1 = sanityRepo)) ∧
    ((NewDomain input).2 = none → (NewDomain input).1 = input) ∧
    (¬ ((parsers.SplitImageName (input ++ "/" ++ sanityRepo)).2.2 = none ∧
        (parsers.SplitImageName (input ++ "/" ++ sanityRepo)).1 = input ∧
        (parsers.SplitImageName (input ++ "/" ++ sanityRepo)).2.1 = sanityRepo) →
      (NewDomain input).2 ≠ none ∧ (NewDomain input).1 = "")
  rw [NewDomain_eq]
  cases hp : dockerref.Parse (input ++ "/" ++ sanityRepo) with
  | error err =>
    simp [parsers.SplitImageName_error _ err hp]
  | ok r =>
    rcases SplitImageName_sanity input r hp with ⟨hc, hs⟩ | ⟨hc, d, rem, hs, hd, hr⟩
    · simp only [hs]
      rw [if_pos hc]
      simp
    · simp only [hs]
      rw [if_neg hc]
      simp [hd, hr]

/-- Witness for C5 at `foo`, a plain name: the split finds no domain, so the
conditions fail and `NewDomain` returns an error. -/
theorem NewDomain_succeeds_iff_witness :
    (parsers.SplitImageName ("foo" ++ "/" ++ "foo/bar:latest")).1 ≠ "foo" ∧
    (NewDomain "foo").2 ≠ none ∧ (NewDomain "foo").1 = "" :=
  ⟨by decide, (NewDomain_succeeds_iff "foo").2.2 (by decide)⟩

/-- C6, as the code behaves: `NewDomain "bad domain with space"` produces no
Domain (the empty string) and returns an error, which is the error that
`SplitImageName` returns for `bad domain with space/foo/bar:latest`, the
reference parser's `invalid reference format`. -/
theorem NewDomain_bad_domain_with_space :
    NewDomain "bad domain with space" = ("", some "invalid reference format") ∧
    (NewDomain "bad domain with space").2 =
      (parsers.SplitImageName ("bad domain with space" ++ "/" ++ "foo/bar:latest")).2.2 := by
  decide

/-- C6 refuted as stated: the error `NewDomain "bad domain with space"`
returns is not the `invalid domain` error. -/
theorem NewDomain_space_error_not_invalid_domain :
    ¬ ((NewDomain "bad domain with space").2 = some "invalid domain") := by
  decide

/-- C7: `NewDomain` accepts `test.io`, `localhost`, `localhost:5000` (the
default the plugin factory passes), `a.b.c.d.e.f`, `a.b.c.d.e.f:5000` and
`unexpectedtest.io`, and the Domain returned is the input. -/
theorem NewDomain_accepts_test_domains :
    NewDomain "test.io" = ("test.io", none) ∧
    NewDomain "localhost" = ("localhost", none) ∧
    NewDomain "localhost:5000" = ("localhost:5000", none) ∧
    NewDomain "a.b.c.d.e.f" = ("a.b.c.d.e.f", none) ∧
    NewDomain "a.b.c.d.e.f:5000" = ("a.b.c.d.e.f:5000", none) ∧
    NewDomain "unexpectedtest.io" = ("unexpectedtest.io", none) := by
  decide

/-- C8: validator and detector agree: when `NewDomain` succeeds with Domain
`D`, `hasDomain` holds of `D/foo/bar:latest`, that is, `SplitImageName`
succeeds on it with a non-empty domain. -/
theorem NewDomain_hasDomain (input : String) (D : Domain) (h : NewDomain input = (D, none)) :
    hasDomain (D ++ "/foo/bar:latest") = true ∧
    (parsers.SplitImageName (D ++ "/foo/bar:latest")).2.2 = none ∧
    (parsers.SplitImageName (D ++ "/foo/bar:latest")).1 ≠ "" := by
  obtain ⟨hD, _, hdom, hs⟩ := NewDomain_ok input D h
  subst hD
  have he : D ++ "/foo/bar:latest" = D ++ "/" ++ sanityRepo := by
    rw [String.append_assoc]
    rfl
  have hne := ne_empty_of_domain_test D hdom
  rw [he]
  simp only [hasDomain, hs]
  simp [hne]

/-- Witness for C8 at the default domain `localhost:5000`. -/
theorem NewDomain_hasDomain_witness :
    NewDomain "localhost:5000" = ("localhost:5000", none) ∧
    hasDomain ("localhost:5000" ++ "/foo/bar:latest") = true :=
  ⟨by decide, (NewDomain_hasDomain "localhost:5000" "localhost:5000" (by decide)).1⟩

/-! ## `qualifyContainerImages` -/

/-- One iteration of the loop on a container that is skipped or rewritten:
the container has a domain, or the candidate name parses. -/
theorem qualifyContainerImages_cons_pass (D : Domain) (c : Container) (rest : List Container)
    (h : hasDomain c.Image = true ∨ (parsers.ParseImageName (D ++ "/" ++ c.Image)).2.2.2 = none) :
    qualifyContainerImages D (c :: rest) =
      ((if hasDomain c.Image then c else { c with Image := D ++ "/" ++ c.Image }) ::
          (qualifyContainerImages D rest).1,
        (qualifyContainerImages D rest).2.1, (qualifyContainerImages D rest).2.2) := by
  by_cases hd : hasDomain c.Image = true
  · simp [qualifyContainerImages, hd]
  · have hp : (parsers.ParseImageName (D ++ "/" ++ c.Image)).2.2.2 = none := by
      rcases h with h | h
      · exact absurd h hd
      · exact h
    simp [qualifyContainerImages, hd, hp]

/-- One iteration of the loop on a container without a domain whose candidate
name does not parse: the function returns at once. -/
theorem qualifyContainerImages_cons_fail (D : Domain) (c : Container) (rest : List Container)
    (hd : hasDomain c.Image = false)
    (hp : (parsers.ParseImageName (D ++ "/" ++ c.Image)).2.2.2 ≠ none) :
    qualifyContainerImages D (c :: rest) =
      (c :: rest, D ++ "/" ++ c.Image, (parsers.ParseImageName (D ++ "/" ++ c.Image)).2.2.2) := by
  cases he : (parsers.ParseImageName (D ++ "/" ++ c.Image)).2.2.2 with
  | none => exact absurd he hp
  | some err => simp [qualifyContainerImages, hd, he]

/-- The loop over a prefix of containers none of which fails. -/
theorem qualifyContainerImages_append (D : Domain) (pre rest : List Container)
    (h : ∀ x ∈ pre, hasDomain x.Image = true ∨
      (parsers.ParseImageName (D ++ "/" ++ x.Image)).2.2.2 = none) :
    qualifyContainerImages D (pre ++ rest) =
      (pre.map (fun c => if hasDomain c.Image then c else { c with Image := D ++ "/" ++ c.Image })
          ++ (qualifyContainerImages D rest).1,
        (qualifyContainerImages D rest).2.1, (qualifyContainerImages D rest).2.2) := by
  induction pre with
  | nil => simp
  | cons c cs ih =>
    have hc := h c (by simp)
    have hcs := ih (fun x hx => h x (by simp [hx]))
    rw [List.cons_append, qualifyContainerImages_cons_pass D c (cs ++ rest) hc, hcs]
    simp

/-- When the loop returns an error, there is a first failing container. -/
theorem qualifyContainerImages_first_failure (D : Domain) (cs : List Container)
    (h : (qualifyContainerImages D cs).2.2 ≠ none) :
    ∃ pre c post, cs = pre ++ c :: post ∧
      (∀ x ∈ pre, hasDomain x.Image = true ∨
        (parsers.ParseImageName (D ++ "/" ++ x.Image)).2.2.2 = none) ∧
      hasDomain c.Image = false ∧
      (parsers.ParseImageName (D ++ "/" ++ c.Image)).2.2.2 ≠ none := by
  induction cs with
  | nil => simp [qualifyContainerImages] at h
  | cons c rest ih =>
    by_cases hc : hasDomain c.Image = true ∨
        (parsers.ParseImageName (D ++ "/" ++ c.Image)).2.2.2 = none
    · rw [qualifyContainerImages_cons_pass D c rest hc] at h
      obtain ⟨pre, c', post, hcs, hpre, hbad⟩ := ih h
      refine ⟨c :: pre, c', post, by simp [hcs], ?_, hbad⟩
      intro x hx
      rcases List.mem_cons.1 hx with rfl | hx
      · exact hc
      · exact hpre x hx
    · refine ⟨[], c, rest, rfl, by simp, ?_, ?_⟩
      · cases hd : hasDomain c.Image with
        | false => rfl
        | true => exact absurd (Or.inl hd) hc
      · exact fun e => hc (Or.inr e)

/-- When the loop returns no error, no container failed. -/
theorem qualifyContainerImages_no_failure (D : Domain) (cs : List Container)
    (h : (qualifyContainerImages D cs).2.2 = none) :
    ∀ x ∈ cs, hasDomain x.Image = true ∨
      (parsers.ParseImageName (D ++ "/" ++ x.Image)).2.2.2 = none := by
  induction cs with
  | nil => simp
  | cons c rest ih =>
    by_cases hc : hasDomain c.Image = true ∨
        (parsers.ParseImageName (D ++ "/" ++ c.Image)).2.2.2 = none
    · rw [qualifyContainerImages_cons_pass D c rest hc] at h
      intro x hx
      rcases List.mem_cons.1 hx with rfl | hx
      · exact hc
      · exact ih h x hx
    · have hd : hasDomain c.Image = false := by
        cases hd : hasDomain c.Image with
        | false => rfl
        | true => exact absurd (Or.inl hd) hc
      have hp : (parsers.ParseImageName (D ++ "/" ++ c.Image)).2.2.2 ≠ none :=
        fun e => hc (Or.inr e)
      rw [qualifyContainerImages_cons_fail D c rest hd hp] at h
      exact absurd h hp

/-- C9: if `qualifyContainerImages D cs` returns no error, the image name it
returns is empty, the containers afterwards are the original ones in the same
order and positions, each with its image unchanged when `hasDomain` holds of
it and replaced by `D/image` otherwise, and `ParseImageName` accepts every
such `D/image`. -/
theorem qualifyContainerImages_success (D : Domain) (cs : List Container)
    (h : (qualifyContainerImages D cs).2.2 = none) :
    (qualifyContainerImages D cs).2.1 = "" ∧
    (qualifyContainerImages D cs).1 =
      cs.map (fun c => if hasDomain c.Image then c else { c with Image := D ++ "/" ++ c.Image }) ∧
    (∀ i (hi : i < cs.length),
      ((qualifyContainerImages D cs).1.map Container.Image)[i]? =
        some (if hasDomain (cs.get ⟨i, hi⟩).Image then (cs.get ⟨i, hi⟩).Image
          else D ++ "/" ++ (cs.get ⟨i, hi⟩).Image)) ∧
    (∀ c ∈ cs, hasDomain c.Image = false →
      (parsers.ParseImageName (D ++ "/" ++ c.Image)).2.2.2 = none) := by
  have hall := qualifyContainerImages_no_failure D cs h
  have hq := qualifyContainerImages_append D cs [] hall
  simp only [List.append_nil, qualifyContainerImages] at hq
  refine ⟨by rw [hq], by rw [hq], ?_, ?_⟩
  · intro i hi
    rw [hq]
    simp only [List.map_map, List.getElem?_map, List.get_eq_getElem]
    rw [List.getElem?_eq_getElem hi]
    simp only [Option.map_some', Function.comp]
    split <;> rfl
  · intro c hc hd
    rcases hall c hc with h1 | h1
    · rw [hd] at h1
      cases h1
    · exact h1

/-- Witness for C9: with domain `localhost:5000`, `busybox` is qualified and
`gcr.io/busybox` is left as it is. -/
theorem qualifyContainerImages_success_witness :
    (qualifyContainerImages "localhost:5000"
      [⟨"c1", "busybox"⟩, ⟨"c2", "gcr.io/busybox"⟩]).2.2 = none ∧
    (qualifyContainerImages "localhost:5000"
      [⟨"c1", "busybox"⟩, ⟨"c2", "gcr.io/busybox"⟩]).1 =
      [⟨"c1", "localhost:5000/busybox"⟩, ⟨"c2", "gcr.io/busybox"⟩] :=
  ⟨by decide,
   (qualifyContainerImages_success "localhost:5000"
      [⟨"c1", "busybox"⟩, ⟨"c2", "gcr.io/busybox"⟩] (by decide)).2.1.trans (by decide)⟩

/-- C10: `qualifyContainerImages D cs` returns an error exactly when `cs` has
a first container `c` (all before it pass) for which `hasDomain` is false and
`ParseImageName` rejects `D/image`; it then returns that candidate name and
the parse error, the containers before `c` hold their rewritten value
(`D/image` when they had no domain, unchanged otherwise), and `c` and all
containers after it are as submitted. -/
theorem qualifyContainerImages_fail_fast (D : Domain) (cs : List Container) :
    ((qualifyContainerImages D cs).2.2 ≠ none ↔
      ∃ pre c post, cs = pre ++ c :: post ∧
        (∀ x ∈ pre, hasDomain x.Image = true ∨
          (parsers.ParseImageName (D ++ "/" ++ x.Image)).2.2.2 = none) ∧
        hasDomain c.Image = false ∧
        (parsers.ParseImageName (D ++ "/" ++ c.Image)).2.2.2 ≠ none) ∧
    (∀ pre c post, cs = pre ++ c :: post →
      (∀ x ∈ pre, hasDomain x.Image = true ∨
        (parsers.ParseImageName (D ++ "/" ++ x.Image)).2.2.2 = none) →
      hasDomain c.Image = false →
      (parsers.ParseImageName (D ++ "/" ++ c.Image)).2.2.2 ≠ none →
      qualifyContainerImages D cs =
        (pre.map (fun x =>
            if hasDomain x.Image then x else { x with Image := D ++ "/" ++ x.Image })
          ++ c :: post,
         D ++ "/" ++ c.Image,
         (parsers.ParseImageName (D ++ "/" ++ c.Image)).2.2.2)) := by
  have key : ∀ pre c post, cs = pre ++ c :: post →
      (∀ x ∈ pre, hasDomain x.Image = true ∨
        (parsers.ParseImageName (D ++ "/" ++ x.Image)).2.2.2 = none) →
      hasDomain c.Image = false →
      (parsers.ParseImageName (D ++ "/" ++ c.Image)).2.2.2 ≠ none →
      qualifyContainerImages D cs =
        (pre.map (fun x =>
            if hasDomain x.Image then x else { x with Image := D ++ "/" ++ x.Image })
          ++ c :: post,
         D ++ "/" ++ c.Image,
         (parsers.ParseImageName (D ++ "/" ++ c.Image)).2.2.2) := by
    intro pre c post hcs hpre hd hp
    rw [hcs, qualifyContainerImages_append D pre (c :: post) hpre,
      qualifyContainerImages_cons_fail D c post hd hp]
  refine ⟨⟨qualifyContainerImages_first_failure D cs, ?_⟩, key⟩
  rintro ⟨pre, c, post, hcs, hpre, hd, hp⟩
  rw [key pre c post hcs hpre hd hp]
  exact hp

/-- Witness for C10: with domain `localhost:5000` the third container `Foo/bar`
fails; the first one stays rewritten, the third and fourth are untouched. -/
theorem qualifyContainerImages_fail_fast_witness :
    qualifyContainerImages "localhost:5000"
      [⟨"c1", "busybox"⟩, ⟨"c2", "gcr.io/busybox"⟩, ⟨"c3", "Foo/bar"⟩, ⟨"c4", "busybox"⟩] =
      ([⟨"c1", "localhost:5000/busybox"⟩, ⟨"c2", "gcr.io/busybox"⟩, ⟨"c3", "Foo/bar"⟩,
          ⟨"c4", "busybox"⟩],
        "localhost:5000/Foo/bar",
        (parsers.ParseImageName "localhost:5000/Foo/bar").2.2.2) ∧
    (parsers.ParseImageName "localhost:5000/Foo/bar").2.2.2 ≠ none :=
  ⟨((qualifyContainerImages_fail_fast "localhost:5000"
      [⟨"c1", "busybox"⟩, ⟨"c2", "gcr.io/busybox"⟩, ⟨"c3", "Foo/bar"⟩, ⟨"c4", "busybox"⟩]).2
      [⟨"c1", "busybox"⟩, ⟨"c2", "gcr.io/busybox"⟩] ⟨"c3", "Foo/bar"⟩ [⟨"c4", "busybox"⟩]
      rfl (by decide) (by decide) (by decide)).trans (by decide),
   by decide⟩

/-! ## `Admit` -/

/-- The gate lets a request through exactly when it has no subresource,
targets the pods resource and is a create. -/
theorem shouldIgnore_eq_false_iff (attributes : admission.Attributes) :
    shouldIgnore attributes = false ↔
      attributes.GetSubresource = "" ∧
      attributes.GetResource.GroupResource = api.Resource "pods" ∧
      attributes.GetOperation = admission.Operation.Create := by
  have hlen : attributes.GetSubresource.length > 0 ↔ attributes.GetSubresource ≠ "" := by
    cases hs : attributes.GetSubresource with
    | mk d =>
      cases d with
      | nil => simp [String.length]
      | cons c cs =>
        simp only [String.length, List.length_cons, gt_iff_lt, Nat.zero_lt_succ, ne_eq, true_iff]
        intro h
        exact absurd (congrArg String.data h) (by simp)
  simp only [shouldIgnore, isSubresourceRequest, isPodsRequest, isCreateRequest]
  by_cases h1 : attributes.GetSubresource = ""
  · have h1' : ¬ attributes.GetSubresource.length > 0 := fun h => hlen.1 h h1
    by_cases h2 : attributes.GetResource.GroupResource = api.Resource "pods"
    · by_cases h3 : attributes.GetOperation = admission.Operation.Create
      · simp [h1, h2, h3]
      · simp [h1, h2, h3]
    · simp [h1, h2]
  · have h1' : attributes.GetSubresource.length > 0 := hlen.2 h1
    simp [h1, h1']

/-- A request the gate ignores is answered with success and the object is
not touched. -/
theorem Admit_ignored (quote : String → String) (a : AlwaysQualifyImages)
    (attributes : admission.Attributes) (h : shouldIgnore attributes = true) :
    a.Admit quote attributes = (attributes.GetObject, none) := by
  simp [AlwaysQualifyImages.Admit, h]

/-- The gate ignores a request that has a subresource, or does not target
pods, or is not a create. -/
theorem shouldIgnore_of_not_applicable (attributes : admission.Attributes)
    (h : attributes.GetSubresource ≠ "" ∨
      attributes.GetResource.GroupResource ≠ api.Resource "pods" ∨
      attributes.GetOperation ≠ admission.Operation.Create) :
    shouldIgnore attributes = true := by
  cases hs : shouldIgnore attributes with
  | true => rfl
  | false =>
    obtain ⟨h1, h2, h3⟩ := (shouldIgnore_eq_false_iff attributes).1 hs
    rcases h with h | h | h
    · exact absurd h1 h
    · exact absurd h2 h
    · exact absurd h3 h

/-- What `Admit` does on an applicable request whose object is a pod: the
init-containers are qualified first; on an error the method returns, else the
containers are qualified. -/
theorem Admit_pod (quote : String → String) (a : AlwaysQualifyImages)
    (attributes : admission.Attributes) (pod : Pod)
    (hg : shouldIgnore attributes = false) (ho : attributes.GetObject = .Pod pod) :
    a.Admit quote attributes =
      match (qualifyContainerImages a.Domain pod.Spec.InitContainers).2.2 with
      | some err =>
        (.Pod { pod with Spec := { pod.Spec with
            InitContainers := (qualifyContainerImages a.Domain pod.Spec.InitContainers).1 } },
          some (apierrors.NewBadRequest (invalidImageNameMessage quote
            (qualifyContainerImages a.Domain pod.Spec.InitContainers).2.1 err)))
      | none =>
        match (qualifyContainerImages a.Domain pod.Spec.Containers).2.2 with
        | some err =>
          (.Pod { pod with Spec :=
              { InitContainers := (qualifyContainerImages a.Domain pod.Spec.InitContainers).1,
                Containers := (qualifyContainerImages a.Domain pod.Spec.Containers).1 } },
            some (apierrors.NewBadRequest (invalidImageNameMessage quote
              (qualifyContainerImages a.Domain pod.Spec.Containers).2.1 err)))
        | none =>
          (.Pod { pod with Spec :=
              { InitContainers := (qualifyContainerImages a.Domain pod.Spec.InitContainers).1,
                Containers := (qualifyContainerImages a.Domain pod.Spec.Containers).1 } },
            none) := by
  simp only [AlwaysQualifyImages.Admit, hg, ho]
  rcases hi : qualifyContainerImages a.Domain pod.Spec.InitContainers with ⟨inits, image, err⟩
  cases err with
  | some e => simp
  | none =>
    rcases hc : qualifyContainerImages a.Domain pod.Spec.Containers with ⟨ctrs, image', err'⟩
    cases err' with
    | some e => simp
    | none => simp

/-- A list of containers that all carry a domain is left as it is. -/
theorem qualifyContainerImages_all_qualified (D : Domain) (cs : List Container)
    (h : ∀ c ∈ cs, hasDomain c.Image = true) :
    qualifyContainerImages D cs = (cs, "", none) := by
  have hq := qualifyContainerImages_append D cs [] (fun x hx => Or.inl (h x hx))
  simp only [List.append_nil, qualifyContainerImages] at hq
  rw [hq]
  congr 1
  conv_rhs => rw [← List.map_id cs]
  apply List.map_congr_left
  intro c hc
  simp [h c hc]

/-- A list of containers none of which carries a domain and all of whose
candidate names parse is rewritten throughout. -/
theorem qualifyContainerImages_all_unqualified (D : Domain) (cs : List Container)
    (h : ∀ c ∈ cs, hasDomain c.Image = false ∧
      (parsers.ParseImageName (D ++ "/" ++ c.Image)).2.2.2 = none) :
    qualifyContainerImages D cs =
      (cs.map (fun c => { c with Image := D ++ "/" ++ c.Image }), "", none) := by
  have hq := qualifyContainerImages_append D cs [] (fun x hx => Or.inr (h x hx).2)
  simp only [List.append_nil, qualifyContainerImages] at hq
  rw [hq]
  congr 1
  apply List.map_congr_left
  intro c hc
  simp [(h c hc).1]

/-- The result of the loop when its first failing container is `c`. -/
theorem qualifyContainerImages_at_first_failure (D : Domain) (pre : List Container)
    (c : Container) (post : List Container)
    (hpre : ∀ x ∈ pre, hasDomain x.Image = true ∨
      (parsers.ParseImageName (D ++ "/" ++ x.Image)).2.2.2 = none)
    (hd : hasDomain c.Image = false)
    (hp : (parsers.ParseImageName (D ++ "/" ++ c.Image)).2.2.2 ≠ none) :
    qualifyContainerImages D (pre ++ c :: post) =
      (pre.map (fun x =>
          if hasDomain x.Image then x else { x with Image := D ++ "/" ++ x.Image })
        ++ c :: post,
       D ++ "/" ++ c.Image,
       (parsers.ParseImageName (D ++ "/" ++ c.Image)).2.2.2) := by
  rw [qualifyContainerImages_append D pre (c :: post) hpre,
    qualifyContainerImages_cons_fail D c post hd hp]

/-- The result of the loop when it returns no error. -/
theorem qualifyContainerImages_of_no_error (D : Domain) (cs : List Container)
    (h : (qualifyContainerImages D cs).2.2 = none) :
    qualifyContainerImages D cs =
      (cs.map (fun x =>
        if hasDomain x.Image then x else { x with Image := D ++ "/" ++ x.Image }), "", none) := by
  have hq := qualifyContainerImages_append D cs [] (qualifyContainerImages_no_failure D cs h)
  simpa only [List.append_nil, qualifyContainerImages] using hq

/-- C11: idempotence on qualified references.  Whatever the Domain, a
container list in which every image carries a detectable domain is returned
by `qualifyContainerImages` without error and with every container
unchanged, and `Admit` on an applicable create-pod request for a pod whose
init-containers and containers are all of that kind succeeds and leaves the
pod unchanged; the Domain is never prepended. -/
theorem qualify_idempotent_on_qualified (D : Domain) (cs : List Container)
    (h : ∀ c ∈ cs, hasDomain c.Image = true) :
    qualifyContainerImages D cs = (cs, "", none) ∧
    (∀ (quote : String → String) (a : AlwaysQualifyImages) (attributes : admission.Attributes)
      (pod : Pod),
      attributes.GetSubresource = "" →
      attributes.GetResource.GroupResource = api.Resource "pods" →
      attributes.GetOperation = admission.Operation.Create →
      attributes.GetObject = .Pod pod →
      (∀ c ∈ pod.Spec.InitContainers, hasDomain c.Image = true) →
      (∀ c ∈ pod.Spec.Containers, hasDomain c.Image = true) →
      a.Admit quote attributes = (.Pod pod, none)) := by
  refine ⟨qualifyContainerImages_all_qualified D cs h, ?_⟩
  intro quote a attributes pod h1 h2 h3 ho hi hc
  have hg := (shouldIgnore_eq_false_iff attributes).2 ⟨h1, h2, h3⟩
  rw [Admit_pod quote a attributes pod hg ho,
    qualifyContainerImages_all_qualified a.Domain _ hi,
    qualifyContainerImages_all_qualified a.Domain _ hc]

/-- Witness for C11: the handler for `unexpectedtest.io` leaves the images
`test.io/busybox` and `test.io/foo/busybox:v1.2.3` as they are. -/
theorem qualify_idempotent_on_qualified_witness :
    qualifyContainerImages "unexpectedtest.io"
        [⟨"ctrl1", "test.io/busybox"⟩, ⟨"ctrl4", "test.io/foo/busybox:v1.2.3"⟩] =
      ([⟨"ctrl1", "test.io/busybox"⟩, ⟨"ctrl4", "test.io/foo/busybox:v1.2.3"⟩], "", none) :=
  (qualify_idempotent_on_qualified "unexpectedtest.io"
    [⟨"ctrl1", "test.io/busybox"⟩, ⟨"ctrl4", "test.io/foo/busybox:v1.2.3"⟩] (by decide)).1

/-- C13: on a create request for the pods resource with no subresource, for
a pod all of whose init-container and container images are unqualified and
whose candidates `D/image` are accepted by `ParseImageName`, `Admit` returns
success and afterwards every init-container image and every container image
is `D/` followed by its original image, in the original order. -/
theorem Admit_qualifies_unqualified (quote : String → String) (a : AlwaysQualifyImages)
    (attributes : admission.Attributes) (pod : Pod)
    (h1 : attributes.GetSubresource = "")
    (h2 : attributes.GetResource.GroupResource = api.Resource "pods")
    (h3 : attributes.GetOperation = admission.Operation.Create)
    (ho : attributes.GetObject = .Pod pod)
    (hi : ∀ c ∈ pod.Spec.InitContainers, hasDomain c.Image = false ∧
      (parsers.ParseImageName (a.Domain ++ "/" ++ c.Image)).2.2.2 = none)
    (hc : ∀ c ∈ pod.Spec.Containers, hasDomain c.Image = false ∧
      (parsers.ParseImageName (a.Domain ++ "/" ++ c.Image)).2.2.2 = none) :
    a.Admit quote attributes =
      (.Pod { pod with Spec :=
          { InitContainers := pod.Spec.InitContainers.map
              (fun c => { c with Image := a.Domain ++ "/" ++ c.Image }),
            Containers := pod.Spec.Containers.map
              (fun c => { c with Image := a.Domain ++ "/" ++ c.Image }) } },
        none) := by
  have hg := (shouldIgnore_eq_false_iff attributes).2 ⟨h1, h2, h3⟩
  rw [Admit_pod quote a attributes pod hg ho,
    qualifyContainerImages_all_unqualified a.Domain _ hi,
    qualifyContainerImages_all_unqualified a.Domain _ hc]

/-- Witness for C13: with the domain `registry.example.com:5000` the images
`busybox` and `foo/busybox` become `registry.example.com:5000/busybox` and
`registry.example.com:5000/foo/busybox`. -/
theorem Admit_qualifies_unqualified_witness :
    NewDomain "registry.example.com:5000" = ("registry.example.com:5000", none) ∧
    (NewAlwaysQualifyImages "registry.example.com:5000").Admit (fun s => s)
        ⟨.Pod ⟨"123", "test", ⟨[⟨"init1", "busybox"⟩], [⟨"ctrl3", "foo/busybox"⟩]⟩⟩,
          (api.Resource "pods").WithVersion "version", "", admission.Operation.Create⟩ =
      (.Pod ⟨"123", "test", ⟨[⟨"init1", "registry.example.com:5000/busybox"⟩],
          [⟨"ctrl3", "registry.example.com:5000/foo/busybox"⟩]⟩⟩, none) :=
  ⟨by decide,
   Admit_qualifies_unqualified (fun s => s) (NewAlwaysQualifyImages "registry.example.com:5000")
    ⟨.Pod ⟨"123", "test", ⟨[⟨"init1", "busybox"⟩], [⟨"ctrl3", "foo/busybox"⟩]⟩⟩,
      (api.Resource "pods").WithVersion "version", "", admission.Operation.Create⟩
    ⟨"123", "test", ⟨[⟨"init1", "busybox"⟩], [⟨"ctrl3", "foo/busybox"⟩]⟩⟩
    rfl rfl rfl rfl (by decide) (by decide)⟩

/-- C14: `Admit` is a no-op on a request that is not applicable: when the
subresource is not empty, or the resource is not pods, or the operation is
not create, it returns success and the submitted object, with every
init-container and container image, is exactly as submitted. -/
theorem Admit_noop_when_not_applicable (quote : String → String) (a : AlwaysQualifyImages)
    (attributes : admission.Attributes)
    (h : attributes.GetSubresource ≠ "" ∨
      attributes.GetResource.GroupResource ≠ api.Resource "pods" ∨
      attributes.GetOperation ≠ admission.Operation.Create) :
    a.Admit quote attributes = (attributes.GetObject, none) :=
  Admit_ignored quote a attributes (shouldIgnore_of_not_applicable attributes h)

/-- Witness for C14: an update request for a pod with the unqualified image
`busybox` leaves the pod as submitted. -/
theorem Admit_noop_when_not_applicable_witness :
    (NewAlwaysQualifyImages "test.io").Admit (fun s => s)
        ⟨.Pod ⟨"123", "test", ⟨[⟨"init1", "busybox"⟩], [⟨"ctrl1", "busybox"⟩]⟩⟩,
          (api.Resource "pods").WithVersion "version", "", admission.Operation.Update⟩ =
      (.Pod ⟨"123", "test", ⟨[⟨"init1", "busybox"⟩], [⟨"ctrl1", "busybox"⟩]⟩⟩, none) :=
  Admit_noop_when_not_applicable (fun s => s) (NewAlwaysQualifyImages "test.io")
    ⟨.Pod ⟨"123", "test", ⟨[⟨"init1", "busybox"⟩], [⟨"ctrl1", "busybox"⟩]⟩⟩,
      (api.Resource "pods").WithVersion "version", "", admission.Operation.Update⟩
    (Or.inr (Or.inr (by decide)))

/-- C15: on an applicable request (create, pods, no subresource) whose object
is not a pod, `Admit` fails with the bad-request error whose message is
`Resource was marked with kind Pod but was unable to be converted`. -/
theorem Admit_non_pod_object (quote : String → String) (a : AlwaysQualifyImages)
    (attributes : admission.Attributes)
    (h1 : attributes.GetSubresource = "")
    (h2 : attributes.GetResource.GroupResource = api.Resource "pods")
    (h3 : attributes.GetOperation = admission.Operation.Create)
    (ho : attributes.GetObject = .Other) :
    (a.Admit quote attributes).2 = some (apierrors.NewBadRequest
      "Resource was marked with kind Pod but was unable to be converted") ∧
    (a.Admit quote attributes).2 =
      some "Resource was marked with kind Pod but was unable to be converted" := by
  have hg := (shouldIgnore_eq_false_iff attributes).2 ⟨h1, h2, h3⟩
  simp [AlwaysQualifyImages.Admit, hg, ho, apierrors.NewBadRequest]

/-- Witness for C15: the request of `TestAdmissionOnNonPodObject`. -/
theorem Admit_non_pod_object_witness :
    ((NewAlwaysQualifyImages "test.io").Admit (fun s => s)
        ⟨.Other, (api.Resource "pods").WithVersion "version", "",
          admission.Operation.Create⟩).2 =
      some "Resource was marked with kind Pod but was unable to be converted" :=
  (Admit_non_pod_object (fun s => s) (NewAlwaysQualifyImages "test.io")
    ⟨.Other, (api.Resource "pods").WithVersion "version", "", admission.Operation.Create⟩
    rfl rfl rfl rfl).2

/-- C16: the applicability gate precedes the type check.  For a request whose
object is not a pod, `Admit` returns success and does nothing when the gate
ignores the request (subresource, or resource other than pods, or operation
other than create), and it returns an error, the type-mismatch error, exactly
when the request is applicable. -/
theorem Admit_gate_before_type_check (quote : String → String) (a : AlwaysQualifyImages)
    (attributes : admission.Attributes) (ho : attributes.GetObject = .Other) :
    ((attributes.GetSubresource ≠ "" ∨
        attributes.GetResource.GroupResource ≠ api.Resource "pods" ∨
        attributes.GetOperation ≠ admission.Operation.Create) →
      a.Admit quote attributes = (.Other, none)) ∧
    ((a.Admit quote attributes).2 ≠ none ↔
      (attributes.GetSubresource = "" ∧
        attributes.GetResource.GroupResource = api.Resource "pods" ∧
        attributes.GetOperation = admission.Operation.Create)) ∧
    ((a.Admit quote attributes).2 ≠ none →
      (a.Admit quote attributes).2 = some (apierrors.NewBadRequest
        "Resource was marked with kind Pod but was unable to be converted")) := by
  cases hg : shouldIgnore attributes with
  | true =>
    have hA := Admit_ignored quote a attributes hg
    have hn : ¬ (attributes.GetSubresource = "" ∧
        attributes.GetResource.GroupResource = api.Resource "pods" ∧
        attributes.GetOperation = admission.Operation.Create) := by
      intro h
      rw [(shouldIgnore_eq_false_iff attributes).2 h] at hg
      cases hg
    rw [hA, ho]
    simp [hn]
  | false =>
    have happ := (shouldIgnore_eq_false_iff attributes).1 hg
    have hA : (a.Admit quote attributes).2 = some (apierrors.NewBadRequest
        "Resource was marked with kind Pod but was unable to be converted") := by
      simp [AlwaysQualifyImages.Admit, hg, ho]
    refine ⟨?_, ?_, ?_⟩
    · rintro (h | h | h)
      · exact absurd happ.1 h
      · exact absurd happ.2.1 h
      · exact absurd happ.2.2 h
    · rw [hA]
      simp [happ]
    · intro _
      exact hA

/-- Witness for C16: a request with a subresource and a non-pod object is
answered with success. -/
theorem Admit_gate_before_type_check_witness :
    (NewAlwaysQualifyImages "test.io").Admit (fun s => s)
        ⟨.Other, (api.Resource "pods").WithVersion "version", "subresource",
          admission.Operation.Create⟩ = (.Other, none) :=
  (Admit_gate_before_type_check (fun s => s) (NewAlwaysQualifyImages "test.io")
    ⟨.Other, (api.Resource "pods").WithVersion "version", "subresource",
      admission.Operation.Create⟩ rfl).1 (Or.inl (by decide))

/-- C17: init-containers are processed before the main containers.  On an
applicable request for a pod: if the init-container list fails at its first
failing container, `Admit` fails, the init-containers before it stay
rewritten and no main container is changed; if the init-container list
succeeds and the main-container list fails at its first failing container,
`Admit` fails, every rewrite of the init-container list is retained and so
are the rewrites of the main containers before the failing one. -/
theorem Admit_init_containers_first (quote : String → String) (a : AlwaysQualifyImages)
    (attributes : admission.Attributes) (pod : Pod)
    (h1 : attributes.GetSubresource = "")
    (h2 : attributes.GetResource.GroupResource = api.Resource "pods")
    (h3 : attributes.GetOperation = admission.Operation.Create)
    (ho : attributes.GetObject = .Pod pod) :
    (∀ pre c post, pod.Spec.InitContainers = pre ++ c :: post →
      (∀ x ∈ pre, hasDomain x.Image = true ∨
        (parsers.ParseImageName (a.Domain ++ "/" ++ x.Image)).2.2.2 = none) →
      hasDomain c.Image = false →
      (parsers.ParseImageName (a.Domain ++ "/" ++ c.Image)).2.2.2 ≠ none →
      (a.Admit quote attributes).2 ≠ none ∧
      (a.Admit quote attributes).1 =
        .Pod { pod with Spec :=
          { InitContainers := pre.map (fun x =>
                if hasDomain x.Image then x else { x with Image := a.Domain ++ "/" ++ x.Image })
              ++ c :: post,
            Containers := pod.Spec.Containers } }) ∧
    ((qualifyContainerImages a.Domain pod.Spec.InitContainers).2.2 = none →
      ∀ pre c post, pod.Spec.Containers = pre ++ c :: post →
      (∀ x ∈ pre, hasDomain x.Image = true ∨
        (parsers.ParseImageName (a.Domain ++ "/" ++ x.Image)).2.2.2 = none) →
      hasDomain c.Image = false →
      (parsers.ParseImageName (a.Domain ++ "/" ++ c.Image)).2.2.2 ≠ none →
      (a.Admit quote attributes).2 ≠ none ∧
      (a.Admit quote attributes).1 =
        .Pod { pod with Spec :=
          { InitContainers := pod.Spec.InitContainers.map (fun x =>
              if hasDomain x.Image then x else { x with Image := a.Domain ++ "/" ++ x.Image }),
            Containers := pre.map (fun x =>
                if hasDomain x.Image then x else { x with Image := a.Domain ++ "/" ++ x.Image })
              ++ c :: post } }) := by
  have hg := (shouldIgnore_eq_false_iff attributes).2 ⟨h1, h2, h3⟩
  have hA := Admit_pod quote a attributes pod hg ho
  constructor
  · intro pre c post hcs hpre hd hp
    have hq := qualifyContainerImages_at_first_failure a.Domain pre c post hpre hd hp
    rw [hA, hcs, hq]
    cases he : (parsers.ParseImageName (a.Domain ++ "/" ++ c.Image)).2.2.2 with
    | none => exact absurd he hp
    | some e => simp
  · intro hi pre c post hcs hpre hd hp
    have hq := qualifyContainerImages_at_first_failure a.Domain pre c post hpre hd hp
    have hi' := qualifyContainerImages_of_no_error a.Domain pod.Spec.InitContainers hi
    rw [hA, hi', hcs, hq]
    cases he : (parsers.ParseImageName (a.Domain ++ "/" ++ c.Image)).2.2.2 with
    | none => exact absurd he hp
    | some e => simp

/-- Witness for C17: the second init-container `Foo/bar` fails; the first
stays rewritten and the main container `busybox` is not changed. -/
theorem Admit_init_containers_first_witness :
    ((NewAlwaysQualifyImages "test.io").Admit (fun s => s)
        ⟨.Pod ⟨"123", "test",
            ⟨[⟨"init1", "busybox"⟩, ⟨"init2", "Foo/bar"⟩], [⟨"ctrl1", "busybox"⟩]⟩⟩,
          (api.Resource "pods").WithVersion "version", "", admission.Operation.Create⟩).2 ≠ none ∧
    ((NewAlwaysQualifyImages "test.io").Admit (fun s => s)
        ⟨.Pod ⟨"123", "test",
            ⟨[⟨"init1", "busybox"⟩, ⟨"init2", "Foo/bar"⟩], [⟨"ctrl1", "busybox"⟩]⟩⟩,
          (api.Resource "pods").WithVersion "version", "", admission.Operation.Create⟩).1 =
      .Pod ⟨"123", "test",
        ⟨[⟨"init1", "test.io/busybox"⟩, ⟨"init2", "Foo/bar"⟩], [⟨"ctrl1", "busybox"⟩]⟩⟩ :=
  (fun h => ⟨h.1, h.2.trans (by decide)⟩)
    ((Admit_init_containers_first (fun s => s) (NewAlwaysQualifyImages "test.io")
      ⟨.Pod ⟨"123", "test",
          ⟨[⟨"init1", "busybox"⟩, ⟨"init2", "Foo/bar"⟩], [⟨"ctrl1", "busybox"⟩]⟩⟩,
        (api.Resource "pods").WithVersion "version", "", admission.Operation.Create⟩
      ⟨"123", "test", ⟨[⟨"init1", "busybox"⟩, ⟨"init2", "Foo/bar"⟩], [⟨"ctrl1", "busybox"⟩]⟩⟩
      rfl rfl rfl rfl).1
      [⟨"init1", "busybox"⟩] ⟨"init2", "Foo/bar"⟩ [] rfl (by decide) (by decide) (by decide))

/-- A candidate name `D/image` is neither empty nor the image itself. -/
theorem candidate_ne (D image : String) :
    D ++ "/" ++ image ≠ "" ∧ D ++ "/" ++ image ≠ image := by
  have hl : (D ++ "/" ++ image).length = D.length + 1 + image.length := by
    simp only [String.length_append]
    rfl
  constructor
  · intro h
    have h' := congrArg String.length h
    rw [hl] at h'
    have h0 : ("" : String).length = 0 := rfl
    omega
  · intro h
    have h' := congrArg String.length h
    rw [hl] at h'
    omega

/-- C18: when `Admit` fails on a pod, the qualification of one of the two
lists failed at its first failing container `c`, and the error is the
bad-request error with the message `invalid image name`, the candidate
`D/image` of `c` as the verb `%q` renders it, `: ` and the parse error of
that candidate; the name reported is the prefixed candidate, which is
neither the original image nor empty. -/
theorem Admit_error_reports_candidate (quote : String → String) (a : AlwaysQualifyImages)
    (attributes : admission.Attributes) (pod : Pod) (err : Error)
    (ho : attributes.GetObject = .Pod pod)
    (he : (a.Admit quote attributes).2 = some err) :
    ∃ pre c post perr,
      (pod.Spec.InitContainers = pre ++ c :: post ∨
        ((qualifyContainerImages a.Domain pod.Spec.InitContainers).2.2 = none ∧
          pod.Spec.Containers = pre ++ c :: post)) ∧
      (∀ x ∈ pre, hasDomain x.Image = true ∨
        (parsers.ParseImageName (a.Domain ++ "/" ++ x.Image)).2.2.2 = none) ∧
      hasDomain c.Image = false ∧
      (parsers.ParseImageName (a.Domain ++ "/" ++ c.Image)).2.2.2 = some perr ∧
      err = apierrors.NewBadRequest
        ("invalid image name " ++ quote (a.Domain ++ "/" ++ c.Image) ++ ": " ++ perr) ∧
      a.Domain ++ "/" ++ c.Image ≠ c.Image ∧ a.Domain ++ "/" ++ c.Image ≠ "" := by
  have hg : shouldIgnore attributes = false := by
    cases hg : shouldIgnore attributes with
    | false => rfl
    | true =>
      rw [Admit_ignored quote a attributes hg] at he
      cases he
  rw [Admit_pod quote a attributes pod hg ho] at he
  cases hi : (qualifyContainerImages a.Domain pod.Spec.InitContainers).2.2 with
  | some e =>
    obtain ⟨pre, c, post, hcs, hpre, hd, hp⟩ :=
      qualifyContainerImages_first_failure a.Domain pod.Spec.InitContainers (by simp [hi])
    have hq := qualifyContainerImages_at_first_failure a.Domain pre c post hpre hd hp
    rw [← hcs] at hq
    have hpe : (parsers.ParseImageName (a.Domain ++ "/" ++ c.Image)).2.2.2 = some e := by
      rw [hq] at hi
      exact hi
    rw [hi] at he
    simp only [Option.some.injEq] at he
    rw [hq] at he
    exact ⟨pre, c, post, e, Or.inl hcs, hpre, hd, hpe, he.symm,
      (candidate_ne a.Domain c.Image).2, (candidate_ne a.Domain c.Image).1⟩
  | none =>
    rw [hi] at he
    cases hc : (qualifyContainerImages a.Domain pod.Spec.Containers).2.2 with
    | none =>
      rw [hc] at he
      cases he
    | some e =>
      obtain ⟨pre, c, post, hcs, hpre, hd, hp⟩ :=
        qualifyContainerImages_first_failure a.Domain pod.Spec.Containers (by simp [hc])
      have hq := qualifyContainerImages_at_first_failure a.Domain pre c post hpre hd hp
      rw [← hcs] at hq
      have hpe : (parsers.ParseImageName (a.Domain ++ "/" ++ c.Image)).2.2.2 = some e := by
        rw [hq] at hc
        exact hc
      rw [hc] at he
      simp only [Option.some.injEq] at he
      rw [hq] at he
      exact ⟨pre, c, post, e, Or.inr ⟨rfl, hcs⟩, hpre, hd, hpe, he.symm,
        (candidate_ne a.Domain c.Image).2, (candidate_ne a.Domain c.Image).1⟩

/-- Witness for C18: the container `Foo/bar` fails under the domain `test.io`;
the message names the candidate `test.io/Foo/bar` (here `%q` is rendered by
the identity) and carries the parse error. -/
theorem Admit_error_reports_candidate_witness :
    ((NewAlwaysQualifyImages "test.io").Admit (fun s => s)
        ⟨.Pod ⟨"123", "test", ⟨[], [⟨"ctrl1", "Foo/bar"⟩]⟩⟩,
          (api.Resource "pods").WithVersion "version", "", admission.Operation.Create⟩).2 =
      some ("invalid image name test.io/Foo/bar: couldn't parse image name: " ++
        "invalid reference format: repository name must be lowercase") ∧
    ∃ (pre : List Container) (c : Container) (post : List Container) (perr : Error),
      (([] : List Container) = pre ++ c :: post ∨
        ((qualifyContainerImages "test.io" []).2.2 = none ∧
          [(⟨"ctrl1", "Foo/bar"⟩ : Container)] = pre ++ c :: post)) ∧
      (∀ x ∈ pre, hasDomain x.Image = true ∨
        (parsers.ParseImageName ("test.io" ++ "/" ++ x.Image)).2.2.2 = none) ∧
      hasDomain c.Image = false ∧
      (parsers.ParseImageName ("test.io" ++ "/" ++ c.Image)).2.2.2 = some perr ∧
      ("invalid image name test.io/Foo/bar: couldn't parse image name: " ++
          "invalid reference format: repository name must be lowercase") =
        apierrors.NewBadRequest
          ("invalid image name " ++ (fun s => s) ("test.io" ++ "/" ++ c.Image) ++ ": " ++ perr) ∧
      "test.io" ++ "/" ++ c.Image ≠ c.Image ∧ "test.io" ++ "/" ++ c.Image ≠ "" :=
  ⟨by decide,
   Admit_error_reports_candidate (fun s => s) (NewAlwaysQualifyImages "test.io")
    ⟨.Pod ⟨"123", "test", ⟨[], [⟨"ctrl1", "Foo/bar"⟩]⟩⟩,
      (api.Resource "pods").WithVersion "version", "", admission.Operation.Create⟩
    ⟨"123", "test", ⟨[], [⟨"ctrl1", "Foo/bar"⟩]⟩⟩
    ("invalid image name test.io/Foo/bar: couldn't parse image name: " ++
      "invalid reference format: repository name must be lowercase")
    rfl (by decide)⟩

/-- C20, as the code behaves: the handler created by `NewAlwaysQualifyImages`
is bound to the given Domain and handles the create operation only; on an
update request `Admit` returns success and leaves the object, with every
image of the pod, as submitted. -/
theorem NewAlwaysQualifyImages_handles_create_only (D : Domain) (quote : String → String)
    (attributes : admission.Attributes) :
    (NewAlwaysQualifyImages D).Domain = D ∧
    (∀ op, (NewAlwaysQualifyImages D).Handler.Handles op = true ↔
      op = admission.Operation.Create) ∧
    (attributes.GetOperation = admission.Operation.Update →
      (NewAlwaysQualifyImages D).Admit quote attributes = (attributes.GetObject, none)) := by
  refine ⟨rfl, ?_, ?_⟩
  · intro op
    cases op <;>
      simp [NewAlwaysQualifyImages, admission.NewHandler, admission.Handler.Handles]
  · intro h
    apply Admit_ignored
    apply shouldIgnore_of_not_applicable
    right
    right
    rw [h]
    decide

/-- Witness for C20 as amended: an update request for the pods resource with
the unqualified image `busybox` is left as submitted. -/
theorem NewAlwaysQualifyImages_handles_create_only_witness :
    (NewAlwaysQualifyImages "test.io").Admit (fun s => s)
        ⟨.Pod ⟨"123", "test", ⟨[], [⟨"ctrl1", "busybox"⟩]⟩⟩,
          (api.Resource "pods").WithVersion "version", "", admission.Operation.Update⟩ =
      (.Pod ⟨"123", "test", ⟨[], [⟨"ctrl1", "busybox"⟩]⟩⟩, none) :=
  (NewAlwaysQualifyImages_handles_create_only "test.io" (fun s => s)
    ⟨.Pod ⟨"123", "test", ⟨[], [⟨"ctrl1", "busybox"⟩]⟩⟩,
      (api.Resource "pods").WithVersion "version", "", admission.Operation.Update⟩).2.2 rfl

/-- C20 refuted as stated: the handler for `test.io` does not handle the
update operation, and on an update request for the pods resource with no
subresource the unqualified image `busybox` is not qualified, while on the
same request as a create it becomes `test.io/busybox`. -/
theorem update_request_is_not_qualified :
    (NewAlwaysQualifyImages "test.io").Handler.Handles admission.Operation.Update = false ∧
    ((NewAlwaysQualifyImages "test.io").Admit (fun s => s)
        ⟨.Pod ⟨"123", "test", ⟨[], [⟨"ctrl1", "busybox"⟩]⟩⟩,
          (api.Resource "pods").WithVersion "version", "", admission.Operation.Update⟩).1 =
      .Pod ⟨"123", "test", ⟨[], [⟨"ctrl1", "busybox"⟩]⟩⟩ ∧
    ((NewAlwaysQualifyImages "test.io").Admit (fun s => s)
        ⟨.Pod ⟨"123", "test", ⟨[], [⟨"ctrl1", "busybox"⟩]⟩⟩,
          (api.Resource "pods").WithVersion "version", "", admission.Operation.Create⟩).1 =
      .Pod ⟨"123", "test", ⟨[], [⟨"ctrl1", "test.io/busybox"⟩]⟩⟩ := by
  decide

/-! ## The reference grammar under a prefix `domain/` -/

namespace strings

theorem indexOf_append_of_not_mem (r : Char) (p x : List Char) (h : r ∉ p) :
    indexOf r (p ++ x) = (indexOf r x).map (· + p.length) := by
  induction p with
  | nil => cases hx : indexOf r x <;> simp [hx]
  | cons c cs ih =>
    have hc : ¬ c = r := fun e => h (by simp [e])
    have hcs : r ∉ cs := fun e => h (by simp [e])
    have ih' := ih hcs
    have e : (c :: cs) ++ x = c :: (cs ++ x) := rfl
    rw [e]
    simp only [indexOf, hc, if_false, List.length_cons]
    rw [ih']
    cases hx : indexOf r x with
    | none => rfl
    | some i => simp [Nat.add_assoc]

theorem splitChars_append (sep : Char) (a b : List Char) (h : sep ∉ a) :
    splitChars sep (a ++ sep :: b) = a :: splitChars sep b := by
  induction a with
  | nil => simp [splitChars]
  | cons c cs ih =>
    have hc : ¬ c = sep := fun e => h (by simp [e])
    have hcs : sep ∉ cs := fun e => h (by simp [e])
    simp [splitChars, hc, ih hcs]

theorem splitChars_ne_nil (sep : Char) (s : List Char) : splitChars sep s ≠ [] := by
  cases s with
  | nil => simp [splitChars]
  | cons c cs =>
    simp only [splitChars]
    split
    · simp
    · split <;> simp

end strings

namespace dockerref

theorem lastIndexOf_lt (r : Char) (s : List Char) (j : Nat) (h : lastIndexOf r s = some j) :
    j < s.length ∧ s[j]? = some r := by
  induction s generalizing j with
  | nil => simp [lastIndexOf] at h
  | cons c cs ih =>
    simp only [lastIndexOf] at h
    cases hl : lastIndexOf r cs with
    | some k =>
      rw [hl] at h
      simp only [Option.some.injEq] at h
      subst h
      obtain ⟨h1, h2⟩ := ih k hl
      exact ⟨by simp; omega, by simpa using h2⟩
    | none =>
      rw [hl] at h
      by_cases hc : c = r
      · simp only [hc, if_true, Option.some.injEq] at h
        subst h
        simp [hc]
      · simp [hc] at h

theorem lastIndexOf_append (r : Char) (p y : List Char) :
    lastIndexOf r (p ++ y) =
      match lastIndexOf r y with
      | some j => some (p.length + j)
      | none => lastIndexOf r p := by
  induction p with
  | nil => cases hy : lastIndexOf r y <;> simp [hy, lastIndexOf]
  | cons c cs ih =>
    have e : (c :: cs) ++ y = c :: (cs ++ y) := rfl
    rw [e]
    simp only [lastIndexOf, List.length_cons]
    rw [ih]
    cases hy : lastIndexOf r y with
    | some j =>
      simp only [Option.some.injEq]
      omega
    | none => rfl

/-- Under a prefix that ends with `/` the name and tag captures are those of
the rest, the name with the prefix in front. -/
theorem splitNameTag_prefixed (q y : List Char) :
    splitNameTag (q ++ '/' :: y) =
      (q ++ '/' :: (splitNameTag y).1, (splitNameTag y).2) := by
  have hassoc : q ++ '/' :: y = (q ++ ['/']) ++ y := by simp
  unfold splitNameTag
  rw [hassoc, lastIndexOf_append]
  cases hy : lastIndexOf ':' y with
  | some j =>
    have hd : List.drop ((q ++ ['/']).length + j + 1) (q ++ ['/'] ++ y) = List.drop (j + 1) y := by
      rw [Nat.add_assoc, List.drop_append]
    have ht : List.take ((q ++ ['/']).length + j) (q ++ ['/'] ++ y) =
        q ++ ['/'] ++ List.take j y := by
      rw [List.take_append]
    simp only [hd, ht]
    split <;> simp
  | none =>
    simp only
    cases hq : lastIndexOf ':' (q ++ ['/']) with
    | none => simp
    | some k =>
      have hk := (lastIndexOf_lt ':' (q ++ ['/']) k hq)
      have hkq : k < q.length := by
        have h1 : k < q.length + 1 := by simpa using hk.1
        rcases Nat.lt_succ_iff_lt_or_eq.1 h1 with h | h
        · exact h
        · subst h
          have := hk.2
          simp at this
      have hmem : '/' ∈ List.drop (k + 1) (q ++ ['/'] ++ y) := by
        have : List.drop (k + 1) (q ++ ['/'] ++ y) = List.drop (k + 1) q ++ ['/'] ++ y := by
          rw [List.append_assoc, List.drop_append_of_le_length (by omega), List.append_assoc]
        rw [this]
        simp
      have hmem' : '/' ∈ List.drop (k + 1) (q ++ '/' :: y) := by
        rw [hassoc]
        exact hmem
      simp [hmem']

theorem nameTagPart_prefixed (p x : List Char) (h : '@' ∉ p) :
    nameTagPart (p ++ x) = p ++ nameTagPart x := by
  unfold nameTagPart
  rw [strings.indexOf_append_of_not_mem '@' p x h]
  cases strings.indexOf '@' x with
  | none => rfl
  | some i =>
    simp only [Option.map_some']
    rw [Nat.add_comm, List.take_append]

theorem digestPart_prefixed (p x : List Char) (h : '@' ∉ p) :
    digestPart (p ++ x) = digestPart x := by
  unfold digestPart
  rw [strings.indexOf_append_of_not_mem '@' p x h]
  cases strings.indexOf '@' x with
  | none => rfl
  | some i =>
    simp only [Option.map_some']
    have : i + p.length + 1 = p.length + (i + 1) := by omega
    rw [this, List.drop_append]

/-- `matchReference` in terms of the parts of the string. -/
theorem matchReference_eq (s : String) :
    matchReference s =
      if matchName (splitNameTag (nameTagPart s.data)).1 &&
          (match (splitNameTag (nameTagPart s.data)).2 with
           | none => true
           | some t => matchTag t) &&
          (match digestPart s.data with
           | none => true
           | some d => matchDigest d) then
        some (⟨(splitNameTag (nameTagPart s.data)).1⟩,
          ⟨((splitNameTag (nameTagPart s.data)).2).getD []⟩, ⟨(digestPart s.data).getD []⟩)
      else none := by
  unfold matchReference nameTagPart digestPart
  cases strings.indexOf '@' s.data <;> rfl

end dockerref

namespace dockerref

theorem mem_splitAlgorithm (c : Char) (l : List Char) (hc : c ∈ l)
    (hs : ¬ (c = '-' ∨ c = '_' ∨ c = '+' ∨ c = '.')) :
    ∃ seg ∈ splitAlgorithm l, c ∈ seg := by
  induction l with
  | nil => simp at hc
  | cons a as ih =>
    simp only [splitAlgorithm]
    by_cases ha : a = '-' ∨ a = '_' ∨ a = '+' ∨ a = '.'
    · rw [if_pos ha]
      rcases List.mem_cons.1 hc with rfl | hc'
      · exact absurd ha hs
      · obtain ⟨seg, hseg, hmem⟩ := ih hc'
        exact ⟨seg, List.mem_cons_of_mem _ hseg, hmem⟩
    · rw [if_neg ha]
      cases hsp : splitAlgorithm as with
      | nil =>
        rcases List.mem_cons.1 hc with rfl | hc'
        · exact ⟨[c], by simp, by simp⟩
        · obtain ⟨seg, hseg, _⟩ := ih hc'
          rw [hsp] at hseg
          simp at hseg
      | cons seg rest =>
        rcases List.mem_cons.1 hc with rfl | hc'
        · exact ⟨c :: seg, by simp, by simp⟩
        · obtain ⟨seg', hseg', hmem⟩ := ih hc'
          rw [hsp] at hseg'
          rcases List.mem_cons.1 hseg' with rfl | hr
          · exact ⟨a :: seg', by simp, List.mem_cons_of_mem _ hmem⟩
          · exact ⟨seg', by simp [hr], hmem⟩

theorem matchAlgorithmComponent_no_slash (seg : List Char)
    (h : matchAlgorithmComponent seg = true) : '/' ∉ seg := by
  cases seg with
  | nil => simp
  | cons c cs =>
    simp only [matchAlgorithmComponent, Bool.and_eq_true, List.all_eq_true] at h
    intro hm
    rcases List.mem_cons.1 hm with rfl | hm'
    · exact absurd h.1 (by decide)
    · exact absurd (h.2 _ hm') (by decide)

/-- A digest contains no `/`. -/
theorem matchDigest_no_slash (s : List Char) (h : matchDigest s = true) : '/' ∉ s := by
  unfold matchDigest at h
  cases hi : strings.indexOf ':' s with
  | none => simp [hi] at h
  | some i =>
    simp only [hi, Bool.and_eq_true, List.all_eq_true] at h
    obtain ⟨halg, hhex, _⟩ := h
    obtain ⟨hs, _, _⟩ := strings.indexOf_some ':' s i hi
    intro hm
    rw [hs] at hm
    rcases List.mem_append.1 hm with h1 | h1
    · obtain ⟨seg, hseg, hmem⟩ := mem_splitAlgorithm '/' _ h1 (by decide)
      exact matchAlgorithmComponent_no_slash seg (halg seg hseg) hmem
    · rcases List.mem_cons.1 h1 with h2 | h2
      · exact absurd h2 (by decide)
      · exact absurd (hhex _ h2) (by decide)

/-- `matchReference` on a string `q/x`, with no `@` in `q`, takes the tag and
the digest of `x`, and as name that of `x` with `q/` in front. -/
theorem matchReference_prefixed (q x : List Char) (hq : '@' ∉ q) :
    matchReference ⟨q ++ '/' :: x⟩ =
      if matchName (q ++ '/' :: (splitNameTag (nameTagPart x)).1) &&
          (match (splitNameTag (nameTagPart x)).2 with
           | none => true
           | some t => matchTag t) &&
          (match digestPart x with
           | none => true
           | some d => matchDigest d) then
        some (⟨q ++ '/' :: (splitNameTag (nameTagPart x)).1⟩,
          ⟨((splitNameTag (nameTagPart x)).2).getD []⟩, ⟨(digestPart x).getD []⟩)
      else none := by
  have hq' : '@' ∉ q ++ ['/'] := by
    intro h
    rcases List.mem_append.1 h with h | h
    · exact hq h
    · simp at h
  have hassoc : q ++ '/' :: x = (q ++ ['/']) ++ x := by simp
  have h1 : nameTagPart (q ++ '/' :: x) = q ++ '/' :: nameTagPart x := by
    rw [hassoc, nameTagPart_prefixed _ _ hq']
    simp
  have h2 : digestPart (q ++ '/' :: x) = digestPart x := by
    rw [hassoc, digestPart_prefixed _ _ hq']
  rw [matchReference_eq]
  simp only [h1, h2, splitNameTag_prefixed]

/-- When `q/x` matches the reference grammar, `q` contains no `@`. -/
theorem no_at_of_matchReference (q x : List Char)
    (h : (matchReference ⟨q ++ '/' :: x⟩).isSome = true) : '@' ∉ q := by
  intro hq
  obtain ⟨i, hi⟩ : ∃ i, strings.indexOf '@' q = some i := by
    cases hi : strings.indexOf '@' q with
    | none => exact absurd hq ((strings.indexOf_eq_none_iff '@' q).1 hi)
    | some i => exact ⟨i, rfl⟩
  obtain ⟨hs, hnot, hlt⟩ := strings.indexOf_some '@' q i hi
  have hidx : strings.indexOf '@' (q ++ '/' :: x) = some i := by
    conv_lhs => rw [hs]
    have : List.take i q ++ '@' :: List.drop (i + 1) q ++ '/' :: x =
        List.take i q ++ '@' :: (List.drop (i + 1) q ++ '/' :: x) := by simp
    rw [this, strings.indexOf_append '@' _ _ hnot]
    simp
    omega
  have hdp : digestPart (q ++ '/' :: x) = some (List.drop (i + 1) (q ++ '/' :: x)) := by
    simp [digestPart, hidx]
  have hslash : '/' ∈ List.drop (i + 1) (q ++ '/' :: x) := by
    rw [List.drop_append_of_le_length (by omega)]
    simp
  rw [matchReference_eq] at h
  simp only [hdp] at h
  have hd : matchDigest (List.drop (i + 1) (q ++ '/' :: x)) = false := by
    cases hm : matchDigest (List.drop (i + 1) (q ++ '/' :: x)) with
    | false => rfl
    | true => exact absurd hslash (matchDigest_no_slash _ hm)
  simp [hd] at h

end dockerref

namespace dockerref

/-- What a successful `Parse` says about the match. -/
theorem Parse_ok (s : String) (v : Named) (h : Parse s = .ok v) :
    matchReference s = some (v.name, v.tag, v.digest) ∧
    v.name.data.length ≤ NameTotalLengthMax ∧
    (if v.digest ≠ "" then digest.Parse v.digest else none) = none := by
  unfold Parse at h
  cases hm : matchReference s with
  | none =>
    rw [hm] at h
    simp only at h
    split at h
    · cases h
    · split at h <;> cases h
  | some t =>
    obtain ⟨name, tag, dgst⟩ := t
    rw [hm] at h
    simp only at h
    split at h
    · cases h
    · rename_i hlen
      cases hd : (if dgst ≠ "" then digest.Parse dgst else none) with
      | some e =>
        rw [hd] at h
        cases h
      | none =>
        rw [hd] at h
        simp only [Except.ok.injEq] at h
        subst h
        exact ⟨rfl, Nat.le_of_not_lt hlen, hd⟩

/-- A match with a name within the length limit and a valid digest parses. -/
theorem Parse_of_match (s name tag dgst : String)
    (hm : matchReference s = some (name, tag, dgst))
    (hlen : name.data.length ≤ NameTotalLengthMax)
    (hd : (if dgst ≠ "" then digest.Parse dgst else none) = none) :
    Parse s = .ok ⟨name, tag, dgst⟩ := by
  unfold Parse
  rw [hm]
  simp only
  rw [if_neg (Nat.not_lt.2 hlen), hd]

/-- The reference `D/R` parses to the name of `R` with `D/` in front, and to
the tag and digest of `R`. -/
theorem Parse_prefixed (D R : String) (n r : Named)
    (hn : Parse (D ++ "/" ++ R) = .ok n) (hr : Parse R = .ok r) :
    n.name = D ++ "/" ++ r.name ∧ n.tag = r.tag ∧ n.digest = r.digest := by
  have hs : D ++ "/" ++ R = ⟨D.data ++ '/' :: R.data⟩ := String.ext (data_slash_append D R)
  have hmn := (Parse_ok _ n hn).1
  have hmr := (Parse_ok _ r hr).1
  rw [hs] at hmn
  have hq : '@' ∉ D.data := no_at_of_matchReference D.data R.data (by rw [hmn]; rfl)
  rw [matchReference_prefixed D.data R.data hq] at hmn
  rw [matchReference_eq] at hmr
  split at hmn
  · split at hmr
    · simp only [Option.some.injEq, Prod.mk.injEq] at hmn hmr
      obtain ⟨h1, h2, h3⟩ := hmn
      obtain ⟨g1, g2, g3⟩ := hmr
      refine ⟨?_, ?_, ?_⟩
      · rw [← h1, ← g1]
        apply String.ext
        simp [String.data_append]
      · rw [← h2, ← g2]
      · rw [← h3, ← g3]
    · cases hmr
  · cases hmn

/-- Dropping the official repository prefix `library/` after `docker.io/`
keeps a reference legal. -/
theorem Parse_without_library (X : String) (n : Named)
    (hn : Parse ("docker.io" ++ "/" ++ ("library" ++ "/" ++ X)) = .ok n) :
    ∃ n', Parse ("docker.io" ++ "/" ++ X) = .ok n' := by
  have hs1 : "docker.io" ++ "/" ++ ("library" ++ "/" ++ X) =
      ⟨"docker.io/library".data ++ '/' :: X.data⟩ := by
    apply String.ext
    simp [String.data_append]
  have hs2 : "docker.io" ++ "/" ++ X = ⟨"docker.io".data ++ '/' :: X.data⟩ :=
    String.ext (data_slash_append _ X)
  obtain ⟨hm, hlen, hd⟩ := Parse_ok _ n hn
  rw [hs1, matchReference_prefixed _ _ (by decide)] at hm
  split at hm
  · rename_i hcond
    simp only [Option.some.injEq, Prod.mk.injEq] at hm
    obtain ⟨h1, h2, h3⟩ := hm
    simp only [Bool.and_eq_true] at hcond
    obtain ⟨⟨hname, htag⟩, hdig⟩ := hcond
    have hsegs : (strings.splitChars '/' (splitNameTag (nameTagPart X.data)).1).all
        matchNameComponent = true := by
      have e : "docker.io/library".data ++ '/' :: (splitNameTag (nameTagPart X.data)).1 =
          "docker.io".data ++ '/' ::
            ("library".data ++ '/' :: (splitNameTag (nameTagPart X.data)).1) := by
        simp
      unfold matchName at hname
      rw [e, strings.splitChars_append '/' _ _ (by decide),
        strings.splitChars_append '/' _ _ (by decide)] at hname
      simp only [List.all_cons, Bool.or_eq_true, Bool.and_eq_true] at hname
      rcases hname with h | h
      · exact h.2.2
      · exact h.2.2
    have hname2 : matchName ("docker.io".data ++ '/' :: (splitNameTag (nameTagPart X.data)).1)
        = true := by
      unfold matchName
      rw [strings.splitChars_append '/' _ _ (by decide)]
      simp only [List.all_cons, Bool.or_eq_true, Bool.and_eq_true]
      left
      exact ⟨by decide, hsegs⟩
    have hm2 := matchReference_prefixed "docker.io".data X.data (by decide)
    rw [if_pos (by simp only [Bool.and_eq_true]; exact ⟨⟨hname2, htag⟩, hdig⟩)] at hm2
    refine ⟨_, Parse_of_match _ _ _ _ (hs2 ▸ hm2) ?_ ?_⟩
    · have hl : n.name.data.length ≤ NameTotalLengthMax := hlen
      rw [← h1] at hl
      simp only [List.length_append, List.length_cons] at hl ⊢
      have : "docker.io".data.length ≤ "docker.io/library".data.length := by decide
      omega
    · rw [h3]
      exact hd
  · cases hm

end dockerref

/-! ## Qualified candidates and the detector -/

/-- `splitDockerDomain` on `D/image` when `D` has no `/` and contains `.` or
`:` or is `localhost`: the domain is `D`, the legacy default domain replaced
by the default one, and `library/` is put in front of an image without `/`
under the default domain. -/
theorem splitDockerDomain_candidate (D image : String) (hs : '/' ∉ D.data)
    (hd : '.' ∈ D.data ∨ ':' ∈ D.data ∨ D = "localhost") :
    dockerref.splitDockerDomain (D ++ "/" ++ image) =
      (if D = dockerref.legacyDefaultDomain then dockerref.defaultDomain else D,
       if (if D = dockerref.legacyDefaultDomain then dockerref.defaultDomain else D) =
            dockerref.defaultDomain && !strings.ContainsChar image '/' then
          dockerref.officialRepoName ++ "/" ++ image
        else image) := by
  have hi : strings.IndexRune (D ++ "/" ++ image) '/' = some D.data.length := by
    unfold strings.IndexRune
    rw [data_slash_append]
    exact strings.indexOf_append '/' D.data image.data hs
  have h1 : sliceTo (D ++ "/" ++ image) D.data.length = D := by
    simp [sliceTo, data_slash_append]
  have h2 : sliceFrom (D ++ "/" ++ image) (D.data.length + 1) = image := by
    simp only [sliceFrom, data_slash_append]
    exact congrArg String.mk (drop_length_succ_append D.data image.data '/')
  have h3 : (!strings.ContainsAny D ".:" && decide (D ≠ "localhost")) = false := by
    rcases hd with h | h | h
    · have := (strings.containsAny_dot_colon D).2 (Or.inl h)
      simp [this]
    · have := (strings.containsAny_dot_colon D).2 (Or.inr h)
      simp [this]
    · simp [h]
  simp only [dockerref.splitDockerDomain, hi, h1, h2, h3]
  rfl

/-- A successful `ParseImageName` comes from a successful normalised parse,
whose name it returns. -/
theorem ParseImageName_success (image : String)
    (h : (parsers.ParseImageName image).2.2.2 = none) :
    ∃ n, dockerref.ParseNormalizedNamed image = .ok n ∧ (parsers.ParseImageName image).1 = n.name := by
  cases hp : dockerref.ParseNormalizedNamed image with
  | error err =>
    rw [parsers.ParseImageName_error image err hp] at h
    cases h
  | ok n =>
    refine ⟨n, rfl, ?_⟩
    rw [parsers.ParseImageName_ok image n hp]

/-- A successful normalised parse is a successful parse of the normalised
string. -/
theorem ParseNormalizedNamed_ok (s : String) (n : dockerref.Named)
    (h : dockerref.ParseNormalizedNamed s = .ok n) :
    dockerref.Parse ((dockerref.splitDockerDomain s).1 ++ "/" ++ (dockerref.splitDockerDomain s).2)
      = .ok n := by
  unfold dockerref.ParseNormalizedNamed at h
  split at h
  · cases h
  · simp only at h
    split at h
    · cases h
    · exact h

/-- A candidate `D/image` that `ParseImageName` accepts is a legal reference
as written, unless `D` is the legacy default domain. -/
theorem Parse_candidate (D image : String) (hs : '/' ∉ D.data)
    (hd : '.' ∈ D.data ∨ ':' ∈ D.data ∨ D = "localhost")
    (hleg : D ≠ "index.docker.io")
    (h : (parsers.ParseImageName (D ++ "/" ++ image)).2.2.2 = none) :
    ∃ r, dockerref.Parse (D ++ "/" ++ image) = .ok r := by
  obtain ⟨n, hn, _⟩ := ParseImageName_success _ h
  have hp := ParseNormalizedNamed_ok _ n hn
  rw [splitDockerDomain_candidate D image hs hd] at hp
  have hl : ¬ D = dockerref.legacyDefaultDomain := hleg
  simp only [if_neg hl] at hp
  by_cases hc : (D = dockerref.defaultDomain && !strings.ContainsChar image '/') = true
  · rw [if_pos hc] at hp
    have hD : D = "docker.io" := by
      simp only [Bool.and_eq_true, decide_eq_true_eq] at hc
      exact hc.1
    subst hD
    exact dockerref.Parse_without_library image n hp
  · rw [if_neg hc] at hp
    exact ⟨n, hp⟩

/-- The detector finds the domain of a candidate `D/image` that
`ParseImageName` accepts, unless `D` is the legacy default domain. -/
theorem hasDomain_candidate (D image : String) (hs : '/' ∉ D.data)
    (hd : '.' ∈ D.data ∨ ':' ∈ D.data ∨ D = "localhost")
    (hleg : D ≠ "index.docker.io")
    (h : (parsers.ParseImageName (D ++ "/" ++ image)).2.2.2 = none) :
    hasDomain (D ++ "/" ++ image) = true := by
  obtain ⟨r, hr⟩ := Parse_candidate D image hs hd hleg h
  have hsplit := parsers.SplitImageName_slash D image r hr hs
  rw [if_pos hd] at hsplit
  have hne := ne_empty_of_domain_test D hd
  simp [hasDomain, hsplit, hne]

/-- After a successful `qualifyContainerImages` every image carries a domain
the detector finds, unless the Domain is the legacy default domain. -/
theorem qualifyContainerImages_all_have_domain (D : Domain) (cs : List Container)
    (hs : '/' ∉ D.data) (hd : '.' ∈ D.data ∨ ':' ∈ D.data ∨ D = "localhost")
    (hleg : D ≠ "index.docker.io") (h : (qualifyContainerImages D cs).2.2 = none) :
    ∀ c ∈ (qualifyContainerImages D cs).1, hasDomain c.Image = true := by
  have hpass := qualifyContainerImages_no_failure D cs h
  rw [qualifyContainerImages_of_no_error D cs h]
  intro c hc
  simp only [List.mem_map] at hc
  obtain ⟨x, hx, hxc⟩ := hc
  by_cases hx' : hasDomain x.Image = true
  · rw [if_pos hx'] at hxc
    rw [← hxc]
    exact hx'
  · rw [if_neg hx'] at hxc
    rw [← hxc]
    rcases hpass x hx with hp | hp
    · exact absurd hp hx'
    · exact hasDomain_candidate D x.Image hs hd hleg hp

/-- C19, as the code behaves: for every Domain `D` produced by `NewDomain`
other than the legacy default domain `index.docker.io`, and every applicable
request (create, pods, no subresource, pod object) on which `Admit` returns
success, every init-container image and every container image of the pod
afterwards carries an explicit registry domain: `hasDomain` holds of it. -/
theorem Admit_success_all_have_domain (input : String) (D : Domain) (quote : String → String)
    (attributes : admission.Attributes) (pod : Pod)
    (hD : NewDomain input = (D, none)) (hleg : D ≠ "index.docker.io")
    (h1 : attributes.GetSubresource = "")
    (h2 : attributes.GetResource.GroupResource = api.Resource "pods")
    (h3 : attributes.GetOperation = admission.Operation.Create)
    (ho : attributes.GetObject = .Pod pod)
    (hok : ((NewAlwaysQualifyImages D).Admit quote attributes).2 = none) :
    ∃ pod', ((NewAlwaysQualifyImages D).Admit quote attributes).1 = .Pod pod' ∧
      (∀ c ∈ pod'.Spec.InitContainers, hasDomain c.Image = true) ∧
      (∀ c ∈ pod'.Spec.Containers, hasDomain c.Image = true) := by
  obtain ⟨hDi, hs, hd, _⟩ := NewDomain_ok input D hD
  subst hDi
  have hg := (shouldIgnore_eq_false_iff attributes).2 ⟨h1, h2, h3⟩
  have hA := Admit_pod quote (NewAlwaysQualifyImages D) attributes pod hg ho
  have hdom : (NewAlwaysQualifyImages D).Domain = D := rfl
  rw [hdom] at hA
  rw [hA] at hok ⊢
  cases hi : (qualifyContainerImages D pod.Spec.InitContainers).2.2 with
  | some e =>
    rw [hi] at hok
    cases hok
  | none =>
    rw [hi] at hok
    cases hc : (qualifyContainerImages D pod.Spec.Containers).2.2 with
    | some e =>
      rw [hc] at hok
      cases hok
    | none =>
      exact ⟨_, rfl, qualifyContainerImages_all_have_domain D _ hs hd hleg hi,
        qualifyContainerImages_all_have_domain D _ hs hd hleg hc⟩

/-- Witness for C19 as amended, at the default domain `localhost:5000`:
the images `busybox` and `gcr.io/busybox` end as `localhost:5000/busybox` and
`gcr.io/busybox`, both with a domain. -/
theorem Admit_success_all_have_domain_witness :
    NewDomain "localhost:5000" = ("localhost:5000", none) ∧
    ((NewAlwaysQualifyImages "localhost:5000").Admit (fun s => s)
        ⟨.Pod ⟨"123", "test", ⟨[⟨"init1", "busybox"⟩], [⟨"ctrl1", "gcr.io/busybox"⟩]⟩⟩,
          (api.Resource "pods").WithVersion "version", "", admission.Operation.Create⟩).2 = none ∧
    ∃ pod', ((NewAlwaysQualifyImages "localhost:5000").Admit (fun s => s)
        ⟨.Pod ⟨"123", "test", ⟨[⟨"init1", "busybox"⟩], [⟨"ctrl1", "gcr.io/busybox"⟩]⟩⟩,
          (api.Resource "pods").WithVersion "version", "", admission.Operation.Create⟩).1 =
        .Pod pod' ∧
      (∀ c ∈ pod'.Spec.InitContainers, hasDomain c.Image = true) ∧
      (∀ c ∈ pod'.Spec.Containers, hasDomain c.Image = true) :=
  ⟨by decide, by decide,
   Admit_success_all_have_domain "localhost:5000" "localhost:5000" (fun s => s)
    ⟨.Pod ⟨"123", "test", ⟨[⟨"init1", "busybox"⟩], [⟨"ctrl1", "gcr.io/busybox"⟩]⟩⟩,
      (api.Resource "pods").WithVersion "version", "", admission.Operation.Create⟩
    ⟨"123", "test", ⟨[⟨"init1", "busybox"⟩], [⟨"ctrl1", "gcr.io/busybox"⟩]⟩⟩
    (by decide) (by decide) rfl rfl rfl rfl (by decide)⟩

set_option maxRecDepth 100000 in
/-- C19 refuted as stated: `NewDomain` accepts the legacy default domain
`index.docker.io`; for the unqualified image `a/aaa...a` of 240 characters
`Admit` on an applicable request succeeds and rewrites the image to
`index.docker.io/a/aaa...a`, which `ParseImageName` accepts in its normalised
form `docker.io/a/aaa...a` (250 characters) while, as written, its name has
256 characters, over the limit of 255: `SplitImageName` rejects it and
`hasDomain` is false of it. -/
theorem legacy_domain_long_name_has_no_domain :
    NewDomain "index.docker.io" = ("index.docker.io", none) ∧
    (NewAlwaysQualifyImages "index.docker.io").Admit (fun s => s)
        ⟨.Pod ⟨"123", "test", ⟨[], [⟨"ctrl1", "a/" ++ String.mk (List.replicate 238 'a')⟩]⟩⟩,
          (api.Resource "pods").WithVersion "version", "", admission.Operation.Create⟩ =
      (.Pod ⟨"123", "test",
        ⟨[], [⟨"ctrl1", "index.docker.io/a/" ++ String.mk (List.replicate 238 'a')⟩]⟩⟩, none) ∧
    hasDomain ("index.docker.io/a/" ++ String.mk (List.replicate 238 'a')) = false ∧
    (parsers.SplitImageName ("index.docker.io/a/" ++ String.mk (List.replicate 238 'a'))).2.2 =
      some "repository name must not be more than 255 characters" := by
  decide

set_option maxRecDepth 100000 in
/-- C12 refuted as stated.  Under the Domain `localhost:5000` the valid
unqualified reference `busybox` is rewritten to `localhost:5000/busybox`,
whose repository is `localhost:5000/busybox` and not `localhost:5000/`
followed by the repository `docker.io/library/busybox` that `ParseImageName`
returns for `busybox`; the valid unqualified reference `Foo/bar` is not
qualified at all, the candidate `localhost:5000/Foo/bar` being rejected for
its upper-case letter, and neither is the valid unqualified reference `a/`
followed by 250 times `a`, whose candidate name has 267 characters; and
under the Domains `docker.io` and `index.docker.io` the repository of the
rewritten image is the normalised one. -/
theorem round_trip_repository_is_not_normalised :
    NewDomain "localhost:5000" = ("localhost:5000", none) ∧
    parsers.SplitImageName "busybox" = ("", "busybox", none) ∧
    qualifyContainerImages "localhost:5000" [⟨"ctrl1", "busybox"⟩] =
      ([⟨"ctrl1", "localhost:5000/busybox"⟩], "", none) ∧
    (parsers.ParseImageName "localhost:5000/busybox").1 = "localhost:5000/busybox" ∧
    (parsers.ParseImageName "busybox").1 = "docker.io/library/busybox" ∧
    (parsers.ParseImageName "localhost:5000/busybox").1 ≠
      "localhost:5000" ++ "/" ++ (parsers.ParseImageName "busybox").1 ∧
    parsers.SplitImageName "Foo/bar" = ("", "Foo/bar", none) ∧
    (qualifyContainerImages "localhost:5000" [⟨"ctrl1", "Foo/bar"⟩]).2.2 ≠ none ∧
    parsers.SplitImageName ("a/" ++ String.mk (List.replicate 250 'a')) =
      ("", "a/" ++ String.mk (List.replicate 250 'a'), none) ∧
    (qualifyContainerImages "localhost:5000"
      [⟨"ctrl1", "a/" ++ String.mk (List.replicate 250 'a')⟩]).2.2 ≠ none ∧
    NewDomain "docker.io" = ("docker.io", none) ∧
    (parsers.ParseImageName "docker.io/busybox").1 = "docker.io/library/busybox" ∧
    NewDomain "index.docker.io" = ("index.docker.io", none) ∧
    (parsers.ParseImageName "index.docker.io/foo/busybox").1 = "docker.io/foo/busybox" := by
  decide

/-! ## Frame -/

/-- The loop keeps every container in its place and writes at most its
image, which becomes `D/image`. -/
theorem qualifyContainerImages_frame (D : Domain) (cs : List Container) :
    List.Forall₂ (fun c c' => c'.Name = c.Name ∧
        (c'.Image = c.Image ∨ c'.Image = D ++ "/" ++ c.Image))
      cs (qualifyContainerImages D cs).1 := by
  have hrefl : ∀ l : List Container, List.Forall₂ (fun c c' => c'.Name = c.Name ∧
      (c'.Image = c.Image ∨ c'.Image = D ++ "/" ++ c.Image)) l l := by
    intro l
    induction l with
    | nil => exact List.Forall₂.nil
    | cons x xs ih => exact List.Forall₂.cons ⟨rfl, Or.inl rfl⟩ ih
  induction cs with
  | nil => exact List.Forall₂.nil
  | cons c rest ih =>
    by_cases hc : hasDomain c.Image = true ∨
        (parsers.ParseImageName (D ++ "/" ++ c.Image)).2.2.2 = none
    · rw [qualifyContainerImages_cons_pass D c rest hc]
      refine List.Forall₂.cons ?_ ih
      by_cases hd : hasDomain c.Image = true
      · rw [if_pos hd]
        exact ⟨rfl, Or.inl rfl⟩
      · rw [if_neg hd]
        exact ⟨rfl, Or.inr rfl⟩
    · have hd : hasDomain c.Image = false := by
        cases hd : hasDomain c.Image with
        | false => rfl
        | true => exact absurd (Or.inl hd) hc
      have hp : (parsers.ParseImageName (D ++ "/" ++ c.Image)).2.2.2 ≠ none :=
        fun e => hc (Or.inr e)
      rw [qualifyContainerImages_cons_fail D c rest hd hp]
      exact hrefl (c :: rest)

/-- Two lists related position by position with equal names have the same
length and the same names in the same order. -/
theorem names_of_frame (D : Domain) (cs cs' : List Container)
    (h : List.Forall₂ (fun c c' => c'.Name = c.Name ∧
        (c'.Image = c.Image ∨ c'.Image = D ++ "/" ++ c.Image)) cs cs') :
    cs'.length = cs.length ∧ cs'.map Container.Name = cs.map Container.Name := by
  induction h with
  | nil => exact ⟨rfl, rfl⟩
  | cons hx _ ih =>
    refine ⟨by simp [ih.1], ?_⟩
    simp [hx.1, ih.2]

/-- C21: frame.  `qualifyContainerImages` and `Admit` change only image
fields, whether they succeed or fail.  The container list returned by
`qualifyContainerImages` has the length of the submitted one and, position by
position, the same `Name`, and an image that is the submitted one or `D/`
followed by it.  `Admit` returns an object that is not a pod as it is; a pod
keeps its `Name` and `Namespace`, and its init-container and container lists
are related to the submitted ones in the same way.  (The handler is read
only: its Domain is an argument that `Admit` never returns changed.) -/
theorem qualify_and_Admit_frame (D : Domain) (cs : List Container) (quote : String → String)
    (a : AlwaysQualifyImages) (attributes : admission.Attributes) :
    ((qualifyContainerImages D cs).1.length = cs.length ∧
      (qualifyContainerImages D cs).1.map Container.Name = cs.map Container.Name ∧
      List.Forall₂ (fun c c' => c'.Name = c.Name ∧
          (c'.Image = c.Image ∨ c'.Image = D ++ "/" ++ c.Image))
        cs (qualifyContainerImages D cs).1) ∧
    (attributes.GetObject = .Other → (a.Admit quote attributes).1 = .Other) ∧
    (∀ pod, attributes.GetObject = .Pod pod →
      ∃ pod', (a.Admit quote attributes).1 = .Pod pod' ∧
        pod'.Name = pod.Name ∧ pod'.Namespace = pod.Namespace ∧
        pod'.Spec.InitContainers.length = pod.Spec.InitContainers.length ∧
        pod'.Spec.Containers.length = pod.Spec.Containers.length ∧
        pod'.Spec.InitContainers.map Container.Name =
          pod.Spec.InitContainers.map Container.Name ∧
        pod'.Spec.Containers.map Container.Name = pod.Spec.Containers.map Container.Name ∧
        List.Forall₂ (fun c c' => c'.Name = c.Name ∧
            (c'.Image = c.Image ∨ c'.Image = a.Domain ++ "/" ++ c.Image))
          pod.Spec.InitContainers pod'.Spec.InitContainers ∧
        List.Forall₂ (fun c c' => c'.Name = c.Name ∧
            (c'.Image = c.Image ∨ c'.Image = a.Domain ++ "/" ++ c.Image))
          pod.Spec.Containers pod'.Spec.Containers) := by
  have hrefl : ∀ l : List Container, List.Forall₂ (fun c c' => c'.Name = c.Name ∧
      (c'.Image = c.Image ∨ c'.Image = a.Domain ++ "/" ++ c.Image)) l l := by
    intro l
    induction l with
    | nil => exact List.Forall₂.nil
    | cons x xs ih => exact List.Forall₂.cons ⟨rfl, Or.inl rfl⟩ ih
  have hq := qualifyContainerImages_frame D cs
  refine ⟨⟨(names_of_frame D _ _ hq).1, (names_of_frame D _ _ hq).2, hq⟩, ?_, ?_⟩
  · intro ho
    cases hg : shouldIgnore attributes with
    | true => rw [Admit_ignored quote a attributes hg, ho]
    | false => simp [AlwaysQualifyImages.Admit, hg, ho]
  · intro pod ho
    cases hg : shouldIgnore attributes with
    | true =>
      rw [Admit_ignored quote a attributes hg, ho]
      exact ⟨pod, rfl, rfl, rfl, rfl, rfl, rfl, rfl, hrefl _, hrefl _⟩
    | false =>
      have hi := qualifyContainerImages_frame a.Domain pod.Spec.InitContainers
      have hc := qualifyContainerImages_frame a.Domain pod.Spec.Containers
      have hin := names_of_frame a.Domain _ _ hi
      have hcn := names_of_frame a.Domain _ _ hc
      rw [Admit_pod quote a attributes pod hg ho]
      cases hie : (qualifyContainerImages a.Domain pod.Spec.InitContainers).2.2 with
      | some e =>
        exact ⟨_, rfl, rfl, rfl, hin.1, rfl, hin.2, rfl, hi, hrefl _⟩
      | none =>
        cases hce : (qualifyContainerImages a.Domain pod.Spec.Containers).2.2 with
        | some e => exact ⟨_, rfl, rfl, rfl, hin.1, hcn.1, hin.2, hcn.2, hi, hc⟩
        | none => exact ⟨_, rfl, rfl, rfl, hin.1, hcn.1, hin.2, hcn.2, hi, hc⟩

/-- Witness for C21: a failing call for the pod `123` keeps names, lengths
and order; only the image of `init1` is written. -/
theorem qualify_and_Admit_frame_witness :
    (NewAlwaysQualifyImages "test.io").Admit (fun s => s)
        ⟨.Pod ⟨"123", "test",
            ⟨[⟨"init1", "busybox"⟩, ⟨"init2", "Foo/bar"⟩], [⟨"ctrl1", "busybox"⟩]⟩⟩,
          (api.Resource "pods").WithVersion "version", "", admission.Operation.Create⟩ =
      (.Pod ⟨"123", "test",
          ⟨[⟨"init1", "test.io/busybox"⟩, ⟨"init2", "Foo/bar"⟩], [⟨"ctrl1", "busybox"⟩]⟩⟩,
        some ("invalid image name test.io/Foo/bar: couldn't parse image name: " ++
          "invalid reference format: repository name must be lowercase")) ∧
    ∃ pod', ((NewAlwaysQualifyImages "test.io").Admit (fun s => s)
        ⟨.Pod ⟨"123", "test",
            ⟨[⟨"init1", "busybox"⟩, ⟨"init2", "Foo/bar"⟩], [⟨"ctrl1", "busybox"⟩]⟩⟩,
          (api.Resource "pods").WithVersion "version", "", admission.Operation.Create⟩).1 =
        .Pod pod' ∧ pod'.Name = "123" ∧ pod'.Namespace = "test" ∧
      pod'.Spec.InitContainers.map Container.Name = ["init1", "init2"] ∧
      pod'.Spec.Containers.map Container.Name = ["ctrl1"] :=
  ⟨by decide,
   (fun h => h.imp (fun _ hp => ⟨hp.1, hp.2.1, hp.2.2.1, hp.2.2.2.2.2.1, hp.2.2.2.2.2.2.1⟩))
    ((qualify_and_Admit_frame "test.io" [] (fun s => s) (NewAlwaysQualifyImages "test.io")
      ⟨.Pod ⟨"123", "test",
          ⟨[⟨"init1", "busybox"⟩, ⟨"init2", "Foo/bar"⟩], [⟨"ctrl1", "busybox"⟩]⟩⟩,
        (api.Resource "pods").WithVersion "version", "", admission.Operation.Create⟩).2.2
      ⟨"123", "test", ⟨[⟨"init1", "busybox"⟩, ⟨"init2", "Foo/bar"⟩], [⟨"ctrl1", "busybox"⟩]⟩⟩
      rfl)⟩

/-! ## What `SplitImageName` and `NewDomain` return -/

/-- C22: `SplitImageName` loses nothing.  When it succeeds with a non-empty
domain, `domain/remainder` is the input image and the domain contains no
`/`; when it succeeds with the empty domain, the remainder is the input
image verbatim. -/
theorem SplitImageName_lossless (image : String)
    (h : (parsers.SplitImageName image).2.2 = none) :
    ((parsers.SplitImageName image).1 ≠ "" →
      (parsers.SplitImageName image).1 ++ "/" ++ (parsers.SplitImageName image).2.1 = image ∧
      '/' ∉ (parsers.SplitImageName image).1.data) ∧
    ((parsers.SplitImageName image).1 = "" → (parsers.SplitImageName image).2.1 = image) := by
  cases hp : dockerref.Parse image with
  | error err =>
    rw [parsers.SplitImageName_error image err hp] at h
    cases h
  | ok r =>
    cases hi : strings.IndexRune image '/' with
    | none =>
      have hs : parsers.SplitImageName image = ("", image, none) := by
        simp [parsers.SplitImageName, hp, hi]
      rw [hs]
      simp
    | some i =>
      obtain ⟨h1, h2, _⟩ := strings.indexOf_some '/' image.data i hi
      by_cases hc : (!strings.ContainsAny (sliceTo image i) ".:" &&
          decide (sliceTo image i ≠ "localhost")) = true
      · have hs : parsers.SplitImageName image = ("", image, none) := by
          simp only [parsers.SplitImageName, hp, hi]
          rw [if_pos hc]
        rw [hs]
        simp
      · have hs : parsers.SplitImageName image =
            (sliceTo image i, sliceFrom image (i + 1), none) := by
          simp only [parsers.SplitImageName, hp, hi]
          rw [if_neg hc]
        have hne : sliceTo image i ≠ "" := by
          intro he
          apply hc
          rw [he]
          decide
        rw [hs]
        refine ⟨fun _ => ⟨?_, h2⟩, fun he => absurd he hne⟩
        apply String.ext
        rw [data_slash_append]
        exact h1.symm

/-- Witness for C22 at `localhost:5000/foo/busybox`. -/
theorem SplitImageName_lossless_witness :
    (parsers.SplitImageName "localhost:5000/foo/busybox").1 ++ "/" ++
        (parsers.SplitImageName "localhost:5000/foo/busybox").2.1 =
      "localhost:5000/foo/busybox" ∧
    '/' ∉ (parsers.SplitImageName "localhost:5000/foo/busybox").1.data :=
  (SplitImageName_lossless "localhost:5000/foo/busybox" (by decide)).1 (by decide)

/-- C23: every Domain returned by a successful `NewDomain` is the input, is
not empty, contains no `/`, and contains `.` or `:` or is exactly
`localhost`; and `NewDomain` returns an error on every input that contains
`/`, on the empty input, and on every input with no `.` and no `:` other than
`localhost`, although its rejection test joins the two mismatches with
`&&`. -/
theorem NewDomain_domain_shape (input : String) :
    (∀ D : Domain, NewDomain input = (D, none) →
      D = input ∧ D ≠ "" ∧ '/' ∉ D.data ∧
      ('.' ∈ D.data ∨ ':' ∈ D.data ∨ D = "localhost")) ∧
    (('/' ∈ input.data ∨ input = "" ∨
        ¬ ('.' ∈ input.data ∨ ':' ∈ input.data ∨ input = "localhost")) →
      (NewDomain input).2 ≠ none ∧ (NewDomain input).1 = "") := by
  constructor
  · intro D hD
    obtain ⟨h1, h2, h3, _⟩ := NewDomain_ok input D hD
    subst h1
    exact ⟨rfl, ne_empty_of_domain_test D h3, h2, h3⟩
  · intro hbad
    have hcond : ¬ ('/' ∉ input.data ∧
        ('.' ∈ input.data ∨ ':' ∈ input.data ∨ input = "localhost")) := by
      rintro ⟨hs, hd⟩
      rcases hbad with h | h | h
      · exact hs h
      · exact ne_empty_of_domain_test input hd h
      · exact h hd
    rw [NewDomain_eq]
    cases hp : dockerref.Parse (input ++ "/" ++ sanityRepo) with
    | error err => simp
    | ok r =>
      simp only
      rw [if_neg hcond]
      simp

/-- Witness for C23: `NewDomain` rejects `gcr.io/project`, the empty input and
`foo`, and the Domain it returns for `localhost:5000` has the stated shape. -/
theorem NewDomain_domain_shape_witness :
    ((NewDomain "gcr.io/project").2 ≠ none ∧ (NewDomain "gcr.io/project").1 = "") ∧
    ((NewDomain "").2 ≠ none ∧ (NewDomain "").1 = "") ∧
    ((NewDomain "foo").2 ≠ none ∧ (NewDomain "foo").1 = "") ∧
    ("localhost:5000" = "localhost:5000" ∧ ("localhost:5000" : String) ≠ "" ∧
      '/' ∉ ("localhost:5000" : String).data ∧
      ('.' ∈ ("localhost:5000" : String).data ∨ ':' ∈ ("localhost:5000" : String).data ∨
        ("localhost:5000" : String) = "localhost")) :=
  ⟨(NewDomain_domain_shape "gcr.io/project").2 (Or.inl (by decide)),
   (NewDomain_domain_shape "").2 (Or.inr (Or.inl rfl)),
   (NewDomain_domain_shape "foo").2 (Or.inr (Or.inr (by decide))),
   (NewDomain_domain_shape "localhost:5000").1 "localhost:5000" (by decide)⟩

/-! ## Invalid images -/

namespace dockerref

/-- A name stays a name when its first segment is dropped. -/
theorem matchName_drop_first (q N : List Char) (hq : '/' ∉ q)
    (h : matchName (q ++ '/' :: N) = true) : matchName N = true := by
  unfold matchName at h
  rw [strings.splitChars_append '/' q N hq] at h
  simp only [List.all_cons, Bool.or_eq_true, Bool.and_eq_true] at h
  have hall : (strings.splitChars '/' N).all matchNameComponent = true := by
    rcases h with h | h
    · exact h.2
    · exact h.2
  unfold matchName
  cases hs : strings.splitChars '/' N with
  | nil => exact absurd hs (strings.splitChars_ne_nil '/' N)
  | cons seg rest =>
    rw [hs] at hall
    simp only [Bool.or_eq_true]
    left
    exact hall

/-- When `D/R` is a legal reference and `D` has no `/`, `R` is a legal
reference. -/
theorem Parse_drop_first (D R : String) (n : Named) (hs : '/' ∉ D.data)
    (hn : Parse (D ++ "/" ++ R) = .ok n) : ∃ r, Parse R = .ok r := by
  have he : D ++ "/" ++ R = ⟨D.data ++ '/' :: R.data⟩ := String.ext (data_slash_append D R)
  obtain ⟨hm, hlen, hd⟩ := Parse_ok _ n hn
  rw [he] at hm
  have hq : '@' ∉ D.data := no_at_of_matchReference D.data R.data (by rw [hm]; rfl)
  rw [matchReference_prefixed D.data R.data hq] at hm
  split at hm
  · rename_i hcond
    simp only [Option.some.injEq, Prod.mk.injEq] at hm
    obtain ⟨h1, h2, h3⟩ := hm
    simp only [Bool.and_eq_true] at hcond
    obtain ⟨⟨hname, htag⟩, hdig⟩ := hcond
    have hname' := matchName_drop_first D.data _ hs hname
    have hmr := matchReference_eq R
    rw [if_pos (by simp only [Bool.and_eq_true]; exact ⟨⟨hname', htag⟩, hdig⟩)] at hmr
    refine ⟨_, Parse_of_match R _ _ _ hmr ?_ ?_⟩
    · have hl : n.name.data.length ≤ NameTotalLengthMax := hlen
      rw [← h1] at hl
      simp only [List.length_append, List.length_cons] at hl
      show (splitNameTag (nameTagPart R.data)).1.length ≤ NameTotalLengthMax
      omega
    · rw [h3]
      exact hd
  · cases hm

end dockerref

/-- An image that is not a valid reference has no detectable domain, and its
candidate `D/image` is rejected by `ParseImageName`, for every `D` without
`/` that contains `.` or `:` or is `localhost`. -/
theorem invalid_image_candidate_rejected (D image : String) (hs : '/' ∉ D.data)
    (hd : '.' ∈ D.data ∨ ':' ∈ D.data ∨ D = "localhost")
    (hinv : (parsers.SplitImageName image).2.2 ≠ none) :
    hasDomain image = false ∧
    (parsers.ParseImageName (D ++ "/" ++ image)).2.2.2 ≠ none := by
  have hperr : ∀ r, dockerref.Parse image ≠ .ok r := by
    intro r hr
    exact hinv (parsers.SplitImageName_ok image r hr)
  constructor
  · cases hp : dockerref.Parse image with
    | ok r => exact absurd hp (hperr r)
    | error err => simp [hasDomain, parsers.SplitImageName_error image err hp]
  · intro hok
    obtain ⟨n, hn, _⟩ := ParseImageName_success _ hok
    have hp := ParseNormalizedNamed_ok _ n hn
    rw [splitDockerDomain_candidate D image hs hd] at hp
    have key : ∀ D' : String, '/' ∉ D'.data →
        dockerref.Parse (D' ++ "/" ++
          (if (D' = dockerref.defaultDomain && !strings.ContainsChar image '/') = true then
            dockerref.officialRepoName ++ "/" ++ image
          else image)) = .ok n → False := by
      intro D' hs' hp'
      obtain ⟨r1, hr1⟩ := dockerref.Parse_drop_first _ _ n hs' hp'
      by_cases hc : (D' = dockerref.defaultDomain && !strings.ContainsChar image '/') = true
      · rw [if_pos hc] at hr1
        obtain ⟨r2, hr2⟩ := dockerref.Parse_drop_first dockerref.officialRepoName image r1
          (by decide) hr1
        exact hperr r2 hr2
      · rw [if_neg hc] at hr1
        exact hperr r1 hr1
    by_cases hl : D = dockerref.legacyDefaultDomain
    · simp only [if_pos hl] at hp
      exact key dockerref.defaultDomain (by decide) hp
    · simp only [if_neg hl] at hp
      exact key D hs hp

/-- A container list with an invalid image makes the loop return an error,
and the invalid image is still in the list, not rewritten. -/
theorem qualifyContainerImages_invalid_image (D : Domain) (cs : List Container) (c : Container)
    (hs : '/' ∉ D.data) (hd : '.' ∈ D.data ∨ ':' ∈ D.data ∨ D = "localhost")
    (hc : c ∈ cs) (hinv : (parsers.SplitImageName c.Image).2.2 ≠ none) :
    (qualifyContainerImages D cs).2.2 ≠ none ∧ c ∈ (qualifyContainerImages D cs).1 := by
  obtain ⟨hnd, hrej⟩ := invalid_image_candidate_rejected D c.Image hs hd hinv
  have herr : (qualifyContainerImages D cs).2.2 ≠ none := by
    intro hok
    rcases qualifyContainerImages_no_failure D cs hok c hc with h | h
    · rw [hnd] at h
      cases h
    · exact hrej h
  refine ⟨herr, ?_⟩
  obtain ⟨pre, c', post, hcs, hpre, hd', hp'⟩ := qualifyContainerImages_first_failure D cs herr
  rw [hcs, qualifyContainerImages_at_first_failure D pre c' post hpre hd' hp']
  rw [hcs] at hc
  rcases List.mem_append.1 hc with h | h
  · rcases hpre c h with h1 | h1
    · rw [hnd] at h1
      cases h1
    · exact absurd h1 hrej
  · exact List.mem_append_right _ h

/-- C24: invalid images are never admitted.  For every Domain `D` produced
by `NewDomain` and every container list with a container `c` whose image is
not a valid reference (`SplitImageName` returns an error): `hasDomain` is
false of the image, `ParseImageName` rejects the candidate `D/image`,
`qualifyContainerImages` returns an error and leaves `c` in the list as it
was; and `Admit` on an applicable request for a pod with such a container
among its init-containers or containers fails, with `c` still in the pod as
submitted. -/
theorem invalid_image_never_admitted (input : String) (D : Domain) (c : Container)
    (hD : NewDomain input = (D, none))
    (hinv : (parsers.SplitImageName c.Image).2.2 ≠ none) :
    hasDomain c.Image = false ∧
    (parsers.ParseImageName (D ++ "/" ++ c.Image)).2.2.2 ≠ none ∧
    (∀ cs : List Container, c ∈ cs →
      (qualifyContainerImages D cs).2.2 ≠ none ∧ c ∈ (qualifyContainerImages D cs).1) ∧
    (∀ (quote : String → String) (attributes : admission.Attributes) (pod : Pod),
      attributes.GetSubresource = "" →
      attributes.GetResource.GroupResource = api.Resource "pods" →
      attributes.GetOperation = admission.Operation.Create →
      attributes.GetObject = .Pod pod →
      (c ∈ pod.Spec.InitContainers ∨ c ∈ pod.Spec.Containers) →
      ((NewAlwaysQualifyImages D).Admit quote attributes).2 ≠ none ∧
      ∃ pod', ((NewAlwaysQualifyImages D).Admit quote attributes).1 = .Pod pod' ∧
        (c ∈ pod'.Spec.InitContainers ∨ c ∈ pod'.Spec.Containers)) := by
  obtain ⟨hDi, hs, hd, _⟩ := NewDomain_ok input D hD
  subst hDi
  obtain ⟨hnd, hrej⟩ := invalid_image_candidate_rejected D c.Image hs hd hinv
  refine ⟨hnd, hrej, fun cs hc => qualifyContainerImages_invalid_image D cs c hs hd hc hinv, ?_⟩
  intro quote attributes pod h1 h2 h3 ho hmem
  have hg := (shouldIgnore_eq_false_iff attributes).2 ⟨h1, h2, h3⟩
  have hA := Admit_pod quote (NewAlwaysQualifyImages D) attributes pod hg ho
  have hdom : (NewAlwaysQualifyImages D).Domain = D := rfl
  rw [hdom] at hA
  rw [hA]
  cases hie : (qualifyContainerImages D pod.Spec.InitContainers).2.2 with
  | some e =>
    refine ⟨by simp, _, rfl, ?_⟩
    rcases hmem with h | h
    · exact Or.inl (qualifyContainerImages_invalid_image D _ c hs hd h hinv).2
    · exact Or.inr h
  | none =>
    have hmem' : c ∈ pod.Spec.Containers := by
      rcases hmem with h | h
      · exact absurd hie (qualifyContainerImages_invalid_image D _ c hs hd h hinv).1
      · exact h
    obtain ⟨herr, hin⟩ := qualifyContainerImages_invalid_image D _ c hs hd hmem' hinv
    cases hce : (qualifyContainerImages D pod.Spec.Containers).2.2 with
    | none => exact absurd hce herr
    | some e => exact ⟨by simp, _, rfl, Or.inr hin⟩

/-- Witness for C24: under `localhost:5000` the invalid image `bad image`
makes `qualifyContainerImages` fail and stays in the list. -/
theorem invalid_image_never_admitted_witness :
    NewDomain "localhost:5000" = ("localhost:5000", none) ∧
    (parsers.SplitImageName "bad image").2.2 ≠ none ∧
    (qualifyContainerImages "localhost:5000"
      [⟨"ctrl1", "busybox"⟩, ⟨"ctrl2", "bad image"⟩]).2.2 ≠ none ∧
    (⟨"ctrl2", "bad image"⟩ : Container) ∈ (qualifyContainerImages "localhost:5000"
      [⟨"ctrl1", "busybox"⟩, ⟨"ctrl2", "bad image"⟩]).1 :=
  ⟨by decide, by decide,
   (invalid_image_never_admitted "localhost:5000" "localhost:5000" ⟨"ctrl2", "bad image"⟩
      (by decide) (by decide)).2.2.1 [⟨"ctrl1", "busybox"⟩, ⟨"ctrl2", "bad image"⟩]
      (by decide)⟩

/-! ## Round trip -/

/-- A string without upper-case ASCII letters is its own lower-case form. -/
theorem ToLower_of_no_upper (s : String)
    (h : ∀ c ∈ s.data, ¬ (65 ≤ c.toNat ∧ c.toNat ≤ 90)) : strings.ToLower s = s := by
  apply String.ext
  show s.data.map strings.lowerChar = s.data
  conv_rhs => rw [← List.map_id s.data]
  apply List.map_congr_left
  intro c hc
  simp only [strings.lowerChar, id]
  rw [if_neg (h c hc)]

namespace strings

theorem splitChars_of_not_mem (sep : Char) (s : List Char) (h : sep ∉ s) :
    splitChars sep s = [s] := by
  induction s with
  | nil => rfl
  | cons c cs ih =>
    have hc : ¬ c = sep := fun e => h (by simp [e])
    have hcs : sep ∉ cs := fun e => h (by simp [e])
    simp [splitChars, hc, ih hcs]

/-- The first segment of a split has no separator, and the string is that
segment alone or the segment, the separator and the rest. -/
theorem splitChars_cons (sep : Char) (s seg : List Char) (rest : List (List Char))
    (h : splitChars sep s = seg :: rest) :
    sep ∉ seg ∧ ((rest = [] ∧ s = seg) ∨
      (rest ≠ [] ∧ ∃ s', s = seg ++ sep :: s' ∧ splitChars sep s' = rest)) := by
  induction s generalizing seg rest with
  | nil =>
    simp only [splitChars, List.cons.injEq] at h
    obtain ⟨h1, h2⟩ := h
    subst h1
    subst h2
    exact ⟨by simp, Or.inl ⟨rfl, rfl⟩⟩
  | cons c cs ih =>
    by_cases hc : c = sep
    · simp only [splitChars, hc, if_true, List.cons.injEq] at h
      obtain ⟨h1, h2⟩ := h
      subst h1
      refine ⟨by simp, Or.inr ⟨?_, cs, by simp [hc], h2⟩⟩
      rw [← h2]
      exact splitChars_ne_nil sep cs
    · simp only [splitChars, hc, if_false] at h
      cases hs : splitChars sep cs with
      | nil => exact absurd hs (splitChars_ne_nil sep cs)
      | cons seg' rest' =>
        rw [hs] at h
        simp only [List.cons.injEq] at h
        obtain ⟨h1, h2⟩ := h
        subst h1
        subst h2
        obtain ⟨hn, hcase⟩ := ih seg' rest' hs
        have hc' : ¬ sep = c := fun e => hc e.symm
        refine ⟨by simp [hc', hn], ?_⟩
        rcases hcase with ⟨hr, hcs⟩ | ⟨hr, s', hcs, hsp⟩
        · exact Or.inl ⟨hr, by rw [hcs]⟩
        · exact Or.inr ⟨hr, s', by rw [hcs]; rfl, hsp⟩

/-- Every character of a string is the separator or lies in a segment. -/
theorem mem_splitChars (sep c : Char) (s : List Char) (hc : c ∈ s) :
    c = sep ∨ ∃ seg ∈ splitChars sep s, c ∈ seg := by
  induction s with
  | nil => simp at hc
  | cons a as ih =>
    by_cases ha : a = sep
    · rcases List.mem_cons.1 hc with h | h
      · exact Or.inl (h.trans ha)
      · rcases ih h with h' | ⟨seg, hseg, hmem⟩
        · exact Or.inl h'
        · right
          refine ⟨seg, ?_, hmem⟩
          simp [splitChars, ha, hseg]
    · simp only [splitChars, ha, if_false]
      cases hs : splitChars sep as with
      | nil => exact absurd hs (splitChars_ne_nil sep as)
      | cons seg' rest' =>
        rcases List.mem_cons.1 hc with h | h
        · exact Or.inr ⟨a :: seg', by simp, by simp [h]⟩
        · rcases ih h with h' | ⟨seg, hseg, hmem⟩
          · exact Or.inl h'
          · rw [hs] at hseg
            rcases List.mem_cons.1 hseg with rfl | hr
            · exact Or.inr ⟨a :: seg, by simp, List.mem_cons_of_mem _ hmem⟩
            · exact Or.inr ⟨seg, by simp [hr], hmem⟩

end strings

namespace dockerref

/-- The characters of a path component. -/
theorem matchNameComponentFrom_chars (st : ComponentState) (s : List Char)
    (h : matchNameComponentFrom st s = true) :
    ∀ c ∈ s, isLowerAlnum c = true ∨ c = '.' ∨ c = '_' ∨ c = '-' := by
  induction s generalizing st with
  | nil => simp
  | cons a as ih =>
    intro c hc
    have key : (isLowerAlnum a = true ∨ a = '.' ∨ a = '_' ∨ a = '-') ∧
        ∃ st', matchNameComponentFrom st' as = true := by
      cases st with
      | needAlnum =>
        simp only [matchNameComponentFrom, Bool.and_eq_true] at h
        exact ⟨Or.inl h.1, _, h.2⟩
      | inAlnum =>
        simp only [matchNameComponentFrom] at h
        by_cases h1 : isLowerAlnum a = true
        · rw [if_pos h1] at h
          exact ⟨Or.inl h1, _, h⟩
        · rw [if_neg h1] at h
          by_cases h2 : a = '.'
          · rw [if_pos h2] at h
            exact ⟨Or.inr (Or.inl h2), _, h⟩
          · rw [if_neg h2] at h
            by_cases h3 : a = '_'
            · rw [if_pos h3] at h
              exact ⟨Or.inr (Or.inr (Or.inl h3)), _, h⟩
            · rw [if_neg h3] at h
              by_cases h4 : a = '-'
              · rw [if_pos h4] at h
                exact ⟨Or.inr (Or.inr (Or.inr h4)), _, h⟩
              · rw [if_neg h4] at h
                cases h
      | afterUnderscore =>
        simp only [matchNameComponentFrom] at h
        by_cases h1 : isLowerAlnum a = true
        · rw [if_pos h1] at h
          exact ⟨Or.inl h1, _, h⟩
        · rw [if_neg h1] at h
          by_cases h3 : a = '_'
          · rw [if_pos h3] at h
            exact ⟨Or.inr (Or.inr (Or.inl h3)), _, h⟩
          · rw [if_neg h3] at h
            cases h
      | inDashes =>
        simp only [matchNameComponentFrom] at h
        by_cases h1 : isLowerAlnum a = true
        · rw [if_pos h1] at h
          exact ⟨Or.inl h1, _, h⟩
        · rw [if_neg h1] at h
          by_cases h4 : a = '-'
          · rw [if_pos h4] at h
            exact ⟨Or.inr (Or.inr (Or.inr h4)), _, h⟩
          · rw [if_neg h4] at h
            cases h
    rcases List.mem_cons.1 hc with rfl | hc'
    · exact key.1
    · obtain ⟨st', hst'⟩ := key.2
      exact ih st' hst' c hc'

/-- A path component contains no `:`. -/
theorem matchNameComponent_no_colon (s : List Char) (h : matchNameComponent s = true) :
    ':' ∉ s := by
  intro hm
  rcases matchNameComponentFrom_chars _ s h ':' hm with h1 | h1 | h1 | h1
  · exact absurd h1 (by decide)
  · exact absurd h1 (by decide)
  · exact absurd h1 (by decide)
  · exact absurd h1 (by decide)

/-- A run of lower-case alphanumerics and dashes that ends with an
alphanumeric is accepted inside a path component. -/
theorem matchNameComponentFrom_dashes (s : List Char)
    (hall : ∀ c ∈ s, isLowerAlnum c = true ∨ c = '-')
    (hlast : ∀ l, s.getLast? = some l → isLowerAlnum l = true) :
    matchNameComponentFrom .inAlnum s = true ∧
    (s ≠ [] → matchNameComponentFrom .inDashes s = true) := by
  induction s with
  | nil => exact ⟨rfl, fun h => absurd rfl h⟩
  | cons a as ih =>
    have hall' : ∀ c ∈ as, isLowerAlnum c = true ∨ c = '-' :=
      fun c hc => hall c (List.mem_cons_of_mem _ hc)
    cases as with
    | nil =>
      have ha : isLowerAlnum a = true := hlast a rfl
      simp [matchNameComponentFrom, ha]
    | cons b bs =>
      have hlast' : ∀ l, (b :: bs).getLast? = some l → isLowerAlnum l = true := by
        intro l hl
        apply hlast l
        rw [List.getLast?_cons_cons]
        exact hl
      obtain ⟨ih1, ih2⟩ := ih hall' hlast'
      have ih2' := ih2 (by simp)
      by_cases ha : isLowerAlnum a = true
      · simp only [matchNameComponentFrom, if_pos ha]
        exact ⟨ih1, fun _ => ih1⟩
      · have hd : a = '-' := by
          rcases hall a (by simp) with h | h
          · exact absurd h ha
          · exact h
        subst hd
        refine ⟨?_, fun _ => ?_⟩
        · have e : matchNameComponentFrom .inAlnum ('-' :: b :: bs) =
              matchNameComponentFrom .inDashes (b :: bs) := by
            rw [matchNameComponentFrom]
            rw [if_neg (by decide), if_neg (by decide), if_neg (by decide), if_pos rfl]
          rw [e]
          exact ih2'
        · have e : matchNameComponentFrom .inDashes ('-' :: b :: bs) =
              matchNameComponentFrom .inDashes (b :: bs) := by
            rw [matchNameComponentFrom]
            rw [if_neg (by decide), if_pos rfl]
          rw [e]
          exact ih2'

/-- An alphanumeric that is not an upper-case letter is a lower-case
alphanumeric. -/
theorem isLowerAlnum_of_isAlnum (c : Char) (h : isAlnum c = true)
    (hl : ¬ (65 ≤ c.toNat ∧ c.toNat ≤ 90)) : isLowerAlnum c = true := by
  simp only [isAlnum, Bool.or_eq_true, Bool.and_eq_true, decide_eq_true_eq] at h
  rcases h with h | h
  · exact h
  · exact absurd h hl

/-- A domain component without upper-case letters is a path component. -/
theorem matchNameComponent_of_domainComponent (s : List Char)
    (h : matchDomainComponent s = true)
    (hl : ∀ c ∈ s, ¬ (65 ≤ c.toNat ∧ c.toNat ≤ 90)) : matchNameComponent s = true := by
  cases s with
  | nil => simp [matchDomainComponent] at h
  | cons a as =>
    simp only [matchDomainComponent, Bool.and_eq_true, List.all_eq_true, Bool.or_eq_true,
      decide_eq_true_eq] at h
    obtain ⟨⟨ha, hall⟩, hlast⟩ := h
    have ha' := isLowerAlnum_of_isAlnum a ha (hl a (by simp))
    have hall' : ∀ c ∈ as, isLowerAlnum c = true ∨ c = '-' := by
      intro c hc
      rcases hall c (List.mem_cons_of_mem _ hc) with h1 | h1
      · exact Or.inl (isLowerAlnum_of_isAlnum c h1 (hl c (List.mem_cons_of_mem _ hc)))
      · exact Or.inr h1
    have hlast' : ∀ l, as.getLast? = some l → isLowerAlnum l = true := by
      intro l hlas
      have hmem : l ∈ as := List.mem_of_getLast?_eq_some hlas
      have hl2 : (a :: as).getLast? = some l := by
        cases as with
        | nil => simp at hlas
        | cons b bs =>
          rw [List.getLast?_cons_cons]
          exact hlas
      rw [hl2] at hlast
      exact isLowerAlnum_of_isAlnum l hlast (hl l (List.mem_cons_of_mem _ hmem))
    simp only [matchNameComponent, matchNameComponentFrom, Bool.and_eq_true]
    exact ⟨ha', (matchNameComponentFrom_dashes as hall' hlast').1⟩

end dockerref

namespace dockerref

theorem lastIndexOf_split (r : Char) (s : List Char) (j : Nat)
    (h : lastIndexOf r s = some j) : s = s.take j ++ r :: s.drop (j + 1) := by
  obtain ⟨hlt, hget⟩ := lastIndexOf_lt r s j h
  obtain ⟨_, hj⟩ := List.getElem?_eq_some.1 hget
  have hd : s.drop j = r :: s.drop (j + 1) := by
    rw [List.drop_eq_getElem_cons hlt, hj]
  conv_lhs => rw [← List.take_append_drop j s, hd]

/-- The name capture is the whole string, or what stands before a `:`. -/
theorem splitNameTag_cases (X : List Char) :
    ((splitNameTag X).1 = X ∧ (splitNameTag X).2 = none) ∨
    ∃ j, (splitNameTag X).1 = X.take j ∧ X = X.take j ++ ':' :: X.drop (j + 1) := by
  unfold splitNameTag
  cases hl : lastIndexOf ':' X with
  | none => exact Or.inl ⟨rfl, rfl⟩
  | some j =>
    simp only
    split
    · exact Or.inl ⟨rfl, rfl⟩
    · exact Or.inr ⟨j, rfl, lastIndexOf_split ':' X j hl⟩

/-- Every segment of a name without upper-case letters whose first segment,
when others follow, has neither `.` nor `:` is a path component. -/
theorem name_segments (N : List Char) (hm : matchName N = true)
    (hlow : ∀ c ∈ N, ¬ (65 ≤ c.toNat ∧ c.toNat ≤ 90))
    (hun : ∀ seg s', N = seg ++ '/' :: s' → '/' ∉ seg → '.' ∉ seg ∧ ':' ∉ seg) :
    (strings.splitChars '/' N).all matchNameComponent = true := by
  unfold matchName at hm
  cases hs : strings.splitChars '/' N with
  | nil => exact absurd hs (strings.splitChars_ne_nil '/' N)
  | cons seg rest =>
    rw [hs] at hm
    simp only [Bool.or_eq_true, Bool.and_eq_true] at hm
    rcases hm with h | ⟨⟨hdom, hne⟩, hrest⟩
    · exact h
    · have hne' : rest ≠ [] := by simpa using hne
      obtain ⟨hslash, hcase⟩ := strings.splitChars_cons '/' N seg rest hs
      rcases hcase with ⟨hr, _⟩ | ⟨_, s', hN, _⟩
      · exact absurd hr hne'
      · obtain ⟨hdot, hcolon⟩ := hun seg s' hN hslash
        have hcomp : matchDomainComponent seg = true := by
          unfold matchDomain at hdom
          rw [(strings.indexOf_eq_none_iff ':' seg).2 hcolon] at hdom
          simp only at hdom
          rw [strings.splitChars_of_not_mem '.' seg hdot] at hdom
          simpa using hdom
        have hseglow : ∀ c ∈ seg, ¬ (65 ≤ c.toNat ∧ c.toNat ≤ 90) := by
          intro c hc
          apply hlow c
          rw [hN]
          exact List.mem_append_left _ hc
        have := matchNameComponent_of_domainComponent seg hcomp hseglow
        simp only [List.all_cons, Bool.and_eq_true]
        exact ⟨this, hrest⟩

/-- A name all of whose segments are path components has no `:`. -/
theorem no_colon_of_segments (N : List Char)
    (h : (strings.splitChars '/' N).all matchNameComponent = true) : ':' ∉ N := by
  intro hm
  rcases strings.mem_splitChars '/' ':' N hm with h1 | ⟨seg, hseg, hmem⟩
  · exact absurd h1 (by decide)
  · exact matchNameComponent_no_colon seg (List.all_eq_true.1 h seg hseg) hmem

/-- A name all of whose segments are path components, after a first segment
that is a path component or a domain, is a name. -/
theorem matchName_cons_segment (q N : List Char) (hq : '/' ∉ q)
    (hfirst : matchNameComponent q = true ∨ matchDomain q = true)
    (h : (strings.splitChars '/' N).all matchNameComponent = true) :
    matchName (q ++ '/' :: N) = true := by
  unfold matchName
  rw [strings.splitChars_append '/' q N hq]
  simp only [List.all_cons, Bool.or_eq_true, Bool.and_eq_true]
  rcases hfirst with hf | hf
  · exact Or.inl ⟨hf, h⟩
  · refine Or.inr ⟨⟨hf, ?_⟩, h⟩
    simpa using strings.splitChars_ne_nil '/' N

end dockerref

/-- The algorithm of a valid digest is one of the three registered ones. -/
theorem digest_algorithm (dg : List Char) (h : digest.Parse ⟨dg⟩ = none) :
    ∃ k, strings.indexOf ':' dg = some k ∧
      (dg.take k = "sha256".data ∨ dg.take k = "sha384".data ∨ dg.take k = "sha512".data) := by
  unfold digest.Parse at h
  cases hi : strings.indexOf ':' dg with
  | none =>
    rw [show (⟨dg⟩ : String).data = dg from rfl, hi] at h
    cases h
  | some k =>
    rw [show (⟨dg⟩ : String).data = dg from rfl, hi] at h
    simp only at h
    refine ⟨k, rfl, ?_⟩
    split at h
    · cases h
    · split at h
      · rename_i h1
        exact Or.inl (congrArg String.data h1)
      · split at h
        · rename_i h1
          exact Or.inr (Or.inl (congrArg String.data h1))
        · split at h
          · rename_i h1
            exact Or.inr (Or.inr (congrArg String.data h1))
          · cases h

namespace dockerref

/-- The parts of a legal reference. -/
theorem Parse_parts (R : String) (r : Named) (hr : Parse R = .ok r) :
    r.name.data = (splitNameTag (nameTagPart R.data)).1 ∧
    r.digest.data = (digestPart R.data).getD [] ∧
    matchName r.name.data = true ∧
    (match digestPart R.data with
     | none => true
     | some d => matchDigest d) = true ∧
    (if r.digest ≠ "" then digest.Parse r.digest else none) = none := by
  obtain ⟨hm, _, hd⟩ := Parse_ok R r hr
  rw [matchReference_eq] at hm
  split at hm
  · rename_i hcond
    simp only [Option.some.injEq, Prod.mk.injEq] at hm
    obtain ⟨h1, _, h3⟩ := hm
    simp only [Bool.and_eq_true] at hcond
    refine ⟨by rw [← h1], by rw [← h3], ?_, hcond.2, hd⟩
    rw [← h1]
    exact hcond.1.1
  · cases hm

/-- The name of a legal reference stands at its beginning. -/
theorem name_isPrefix (R : String) (r : Named) (hr : Parse R = .ok r) :
    ∃ tail, R.data = r.name.data ++ tail := by
  obtain ⟨hn, _⟩ := Parse_parts R r hr
  have h1 : ∃ t1, R.data = nameTagPart R.data ++ t1 := by
    unfold nameTagPart
    cases strings.indexOf '@' R.data with
    | none => exact ⟨[], by simp⟩
    | some i => exact ⟨R.data.drop i, (List.take_append_drop i R.data).symm⟩
  have h2 : ∃ t2, nameTagPart R.data = (splitNameTag (nameTagPart R.data)).1 ++ t2 := by
    rcases splitNameTag_cases (nameTagPart R.data) with h | ⟨j, hj, hX⟩
    · exact ⟨[], by simp [h.1]⟩
    · exact ⟨':' :: (nameTagPart R.data).drop (j + 1), by rw [hj]; exact hX⟩
  obtain ⟨t1, ht1⟩ := h1
  obtain ⟨t2, ht2⟩ := h2
  refine ⟨t2 ++ t1, ?_⟩
  rw [hn, ← List.append_assoc, ← ht2, ← ht1]

end dockerref

/-- The first segment of the name of an unqualified legal reference, when
other segments follow, has neither `.` nor `:`. -/
theorem unqualified_first_segment (R : String) (r : dockerref.Named)
    (hr : dockerref.Parse R = .ok r) (hun : (parsers.SplitImageName R).1 = "") :
    ∀ seg s', r.name.data = seg ++ '/' :: s' → '/' ∉ seg → '.' ∉ seg ∧ ':' ∉ seg := by
  intro seg s' hN hseg
  obtain ⟨tail, ht⟩ := dockerref.name_isPrefix R r hr
  have hR : R = (⟨seg⟩ : String) ++ "/" ++ ⟨s' ++ tail⟩ := by
    apply String.ext
    rw [data_slash_append, ht, hN]
    simp
  rw [hR] at hr hun
  rw [parsers.SplitImageName_slash ⟨seg⟩ ⟨s' ++ tail⟩ r hr hseg] at hun
  by_cases hc : '.' ∈ (⟨seg⟩ : String).data ∨ ':' ∈ (⟨seg⟩ : String).data ∨
      (⟨seg⟩ : String) = "localhost"
  · rw [if_pos hc] at hun
    exact absurd hun (ne_empty_of_domain_test _ hc)
  · exact ⟨fun h => hc (Or.inl h), fun h => hc (Or.inr (Or.inl h))⟩

/-- The part of a string before its first `:`, or the whole string: what
`ParseNormalizedNamed` takes as the remote name. -/
theorem before_colon_of_append (N t : List Char) (h : ':' ∉ N) :
    (match strings.indexOf ':' (N ++ ':' :: t) with
     | some i => (N ++ ':' :: t).take i
     | none => N ++ ':' :: t) = N := by
  rw [strings.indexOf_append ':' N t h]
  simp

theorem before_colon_of_not_mem (N : List Char) (h : ':' ∉ N) :
    (match strings.indexOf ':' N with
     | some i => N.take i
     | none => N) = N := by
  rw [(strings.indexOf_eq_none_iff ':' N).2 h]

/-- In a legal reference whose name has no `:`, what stands before the first
`:` is the name, followed by nothing or by `@` and the digest algorithm. -/
theorem remoteName_chars (R : String) (r : dockerref.Named)
    (hr : dockerref.Parse R = .ok r) (hcolon : ':' ∉ r.name.data) :
    ∃ suffix,
      (match strings.indexOf ':' R.data with
       | some i => R.data.take i
       | none => R.data) = r.name.data ++ suffix ∧
      ∀ c ∈ suffix, ¬ (65 ≤ c.toNat ∧ c.toNat ≤ 90) := by
  obtain ⟨hn, hdg, _, hdok, hdp⟩ := dockerref.Parse_parts R r hr
  cases ha : strings.indexOf '@' R.data with
  | none =>
    have hX : dockerref.nameTagPart R.data = R.data := by simp [dockerref.nameTagPart, ha]
    rw [hX] at hn
    rcases dockerref.splitNameTag_cases R.data with h | ⟨j, hj, hsplit⟩
    · rw [h.1] at hn
      refine ⟨[], ?_, by simp⟩
      rw [← hn, List.append_nil]
      exact before_colon_of_not_mem _ hcolon
    · rw [hj] at hn
      refine ⟨[], ?_, by simp⟩
      rw [List.append_nil]
      rw [hsplit, ← hn]
      exact before_colon_of_append _ _ hcolon
  | some a =>
    obtain ⟨hRa, hnat, _⟩ := strings.indexOf_some '@' R.data a ha
    have hX : dockerref.nameTagPart R.data = R.data.take a := by simp [dockerref.nameTagPart, ha]
    have hD : dockerref.digestPart R.data = some (R.data.drop (a + 1)) := by
      simp [dockerref.digestPart, ha]
    rw [hX] at hn
    rcases dockerref.splitNameTag_cases (R.data.take a) with h | ⟨j, hj, hsplit⟩
    · rw [h.1] at hn
      rw [hD] at hdok hdg
      simp only [Option.getD_some] at hdg
      simp only at hdok
      have hne : R.data.drop (a + 1) ≠ [] := by
        intro he
        rw [he] at hdok
        revert hdok
        decide
      have hdne : r.digest ≠ "" := by
        intro he
        rw [he] at hdg
        exact hne hdg.symm
      rw [if_pos hdne] at hdp
      have hdeq : r.digest = ⟨R.data.drop (a + 1)⟩ := String.ext hdg
      rw [hdeq] at hdp
      obtain ⟨k, hk, halg⟩ := digest_algorithm _ hdp
      have hp : ':' ∉ r.name.data ++ ['@'] := by
        intro hm
        rcases List.mem_append.1 hm with h1 | h1
        · exact hcolon h1
        · revert h1
          decide
      have hR' : R.data = (r.name.data ++ ['@']) ++ R.data.drop (a + 1) := by
        conv_lhs => rw [hRa, ← hn]
        simp
      refine ⟨'@' :: (R.data.drop (a + 1)).take k, ?_, ?_⟩
      · conv_lhs => rw [hR']
        rw [strings.indexOf_append_of_not_mem ':' _ _ hp, hk]
        simp only [Option.map_some']
        rw [Nat.add_comm, List.take_append]
        simp
      · intro c hc
        rcases List.mem_cons.1 hc with rfl | hc'
        · decide
        · rcases halg with h1 | h1 | h1
          · rw [h1] at hc'
            exact (by decide : ∀ x ∈ "sha256".data, ¬ (65 ≤ x.toNat ∧ x.toNat ≤ 90)) c hc'
          · rw [h1] at hc'
            exact (by decide : ∀ x ∈ "sha384".data, ¬ (65 ≤ x.toNat ∧ x.toNat ≤ 90)) c hc'
          · rw [h1] at hc'
            exact (by decide : ∀ x ∈ "sha512".data, ¬ (65 ≤ x.toNat ∧ x.toNat ≤ 90)) c hc'
    · rw [hj] at hn
      refine ⟨[], ?_, by simp⟩
      rw [List.append_nil]
      have hR' : R.data = r.name.data ++ ':' ::
          ((R.data.take a).drop (j + 1) ++ '@' :: R.data.drop (a + 1)) := by
        conv_lhs => rw [hRa, hsplit, ← hn]
        simp
      conv_lhs => rw [hR']
      exact before_colon_of_append _ _ hcolon

namespace dockerref

/-- A reference `q/R` is legal when `R` is, `q` has no `@`, the name of `R`
with `q/` in front is a name and is within the length limit. -/
theorem Parse_candidate_ok (q : List Char) (R : String) (r : Named) (hr : Parse R = .ok r)
    (hq : '@' ∉ q) (hname : matchName (q ++ '/' :: r.name.data) = true)
    (hlen : (q ++ '/' :: r.name.data).length ≤ NameTotalLengthMax) :
    Parse ⟨q ++ '/' :: R.data⟩ = .ok ⟨⟨q ++ '/' :: r.name.data⟩, r.tag, r.digest⟩ := by
  obtain ⟨hm, _, hd⟩ := Parse_ok R r hr
  rw [matchReference_eq] at hm
  split at hm
  · rename_i hcond
    simp only [Option.some.injEq, Prod.mk.injEq] at hm
    obtain ⟨h1, h2, h3⟩ := hm
    simp only [Bool.and_eq_true] at hcond
    have hN : (splitNameTag (nameTagPart R.data)).1 = r.name.data := by rw [← h1]
    have hmp := matchReference_prefixed q R.data hq
    rw [hN] at hmp
    rw [if_pos (by simp only [Bool.and_eq_true]; exact ⟨⟨hname, hcond.1.2⟩, hcond.2⟩)] at hmp
    rw [h2, h3] at hmp
    exact Parse_of_match _ _ _ _ hmp hlen hd
  · cases hm

/-- A string that contains `/` is not a 64-character hexadecimal identifier. -/
theorem matchIdentifier_of_slash (s : String) (h : '/' ∈ s.data) : matchIdentifier s = false := by
  unfold matchIdentifier
  have : s.data.all isLowerHex = false := by
    rw [List.all_eq_false]
    exact ⟨'/', h, by decide⟩
  simp [this]

/-- `ParseNormalizedNamed` from its steps. -/
theorem ParseNormalizedNamed_of_steps (s : String) (hid : matchIdentifier s = false)
    (hlow : strings.ToLower
        (match strings.IndexRune (splitDockerDomain s).2 ':' with
         | some tagSep => sliceTo (splitDockerDomain s).2 tagSep
         | none => (splitDockerDomain s).2) =
      (match strings.IndexRune (splitDockerDomain s).2 ':' with
       | some tagSep => sliceTo (splitDockerDomain s).2 tagSep
       | none => (splitDockerDomain s).2)) :
    ParseNormalizedNamed s =
      Parse ((splitDockerDomain s).1 ++ "/" ++ (splitDockerDomain s).2) := by
  unfold ParseNormalizedNamed
  rw [if_neg (by simp [hid])]
  simp only
  rw [if_neg (fun h => h hlow)]

end dockerref

/-- The remote name of `p` followed by a legal reference `R`, where `p` has
neither `:` nor upper-case letters and the name of `R` has neither, is in
lower case. -/
theorem remoteName_lower (p : List Char) (R : String) (r : dockerref.Named)
    (hr : dockerref.Parse R = .ok r) (hp : ':' ∉ p)
    (hpl : ∀ c ∈ p, ¬ (65 ≤ c.toNat ∧ c.toNat ≤ 90))
    (hcolon : ':' ∉ r.name.data)
    (hlow : ∀ c ∈ r.name.data, ¬ (65 ≤ c.toNat ∧ c.toNat ≤ 90)) :
    strings.ToLower
        (match strings.IndexRune ⟨p ++ R.data⟩ ':' with
         | some tagSep => sliceTo ⟨p ++ R.data⟩ tagSep
         | none => ⟨p ++ R.data⟩) =
      (match strings.IndexRune ⟨p ++ R.data⟩ ':' with
       | some tagSep => sliceTo ⟨p ++ R.data⟩ tagSep
       | none => ⟨p ++ R.data⟩) := by
  obtain ⟨suffix, hs, hsl⟩ := remoteName_chars R r hr hcolon
  apply ToLower_of_no_upper
  have hdata : (match strings.IndexRune ⟨p ++ R.data⟩ ':' with
       | some tagSep => sliceTo ⟨p ++ R.data⟩ tagSep
       | none => (⟨p ++ R.data⟩ : String)).data = p ++ (r.name.data ++ suffix) := by
    unfold strings.IndexRune
    rw [show (⟨p ++ R.data⟩ : String).data = p ++ R.data from rfl,
      strings.indexOf_append_of_not_mem ':' p R.data hp]
    rw [← hs]
    cases strings.indexOf ':' R.data with
    | none => rfl
    | some i =>
      simp only [Option.map_some', sliceTo]
      rw [Nat.add_comm, List.take_append]
  rw [hdata]
  intro c hc
  rcases List.mem_append.1 hc with h | h
  · exact hpl c h
  · rcases List.mem_append.1 h with h' | h'
    · exact hlow c h'
    · exact hsl c h'

/-- A Domain accepted by `NewDomain` has no `@` and is a path component or a
domain of the reference grammar. -/
theorem NewDomain_first_segment (input : String) (D : Domain)
    (hD : NewDomain input = (D, none)) :
    '@' ∉ D.data ∧
    (dockerref.matchNameComponent D.data = true ∨ dockerref.matchDomain D.data = true) := by
  obtain ⟨hDi, hs, _, hsplit⟩ := NewDomain_ok input D hD
  subst hDi
  obtain ⟨n, hn⟩ : ∃ n, dockerref.Parse (D ++ "/" ++ sanityRepo) = .ok n := by
    cases hp : dockerref.Parse (D ++ "/" ++ sanityRepo) with
    | ok n => exact ⟨n, rfl⟩
    | error err =>
      rw [parsers.SplitImageName_error _ err hp] at hsplit
      simp at hsplit
  have he : D ++ "/" ++ sanityRepo = ⟨D.data ++ '/' :: sanityRepo.data⟩ :=
    String.ext (data_slash_append D sanityRepo)
  have hm := (dockerref.Parse_ok _ n hn).1
  rw [he] at hm
  have hq : '@' ∉ D.data := dockerref.no_at_of_matchReference D.data _ (by rw [hm]; rfl)
  refine ⟨hq, ?_⟩
  rw [dockerref.matchReference_prefixed D.data _ hq] at hm
  split at hm
  · rename_i hcond
    simp only [Bool.and_eq_true] at hcond
    have hname := hcond.1.1
    have hsan : (dockerref.splitNameTag (dockerref.nameTagPart sanityRepo.data)).1 =
        "foo/bar".data := by decide
    rw [hsan] at hname
    unfold dockerref.matchName at hname
    rw [strings.splitChars_append '/' D.data _ hs] at hname
    simp only [List.all_cons, Bool.or_eq_true, Bool.and_eq_true] at hname
    rcases hname with h | h
    · exact Or.inl h.1
    · exact Or.inr h.1.1
  · cases hm

theorem containsChar_iff (s : String) (c : Char) :
    strings.ContainsChar s c = true ↔ c ∈ s.data := by
  simp [strings.ContainsChar]

/-- The candidate `nd/R` parses to the name of `R` with `nd/` in front. -/
theorem Parse_candidate_plain (nd R : String) (r : dockerref.Named)
    (hr : dockerref.Parse R = .ok r) (hs : '/' ∉ nd.data) (hat : '@' ∉ nd.data)
    (hfirst : dockerref.matchNameComponent nd.data = true ∨ dockerref.matchDomain nd.data = true)
    (hseg : (strings.splitChars '/' r.name.data).all dockerref.matchNameComponent = true)
    (hlen : (nd ++ "/" ++ r.name).length ≤ 255) :
    dockerref.Parse (nd ++ "/" ++ R) = .ok ⟨nd ++ "/" ++ r.name, r.tag, r.digest⟩ := by
  have he : nd ++ "/" ++ R = ⟨nd.data ++ '/' :: R.data⟩ := String.ext (data_slash_append nd R)
  have hn : nd ++ "/" ++ r.name = ⟨nd.data ++ '/' :: r.name.data⟩ :=
    String.ext (data_slash_append nd r.name)
  have hlen' : (nd.data ++ '/' :: r.name.data).length ≤ dockerref.NameTotalLengthMax := by
    rw [hn] at hlen
    exact hlen
  rw [he, hn]
  exact dockerref.Parse_candidate_ok nd.data R r hr hat
    (dockerref.matchName_cons_segment nd.data r.name.data hs hfirst hseg) hlen'

/-- The candidate `docker.io/library/R` parses to the name of `R` with
`docker.io/library/` in front. -/
theorem Parse_candidate_library (R : String) (r : dockerref.Named)
    (hr : dockerref.Parse R = .ok r)
    (hseg : (strings.splitChars '/' r.name.data).all dockerref.matchNameComponent = true)
    (hlen : ("docker.io/library/" ++ r.name).length ≤ 255) :
    dockerref.Parse ("docker.io" ++ "/" ++ ("library" ++ "/" ++ R)) =
      .ok ⟨"docker.io/library/" ++ r.name, r.tag, r.digest⟩ := by
  have he : "docker.io" ++ "/" ++ ("library" ++ "/" ++ R) =
      ⟨"docker.io/library".data ++ '/' :: R.data⟩ := by
    apply String.ext
    simp [String.data_append]
  have hn : "docker.io/library/" ++ r.name = ⟨"docker.io/library".data ++ '/' :: r.name.data⟩ := by
    apply String.ext
    simp [String.data_append]
  have hlen' : ("docker.io/library".data ++ '/' :: r.name.data).length ≤
      dockerref.NameTotalLengthMax := by
    rw [hn] at hlen
    exact hlen
  have hname : dockerref.matchName ("docker.io/library".data ++ '/' :: r.name.data) = true := by
    have e : "docker.io/library".data ++ '/' :: r.name.data =
        "docker.io".data ++ '/' :: ("library".data ++ '/' :: r.name.data) := by simp
    rw [e]
    apply dockerref.matchName_cons_segment _ _ (by decide) (Or.inl (by decide))
    rw [strings.splitChars_append '/' _ _ (by decide)]
    simp only [List.all_cons, Bool.and_eq_true]
    exact ⟨by decide, hseg⟩
  rw [he, hn]
  exact dockerref.Parse_candidate_ok _ R r hr (by decide) hname hlen'

/-- What `ParseNormalizedNamed` returns for the candidate `D/R` of a legal
unqualified reference `R` whose name has no upper-case letter, in the three
cases of the normalisation. -/
theorem ParseNormalizedNamed_candidate (D R : String) (r : dockerref.Named)
    (hs : '/' ∉ D.data) (hd : '.' ∈ D.data ∨ ':' ∈ D.data ∨ D = "localhost")
    (hat : '@' ∉ D.data)
    (hfirst : dockerref.matchNameComponent D.data = true ∨ dockerref.matchDomain D.data = true)
    (hr : dockerref.Parse R = .ok r) (hun : (parsers.SplitImageName R).1 = "")
    (hlow : ∀ c ∈ r.name.data, ¬ (65 ≤ c.toNat ∧ c.toNat ≤ 90)) :
    (D ≠ "index.docker.io" → ¬ (D = "docker.io" ∧ '/' ∉ R.data) →
      (D ++ "/" ++ r.name).length ≤ 255 →
      dockerref.ParseNormalizedNamed (D ++ "/" ++ R) =
        .ok ⟨D ++ "/" ++ r.name, r.tag, r.digest⟩) ∧
    ((D = "docker.io" ∨ D = "index.docker.io") → '/' ∉ R.data →
      ("docker.io/library/" ++ r.name).length ≤ 255 →
      dockerref.ParseNormalizedNamed (D ++ "/" ++ R) =
        .ok ⟨"docker.io/library/" ++ r.name, r.tag, r.digest⟩) ∧
    (D = "index.docker.io" → '/' ∈ R.data →
      ("docker.io/" ++ r.name).length ≤ 255 →
      dockerref.ParseNormalizedNamed (D ++ "/" ++ R) =
        .ok ⟨"docker.io/" ++ r.name, r.tag, r.digest⟩) := by
  have hseg := dockerref.name_segments r.name.data (dockerref.Parse_parts R r hr).2.2.1 hlow
    (unqualified_first_segment R r hr hun)
  have hcolon := dockerref.no_colon_of_segments _ hseg
  have hid : dockerref.matchIdentifier (D ++ "/" ++ R) = false := by
    apply dockerref.matchIdentifier_of_slash
    rw [data_slash_append]
    simp
  have hsd := splitDockerDomain_candidate D R hs hd
  have hsteps := dockerref.ParseNormalizedNamed_of_steps (D ++ "/" ++ R) hid
  have hRmk : (⟨[] ++ R.data⟩ : String) = R := rfl
  have hlowR := remoteName_lower [] R r hr (by simp) (by simp) hcolon hlow
  rw [hRmk] at hlowR
  have hlib : (⟨"library/".data ++ R.data⟩ : String) =
      dockerref.officialRepoName ++ "/" ++ R := by
    apply String.ext
    simp [String.data_append, dockerref.officialRepoName]
  have hlowL := remoteName_lower "library/".data R r hr (by decide) (by decide) hcolon hlow
  rw [hlib] at hlowL
  refine ⟨?_, ?_, ?_⟩
  · intro hleg hdef hlen
    have hl : ¬ D = dockerref.legacyDefaultDomain := hleg
    have hc : ¬ ((D = dockerref.defaultDomain && !strings.ContainsChar R '/') = true) := by
      intro hc
      simp only [Bool.and_eq_true, decide_eq_true_eq, Bool.not_eq_true'] at hc
      apply hdef
      refine ⟨hc.1, fun hm => ?_⟩
      rw [(containsChar_iff R '/').2 hm] at hc
      exact absurd hc.2 (by simp)
    simp only [if_neg hl] at hsd
    rw [if_neg hc] at hsd
    rw [hsd] at hsteps
    rw [hsteps hlowR]
    exact Parse_candidate_plain D R r hr hs hat hfirst hseg hlen
  · intro hD hns hlen
    have hnd : (if D = dockerref.legacyDefaultDomain then dockerref.defaultDomain else D) =
        dockerref.defaultDomain := by
      rcases hD with h | h
      · rw [h]
        rfl
      · rw [h]
        rfl
    have hcf : strings.ContainsChar R '/' = false := by
      cases hb : strings.ContainsChar R '/' with
      | false => rfl
      | true => exact absurd ((containsChar_iff R '/').1 hb) hns
    simp only [hnd, hcf] at hsd
    have hsd' : dockerref.splitDockerDomain (D ++ "/" ++ R) =
        (dockerref.defaultDomain, dockerref.officialRepoName ++ "/" ++ R) := by
      rw [hsd]
      rfl
    rw [hsd'] at hsteps
    rw [hsteps hlowL]
    exact Parse_candidate_library R r hr hseg hlen
  · intro hD hsl hlen
    subst hD
    have hct : strings.ContainsChar R '/' = true := (containsChar_iff R '/').2 hsl
    have hsd' : dockerref.splitDockerDomain ("index.docker.io" ++ "/" ++ R) =
        (dockerref.defaultDomain, R) := by
      rw [hsd]
      simp [hct, dockerref.legacyDefaultDomain]
    rw [hsd'] at hsteps
    rw [hsteps hlowR]
    exact Parse_candidate_plain "docker.io" R r hr (by decide) (by decide) (Or.inl (by decide))
      hseg (by
        have e : "docker.io" ++ "/" ++ r.name = "docker.io/" ++ r.name := by
          apply String.ext
          simp [String.data_append]
        rw [e]
        exact hlen)
      |>.trans (by
        have e : "docker.io" ++ "/" ++ r.name = "docker.io/" ++ r.name := by
          apply String.ext
          simp [String.data_append]
        rw [e])

/-- From a successful normalised parse of the candidate `D/R` of an
unqualified `R`: the qualification of `[R]` and the result of
`ParseImageName` on the rewritten image. -/
theorem round_trip_of_normalized (D : Domain) (name R : String) (n : dockerref.Named)
    (hnd : hasDomain R = false)
    (hp : dockerref.ParseNormalizedNamed (D ++ "/" ++ R) = .ok n) :
    qualifyContainerImages D [⟨name, R⟩] = ([⟨name, D ++ "/" ++ R⟩], "", none) ∧
    parsers.ParseImageName (D ++ "/" ++ R) =
      (n.name, if n.tag = "" ∧ n.digest = "" then "latest" else n.tag, n.digest, none) := by
  have hpi := parsers.ParseImageName_ok (D ++ "/" ++ R) n hp
  have herr : (parsers.ParseImageName (D ++ "/" ++ R)).2.2.2 = none := by rw [hpi]
  refine ⟨?_, hpi⟩
  have := qualifyContainerImages_all_unqualified D [⟨name, R⟩]
    (by
      intro c hc
      simp only [List.mem_singleton] at hc
      subst hc
      exact ⟨hnd, herr⟩)
  simpa using this

/-- C12, as the code behaves: for every Domain `D` produced by `NewDomain`
and every syntactically valid unqualified reference `R` (`SplitImageName R`
succeeds with the empty domain) whose name as written (the name `r.name` the
reference parser finds in `R`, without tag and digest, not normalised) has no
upper-case letter, `qualifyContainerImages D [R]` succeeds and rewrites the
image to `D/R`, and `ParseImageName` on the rewritten image succeeds with the
tag and digest of `R` (the tag `latest` when `R` has neither) and with this
repository, provided it has at most 255 characters: `D/name` in general;
`docker.io/library/name` when `D` is `docker.io` or `index.docker.io` and `R`
has no `/`; `docker.io/name` when `D` is `index.docker.io` and `R` has a
`/`. -/
theorem qualify_round_trip (input : String) (D : Domain) (name R : String)
    (r : dockerref.Named)
    (hD : NewDomain input = (D, none))
    (hR : (parsers.SplitImageName R).2.2 = none ∧ (parsers.SplitImageName R).1 = "")
    (hr : dockerref.Parse R = .ok r)
    (hlow : ∀ c ∈ r.name.data, ¬ (65 ≤ c.toNat ∧ c.toNat ≤ 90)) :
    (D ≠ "index.docker.io" → ¬ (D = "docker.io" ∧ '/' ∉ R.data) →
      (D ++ "/" ++ r.name).length ≤ 255 →
      qualifyContainerImages D [⟨name, R⟩] = ([⟨name, D ++ "/" ++ R⟩], "", none) ∧
      parsers.ParseImageName (D ++ "/" ++ R) =
        (D ++ "/" ++ r.name, if r.tag = "" ∧ r.digest = "" then "latest" else r.tag,
          r.digest, none)) ∧
    ((D = "docker.io" ∨ D = "index.docker.io") → '/' ∉ R.data →
      ("docker.io/library/" ++ r.name).length ≤ 255 →
      qualifyContainerImages D [⟨name, R⟩] = ([⟨name, D ++ "/" ++ R⟩], "", none) ∧
      parsers.ParseImageName (D ++ "/" ++ R) =
        ("docker.io/library/" ++ r.name,
          if r.tag = "" ∧ r.digest = "" then "latest" else r.tag, r.digest, none)) ∧
    (D = "index.docker.io" → '/' ∈ R.data →
      ("docker.io/" ++ r.name).length ≤ 255 →
      qualifyContainerImages D [⟨name, R⟩] = ([⟨name, D ++ "/" ++ R⟩], "", none) ∧
      parsers.ParseImageName (D ++ "/" ++ R) =
        ("docker.io/" ++ r.name,
          if r.tag = "" ∧ r.digest = "" then "latest" else r.tag, r.digest, none)) := by
  obtain ⟨hat, hfirst⟩ := NewDomain_first_segment input D hD
  obtain ⟨hDi, hs, hd, _⟩ := NewDomain_ok input D hD
  subst hDi
  have hnd : hasDomain R = false := by
    simp only [hasDomain]
    rcases hsp : parsers.SplitImageName R with ⟨d, rem, e⟩
    rw [hsp] at hR
    simp only at hR
    simp [hR.1, hR.2]
  obtain ⟨h1, h2, h3⟩ := ParseNormalizedNamed_candidate D R r hs hd hat hfirst hr hR.2 hlow
  refine ⟨?_, ?_, ?_⟩
  · intro ha hb hc
    exact round_trip_of_normalized D name R _ hnd (h1 ha hb hc)
  · intro ha hb hc
    exact round_trip_of_normalized D name R _ hnd (h2 ha hb hc)
  · intro ha hb hc
    exact round_trip_of_normalized D name R _ hnd (h3 ha hb hc)

/-- Witness for C12 as amended: under `localhost:5000` the reference
`foo/busybox:v1.2.3` is rewritten and parses to the repository
`localhost:5000/foo/busybox` with the tag `v1.2.3`; under `docker.io` the
reference `busybox` parses to `docker.io/library/busybox` with the tag
`latest`; under `index.docker.io` the reference `foo/busybox` parses to
`docker.io/foo/busybox`. -/
theorem qualify_round_trip_witness :
    NewDomain "localhost:5000" = ("localhost:5000", none) ∧
    ((parsers.SplitImageName "foo/busybox:v1.2.3").2.2 = none ∧
      (parsers.SplitImageName "foo/busybox:v1.2.3").1 = "") ∧
    dockerref.Parse "foo/busybox:v1.2.3" = .ok ⟨"foo/busybox", "v1.2.3", ""⟩ ∧
    (qualifyContainerImages "localhost:5000" [⟨"ctrl4", "foo/busybox:v1.2.3"⟩] =
        ([⟨"ctrl4", "localhost:5000" ++ "/" ++ "foo/busybox:v1.2.3"⟩], "", none) ∧
      parsers.ParseImageName ("localhost:5000" ++ "/" ++ "foo/busybox:v1.2.3") =
        ("localhost:5000" ++ "/" ++ "foo/busybox", "v1.2.3", "", none)) ∧
    (qualifyContainerImages "docker.io" [⟨"ctrl1", "busybox"⟩] =
        ([⟨"ctrl1", "docker.io" ++ "/" ++ "busybox"⟩], "", none) ∧
      parsers.ParseImageName ("docker.io" ++ "/" ++ "busybox") =
        ("docker.io/library/" ++ "busybox", "latest", "", none)) ∧
    (qualifyContainerImages "index.docker.io" [⟨"ctrl3", "foo/busybox"⟩] =
        ([⟨"ctrl3", "index.docker.io" ++ "/" ++ "foo/busybox"⟩], "", none) ∧
      parsers.ParseImageName ("index.docker.io" ++ "/" ++ "foo/busybox") =
        ("docker.io/" ++ "foo/busybox", "latest", "", none)) :=
  ⟨by decide, by decide, by rfl,
   (qualify_round_trip "localhost:5000" "localhost:5000" "ctrl4" "foo/busybox:v1.2.3"
      ⟨"foo/busybox", "v1.2.3", ""⟩ (by decide) (by decide) (by rfl) (by decide)).1
      (by decide) (by decide) (by decide),
   (qualify_round_trip "docker.io" "docker.io" "ctrl1" "busybox"
      ⟨"busybox", "", ""⟩ (by decide) (by decide) (by rfl) (by decide)).2.1
      (Or.inl rfl) (by decide) (by decide),
   (qualify_round_trip "index.docker.io" "index.docker.io" "ctrl3" "foo/busybox"
      ⟨"foo/busybox", "", ""⟩ (by decide) (by decide) (by rfl) (by decide)).2.2
      rfl (by decide) (by decide)⟩
